import Mathlib

/-!
# NonThreadSafeSmartPointer: reference counting and disposal protocol

A shallow embedding of `smart_pointer_nts.h`.

* Addresses are natural numbers, `0` is `nullptr`.
* A `std::function<void(void*)>` deleter is an `Option DeleterFn` (`none` is the empty
  function); invoking a deleter appends `(deleter, pointer)` to the log `Heap.released`.
* Reference counters live in `Heap.counters`; the slot of a counter that was `delete`d is
  `none`, and every `delete` is logged in `Heap.freed` together with the counts the counter
  held at that moment.  `new` always yields a slot that was never used before.
* The `int` fields `sref_count` / `wref_count` are mathematical integers in `step`, which
  covers executions with fewer than `2^31` handles per counter; `step_int` reduces them to
  32 bits after every operation and shows what happens at the bound.
* Reading or writing through a pointer to a freed counter, and a failed `assert`, have no
  defined result: the operation returns `none`.
* The program state is the heap plus the tables of the shared and weak handle objects that
  were constructed so far (`none` = the object was destroyed).  In `State` the managed
  resources hold no handles, so a deleter call changes nothing but the log and the argument
  of an assignment can be taken by value.
* `Mem` and `RefState` add pointees that hold shared handles as members: there
  `delete_pointee` runs the destructors of the members, and `copy_assign_ref` /
  `move_assign_ref` read their argument through a reference, after the release, as the
  source does.
-/

namespace smart_pointer_nts

/-- Raw addresses; `0` is `nullptr`. -/
abbrev Ptr := Nat

/-- The null address. -/
abbrev nullptr : Ptr := 0

/-- Address of a heap allocated `SharedPtrRefCounter`. -/
abbrev CounterId := Nat

/-- The callables that are stored as deleters: the two instantiations of
`smart_ptr_nts::Deleter<U>` and user supplied ones. -/
inductive DeleterFn where
  | scalar_delete
  | array_delete
  | custom (tag : Nat)
deriving DecidableEq, Repr

/-- `smart_ptr_nts::Deleter<U>`: `delete[]` iff `T0` is an array type. -/
def Deleter (T0_is_array : Bool) : DeleterFn :=
  if T0_is_array then DeleterFn.array_delete else DeleterFn.scalar_delete

/-- `class SharedPtrRefCounter`. -/
structure SharedPtrRefCounter where
  sref_count : Int
  wref_count : Int
  resource : Ptr
deriving DecidableEq, Repr

namespace SharedPtrRefCounter

/-- `SharedPtrRefCounter(void* resource)`. -/
def create (resource : Ptr) : SharedPtrRefCounter :=
  { sref_count := 1, wref_count := 0, resource := resource }

/-- `IncreaseOwner()`: the updated counter and the returned value. -/
def IncreaseOwner (k : SharedPtrRefCounter) : SharedPtrRefCounter × Int :=
  ({ k with sref_count := k.sref_count + 1 }, k.sref_count + 1)

/-- `DecreaseOwner()`. -/
def DecreaseOwner (k : SharedPtrRefCounter) : SharedPtrRefCounter × Int :=
  ({ k with sref_count := k.sref_count - 1 }, k.sref_count - 1)

/-- `IncreaseObserver()`. -/
def IncreaseObserver (k : SharedPtrRefCounter) : SharedPtrRefCounter × Int :=
  ({ k with wref_count := k.wref_count + 1 }, k.wref_count + 1)

/-- `DecreaseObserver()`. -/
def DecreaseObserver (k : SharedPtrRefCounter) : SharedPtrRefCounter × Int :=
  ({ k with wref_count := k.wref_count - 1 }, k.wref_count - 1)

/-- `CountOwners()`. -/
def CountOwners (k : SharedPtrRefCounter) : Int := k.sref_count

/-- `CountObservers()`. -/
def CountObservers (k : SharedPtrRefCounter) : Int := k.wref_count

end SharedPtrRefCounter

/-- Content of slot `i` of a table: `none` when out of range or vacated. -/
def slot {α : Type} (l : List (Option α)) (i : Nat) : Option α :=
  match l[i]? with
  | some (some a) => some a
  | _ => none

/-- Memory that outlives a single handle: the counters, the log of deleter invocations and
the log of counter deletions. -/
structure Heap where
  counters : List (Option SharedPtrRefCounter)
  released : List (DeleterFn × Ptr)
  freed : List (CounterId × SharedPtrRefCounter)
deriving DecidableEq, Repr

namespace Heap

/-- Dereference a counter pointer. -/
def deref (m : Heap) (c : CounterId) : Option SharedPtrRefCounter := slot m.counters c

/-- Call a mutating member function through a counter pointer. -/
def call (m : Heap) (c : CounterId) (f : SharedPtrRefCounter → SharedPtrRefCounter × Int) :
    Option (Int × Heap) :=
  match m.deref c with
  | none => none
  | some k => some ((f k).2, { m with counters := m.counters.set c (some (f k).1) })

/-- Call a const member function through a counter pointer. -/
def read (m : Heap) (c : CounterId) (f : SharedPtrRefCounter → Int) : Option Int :=
  match m.deref c with
  | none => none
  | some k => some (f k)

/-- `new SharedPtrRefCounter(resource)`. -/
def new_counter (m : Heap) (resource : Ptr) : CounterId × Heap :=
  (m.counters.length,
   { m with counters := m.counters ++ [some (SharedPtrRefCounter.create resource)] })

/-- `delete ref_count`. -/
def delete_counter (m : Heap) (c : CounterId) : Option Heap :=
  match m.deref c with
  | none => none
  | some k => some { m with counters := m.counters.set c none, freed := m.freed ++ [(c, k)] }

/-- Invocation `deleter(rawPtr)`. -/
def invoke (m : Heap) (d : DeleterFn) (p : Ptr) : Heap :=
  { m with released := m.released ++ [(d, p)] }

end Heap

/-- `class smart_ptr_nts<T0, Dt>`: the data members of the base handle. -/
structure smart_ptr_nts where
  rawPtr : Ptr
  deleter : Option DeleterFn
deriving DecidableEq, Repr

namespace smart_ptr_nts

/-- `smart_ptr_nts()`. -/
def null : smart_ptr_nts := { rawPtr := nullptr, deleter := none }

/-- `smart_ptr_nts(U* ptr, Dt deleter)`. -/
def ctor (ptr : Ptr) (deleter : Option DeleterFn) : smart_ptr_nts :=
  { rawPtr := ptr, deleter := if ptr ≠ nullptr then deleter else none }

/-- `smart_ptr_nts(const smart_ptr_nts& target)`. -/
def copy_ctor (target : smart_ptr_nts) : smart_ptr_nts :=
  { rawPtr := target.rawPtr, deleter := target.deleter }

/-- `smart_ptr_nts(smart_ptr_nts&& target)`: the new object and the moved-from target. -/
def move_ctor (target : smart_ptr_nts) : smart_ptr_nts × smart_ptr_nts :=
  ({ rawPtr := target.rawPtr, deleter := target.deleter },
   { rawPtr := nullptr, deleter := none })

/-- `smart_ptr_nts::Dispose()`. -/
def Dispose (self : smart_ptr_nts) (m : Heap) : smart_ptr_nts × Heap :=
  match self.deleter with
  | some d => ({ rawPtr := nullptr, deleter := none }, m.invoke d self.rawPtr)
  | none => ({ rawPtr := nullptr, deleter := none }, m)

/-- `~smart_ptr_nts()`. -/
def dtor (self : smart_ptr_nts) (m : Heap) : Heap := (self.Dispose m).2

/-- `operator=(const smart_ptr_nts& target)`. -/
def copy_assign (self target : smart_ptr_nts) (m : Heap) : smart_ptr_nts × Heap :=
  ({ rawPtr := target.rawPtr, deleter := target.deleter }, (self.Dispose m).2)

/-- `operator=(smart_ptr_nts&& target)`: the new `*this`, the moved-from target, the heap. -/
def move_assign (self target : smart_ptr_nts) (m : Heap) :
    smart_ptr_nts × smart_ptr_nts × Heap :=
  ({ rawPtr := target.rawPtr, deleter := target.deleter },
   { rawPtr := nullptr, deleter := none }, (self.Dispose m).2)

/-- `Get()`. -/
def Get (self : smart_ptr_nts) : Ptr := self.rawPtr

/-- `reset()`. -/
def reset (self : smart_ptr_nts) (m : Heap) : smart_ptr_nts × Heap := self.Dispose m

/-- `reset(U* ptr, deleter)`. -/
def reset_ptr (self : smart_ptr_nts) (ptr : Ptr) (deleter : Option DeleterFn) (m : Heap) :
    smart_ptr_nts × Heap :=
  ({ rawPtr := ptr, deleter := if ptr ≠ nullptr then deleter else (self.Dispose m).1.deleter },
   (self.Dispose m).2)

/-- `DisableDisposing()`. -/
def DisableDisposing (self : smart_ptr_nts) : smart_ptr_nts := { self with deleter := none }

end smart_ptr_nts

/-- `class shared_ptr<T0, Dt> : public smart_ptr_nts<T0, Dt>`. -/
structure shared_ptr extends smart_ptr_nts where
  ref_count : Option CounterId
deriving DecidableEq, Repr

/-- `class weak_ptr<T0> : public smart_ptr_nts<T0, std::function<void(void*)>>`. -/
structure weak_ptr extends smart_ptr_nts where
  ref_count : Option CounterId
deriving DecidableEq, Repr

namespace shared_ptr

/-- `shared_ptr()`. -/
def null : shared_ptr := { smart_ptr_nts.null with ref_count := none }

/-- `shared_ptr::CreateCounter(void* resource)`. -/
def CreateCounter (resource : Ptr) (m : Heap) : CounterId × Heap := m.new_counter resource

/-- `shared_ptr(T* ptr, Dt deleter)`; `shared_ptr(T* ptr)` is the instance whose deleter is
`&Deleter<T>`. -/
def ctor_deleter (ptr : Ptr) (deleter : Option DeleterFn) (m : Heap) : shared_ptr × Heap :=
  if ptr ≠ nullptr then
    ({ smart_ptr_nts.ctor ptr deleter with ref_count := some (CreateCounter ptr m).1 },
     (CreateCounter ptr m).2)
  else
    ({ smart_ptr_nts.ctor ptr deleter with ref_count := none }, m)

/-- `shared_ptr(T* ptr)`. -/
def ctor (T0_is_array : Bool) (ptr : Ptr) (m : Heap) : shared_ptr × Heap :=
  ctor_deleter ptr (some (Deleter T0_is_array)) m

/-- `shared_ptr(const shared_ptr& target)`. -/
def copy_ctor (target : shared_ptr) (m : Heap) : Option (shared_ptr × Heap) :=
  match target.ref_count with
  | some c =>
    match m.call c SharedPtrRefCounter.IncreaseOwner with
    | none => none
    | some (_, m1) =>
      some ({ smart_ptr_nts.copy_ctor target.tosmart_ptr_nts with ref_count := some c }, m1)
  | none => some ({ smart_ptr_nts.copy_ctor target.tosmart_ptr_nts with ref_count := none }, m)

/-- `shared_ptr(shared_ptr&& target)`: the new object and the moved-from target. -/
def move_ctor (target : shared_ptr) : shared_ptr × shared_ptr :=
  ({ (smart_ptr_nts.move_ctor target.tosmart_ptr_nts).1 with ref_count := target.ref_count },
   { (smart_ptr_nts.move_ctor target.tosmart_ptr_nts).2 with ref_count := none })

/-- `shared_ptr::Dispose()`. -/
def Dispose (self : shared_ptr) (m : Heap) : Option (shared_ptr × Heap) :=
  match self.ref_count with
  | none => some (self, m)
  | some c =>
    match m.call c SharedPtrRefCounter.DecreaseOwner with
    | none => none
    | some (n, m1) =>
      if n = 0 then
        match m1.read c SharedPtrRefCounter.CountObservers with
        | none => none
        | some w =>
          if w = 0 then
            match m1.delete_counter c with
            | none => none
            | some m2 => some ({ self with ref_count := none }, m2)
          else some ({ self with ref_count := none }, m1)
      else
        some ({ self.tosmart_ptr_nts.DisableDisposing with ref_count := none }, m1)

/-- `~shared_ptr()` followed by the base class destructor. -/
def dtor (self : shared_ptr) (m : Heap) : Option Heap :=
  match self.Dispose m with
  | none => none
  | some (s1, m1) => some (s1.tosmart_ptr_nts.dtor m1)

/-- `get()`. -/
def get (self : shared_ptr) : Ptr := self.tosmart_ptr_nts.Get

/-- `explicit operator bool()`. -/
def to_bool (self : shared_ptr) : Bool := self.get != nullptr

/-- `operator=(const shared_ptr& target)`. -/
def copy_assign (self target : shared_ptr) (m : Heap) : Option (shared_ptr × Heap) :=
  if self.ref_count = target.ref_count then some (self, m)
  else
    match self.Dispose m with
    | none => none
    | some (s1, m1) =>
      match target.ref_count with
      | some c =>
        match (s1.tosmart_ptr_nts.copy_assign target.tosmart_ptr_nts m1).2.call c
            SharedPtrRefCounter.IncreaseOwner with
        | none => none
        | some (_, m3) =>
          some ({ (s1.tosmart_ptr_nts.copy_assign target.tosmart_ptr_nts m1).1 with
                  ref_count := some c }, m3)
      | none =>
        some ({ (s1.tosmart_ptr_nts.copy_assign target.tosmart_ptr_nts m1).1 with
                ref_count := none },
              (s1.tosmart_ptr_nts.copy_assign target.tosmart_ptr_nts m1).2)

/-- `operator=(shared_ptr&& target)` for `this != &target`: the new `*this`, the moved-from
target and the heap. -/
def move_assign (self target : shared_ptr) (m : Heap) :
    Option (shared_ptr × shared_ptr × Heap) :=
  match self.Dispose m with
  | none => none
  | some (s1, m1) =>
    some ({ (s1.tosmart_ptr_nts.move_assign target.tosmart_ptr_nts m1).1 with
            ref_count := target.ref_count },
          { (s1.tosmart_ptr_nts.move_assign target.tosmart_ptr_nts m1).2.1 with
            ref_count := none },
          (s1.tosmart_ptr_nts.move_assign target.tosmart_ptr_nts m1).2.2)

/-- `reset()`. -/
def reset (self : shared_ptr) (m : Heap) : Option (shared_ptr × Heap) :=
  match self.Dispose m with
  | none => none
  | some (s1, m1) =>
    some ({ s1 with tosmart_ptr_nts := (s1.tosmart_ptr_nts.reset m1).1 },
          (s1.tosmart_ptr_nts.reset m1).2)

/-- `reset(U* ptr, Dt deleter)`; `reset(U* ptr)` is the instance whose deleter is
`&Deleter<U>`. -/
def reset_ptr_deleter (self : shared_ptr) (ptr : Ptr) (deleter : Option DeleterFn) (m : Heap) :
    Option (shared_ptr × Heap) :=
  match self.Dispose m with
  | none => none
  | some (s1, m1) =>
    if ptr ≠ nullptr then
      some ({ (s1.tosmart_ptr_nts.reset_ptr ptr deleter m1).1 with
              ref_count := some (CreateCounter ptr (s1.tosmart_ptr_nts.reset_ptr ptr deleter m1).2).1 },
            (CreateCounter ptr (s1.tosmart_ptr_nts.reset_ptr ptr deleter m1).2).2)
    else
      some ({ (s1.tosmart_ptr_nts.reset_ptr ptr deleter m1).1 with ref_count := s1.ref_count },
            (s1.tosmart_ptr_nts.reset_ptr ptr deleter m1).2)

/-- `reset(U* ptr)`. -/
def reset_ptr (T0_is_array : Bool) (self : shared_ptr) (ptr : Ptr) (m : Heap) :
    Option (shared_ptr × Heap) :=
  self.reset_ptr_deleter ptr (some (Deleter T0_is_array)) m

/-- `use_count()`. -/
def use_count (self : shared_ptr) (m : Heap) : Option Int :=
  match self.ref_count with
  | some c => m.read c SharedPtrRefCounter.CountOwners
  | none => some 0

/-- `AccesserForWeakPtr::GetRefCounter(obj)`. -/
def GetRefCounter (obj : shared_ptr) : Option CounterId := obj.ref_count

/-- The private constructor `shared_ptr(T* raw_ptr, SharedPtrRefCounter* ref_count)`. -/
def private_ctor (T0_is_array : Bool) (raw_ptr : Ptr) (ref_count : Option CounterId)
    (m : Heap) : Option (shared_ptr × Heap) :=
  match ref_count with
  | none => none
  | some c =>
    match m.read c SharedPtrRefCounter.CountOwners with
    | none => none
    | some n =>
      if raw_ptr ≠ nullptr ∧ n ≠ 0 then
        match m.call c SharedPtrRefCounter.IncreaseOwner with
        | none => none
        | some (_, m1) =>
          some ({ smart_ptr_nts.ctor raw_ptr (some (Deleter T0_is_array)) with
                  ref_count := some c }, m1)
      else none

/-- `AccesserForWeakPtr::CreateFrom(raw_ptr, ref_count)`. -/
def CreateFrom (T0_is_array : Bool) (raw_ptr : Ptr) (ref_count : Option CounterId)
    (m : Heap) : Option (shared_ptr × Heap) :=
  if raw_ptr ≠ nullptr then
    match ref_count with
    | some c =>
      match m.read c SharedPtrRefCounter.CountOwners with
      | none => none
      | some n =>
        if n ≠ 0 then private_ctor T0_is_array raw_ptr ref_count m
        else some (null, m)
    | none => some (null, m)
  else some (null, m)

end shared_ptr

namespace weak_ptr

/-- `weak_ptr()`. -/
def null : weak_ptr := { smart_ptr_nts.null with ref_count := none }

/-- `weak_ptr(shared_ptr<T0, Dt>& sharedPtr)`. -/
def from_shared (sharedPtr : shared_ptr) (m : Heap) : Option (weak_ptr × Heap) :=
  match shared_ptr.GetRefCounter sharedPtr with
  | some c =>
    match m.call c SharedPtrRefCounter.IncreaseObserver with
    | none => none
    | some (_, m1) =>
      some ({ smart_ptr_nts.ctor sharedPtr.get none with ref_count := some c }, m1)
  | none => some ({ smart_ptr_nts.ctor sharedPtr.get none with ref_count := none }, m)

/-- `weak_ptr(weak_ptr& another)`. -/
def copy_ctor (another : weak_ptr) (m : Heap) : Option (weak_ptr × Heap) :=
  match another.ref_count with
  | some c =>
    match m.call c SharedPtrRefCounter.IncreaseObserver with
    | none => none
    | some (_, m1) =>
      some ({ smart_ptr_nts.copy_ctor another.tosmart_ptr_nts with ref_count := some c }, m1)
  | none => some ({ smart_ptr_nts.copy_ctor another.tosmart_ptr_nts with ref_count := none }, m)

/-- `weak_ptr(weak_ptr&& another)`: the new object and the moved-from source. -/
def move_ctor (another : weak_ptr) : weak_ptr × weak_ptr :=
  ({ (smart_ptr_nts.move_ctor another.tosmart_ptr_nts).1 with ref_count := another.ref_count },
   { (smart_ptr_nts.move_ctor another.tosmart_ptr_nts).2 with ref_count := none })

/-- `weak_ptr::Dispose()`. -/
def Dispose (self : weak_ptr) (m : Heap) : Option (weak_ptr × Heap) :=
  match self.ref_count with
  | none => some (self, m)
  | some c =>
    match m.call c SharedPtrRefCounter.DecreaseObserver with
    | none => none
    | some (n, m1) =>
      if n = 0 then
        match m1.read c SharedPtrRefCounter.CountOwners with
        | none => none
        | some o =>
          if o = 0 then
            match m1.delete_counter c with
            | none => none
            | some m2 => some ({ self with ref_count := none }, m2)
          else some ({ self with ref_count := none }, m1)
      else some ({ self with ref_count := none }, m1)

/-- `~weak_ptr()` followed by the base class destructor. -/
def dtor (self : weak_ptr) (m : Heap) : Option Heap :=
  match self.Dispose m with
  | none => none
  | some (s1, m1) => some (s1.tosmart_ptr_nts.dtor m1)

/-- `operator=(weak_ptr& target)`. -/
def copy_assign (self target : weak_ptr) (m : Heap) : Option (weak_ptr × Heap) :=
  if self.ref_count = target.ref_count then some (self, m)
  else
    match self.Dispose m with
    | none => none
    | some (s1, m1) =>
      match target.ref_count with
      | some c =>
        match (s1.tosmart_ptr_nts.copy_assign target.tosmart_ptr_nts m1).2.call c
            SharedPtrRefCounter.IncreaseObserver with
        | none => none
        | some (_, m3) =>
          some ({ (s1.tosmart_ptr_nts.copy_assign target.tosmart_ptr_nts m1).1 with
                  ref_count := some c }, m3)
      | none =>
        some ({ (s1.tosmart_ptr_nts.copy_assign target.tosmart_ptr_nts m1).1 with
                ref_count := none },
              (s1.tosmart_ptr_nts.copy_assign target.tosmart_ptr_nts m1).2)

/-- `operator=(weak_ptr&& target)` for `this != &target`: the new `*this`, the moved-from
target and the heap. -/
def move_assign (self target : weak_ptr) (m : Heap) : Option (weak_ptr × weak_ptr × Heap) :=
  match self.Dispose m with
  | none => none
  | some (s1, m1) =>
    some ({ (s1.tosmart_ptr_nts.move_assign target.tosmart_ptr_nts m1).1 with
            ref_count := target.ref_count },
          { (s1.tosmart_ptr_nts.move_assign target.tosmart_ptr_nts m1).2.1 with
            ref_count := none },
          (s1.tosmart_ptr_nts.move_assign target.tosmart_ptr_nts m1).2.2)

/-- `operator=(shared_ptr<T0>& target)`: builds `tmpForCopy`, move-assigns it and destroys
the moved-from temporary. -/
def assign_shared (self : weak_ptr) (target : shared_ptr) (m : Heap) :
    Option (weak_ptr × Heap) :=
  match from_shared target m with
  | none => none
  | some (tmpForCopy, m1) =>
    match self.move_assign tmpForCopy m1 with
    | none => none
    | some (s1, tmp1, m2) =>
      match tmp1.dtor m2 with
      | none => none
      | some m3 => some (s1, m3)

/-- `reset()`. -/
def reset (self : weak_ptr) (m : Heap) : Option (weak_ptr × Heap) :=
  match self.Dispose m with
  | none => none
  | some (s1, m1) =>
    some ({ s1 with tosmart_ptr_nts := (s1.tosmart_ptr_nts.reset m1).1 },
          (s1.tosmart_ptr_nts.reset m1).2)

/-- `lock()`. -/
def lock (T0_is_array : Bool) (self : weak_ptr) (m : Heap) : Option (shared_ptr × Heap) :=
  shared_ptr.CreateFrom T0_is_array self.tosmart_ptr_nts.Get self.ref_count m

/-- `expired()`. -/
def expired (self : weak_ptr) (m : Heap) : Option Bool :=
  match self.ref_count with
  | some c =>
    match m.read c SharedPtrRefCounter.CountOwners with
    | none => none
    | some n => some (if n ≠ 0 then false else true)
  | none => some true

end weak_ptr

/-- `class unique_ptr<T0, Dt> : public smart_ptr_nts<T0, Dt>`: no data member of its own. -/
structure unique_ptr extends smart_ptr_nts
deriving DecidableEq, Repr

namespace unique_ptr

/-- `unique_ptr()`. -/
def null : unique_ptr := { tosmart_ptr_nts := smart_ptr_nts.null }

/-- `unique_ptr(T* ptr, Dt deleter)`. -/
def ctor_deleter (ptr : Ptr) (deleter : Option DeleterFn) : unique_ptr :=
  { tosmart_ptr_nts := smart_ptr_nts.ctor ptr deleter }

/-- `unique_ptr(T* ptr)`: the base constructor with its default argument `&Deleter<T>`. -/
def ctor (T0_is_array : Bool) (ptr : Ptr) : unique_ptr :=
  { tosmart_ptr_nts := smart_ptr_nts.ctor ptr (some (Deleter T0_is_array)) }

/-- `unique_ptr(unique_ptr&& target)`: the new object and the moved-from target. -/
def move_ctor (target : unique_ptr) : unique_ptr × unique_ptr :=
  ({ tosmart_ptr_nts := (smart_ptr_nts.move_ctor target.tosmart_ptr_nts).1 },
   { tosmart_ptr_nts := (smart_ptr_nts.move_ctor target.tosmart_ptr_nts).2 })

/-- `unique_ptr::Dispose()`: "nothing todo". -/
def Dispose (self : unique_ptr) : unique_ptr := self

/-- `~unique_ptr()` followed by the base class destructor. -/
def dtor (self : unique_ptr) (m : Heap) : Heap := self.Dispose.tosmart_ptr_nts.dtor m

/-- `get()`. -/
def get (self : unique_ptr) : Ptr := self.tosmart_ptr_nts.Get

/-- `explicit operator bool()`. -/
def to_bool (self : unique_ptr) : Bool := self.get != nullptr

/-- `operator=(unique_ptr&& target)` for `this != &target`: the new `*this`, the moved-from
target and the heap. -/
def move_assign (self target : unique_ptr) (m : Heap) : unique_ptr × unique_ptr × Heap :=
  ({ tosmart_ptr_nts :=
       (self.Dispose.tosmart_ptr_nts.move_assign target.tosmart_ptr_nts m).1 },
   { tosmart_ptr_nts :=
       (self.Dispose.tosmart_ptr_nts.move_assign target.tosmart_ptr_nts m).2.1 },
   (self.Dispose.tosmart_ptr_nts.move_assign target.tosmart_ptr_nts m).2.2)

/-- `reset()`. -/
def reset (self : unique_ptr) (m : Heap) : unique_ptr × Heap :=
  ({ tosmart_ptr_nts := (self.Dispose.tosmart_ptr_nts.reset m).1 },
   (self.Dispose.tosmart_ptr_nts.reset m).2)

/-- `reset(U* ptr, Dt deleter)`. -/
def reset_ptr_deleter (self : unique_ptr) (ptr : Ptr) (deleter : Option DeleterFn) (m : Heap) :
    unique_ptr × Heap :=
  ({ tosmart_ptr_nts := (self.Dispose.tosmart_ptr_nts.reset_ptr ptr deleter m).1 },
   (self.Dispose.tosmart_ptr_nts.reset_ptr ptr deleter m).2)

/-- `reset(U* ptr)`: the base `reset` with its default argument `&Deleter<U>`. -/
def reset_ptr (T0_is_array : Bool) (self : unique_ptr) (ptr : Ptr) (m : Heap) :
    unique_ptr × Heap :=
  self.reset_ptr_deleter ptr (some (Deleter T0_is_array)) m

/-- `operator==(unique_ptr<T>&, unique_ptr<M>&)`. -/
def operator_eq (target1 target2 : unique_ptr) : Bool := target1.get == target2.get

/-- `operator==(const unique_ptr<T>&, nullptr_t)`. -/
def operator_eq_nullptr (target : unique_ptr) : Bool := !(target.get != nullptr)

/-- `std::hash<unique_ptr<T>>`, over the library's `std::hash<T*>`. -/
def std_hash (hash_ptr : Ptr → Nat) (target : unique_ptr) : Nat := hash_ptr target.get

/-- `std::equal_to<unique_ptr<T>>`. -/
def std_equal_to (target1 target2 : unique_ptr) : Bool := target1.get == target2.get

end unique_ptr

/-- `operator==(shared_ptr<T>&, shared_ptr<M>&)`. -/
def shared_ptr.operator_eq (target1 target2 : shared_ptr) : Bool := target1.get == target2.get

/-- `operator==(shared_ptr<T>&, nullptr_t)`. -/
def shared_ptr.operator_eq_nullptr (target : shared_ptr) : Bool := !(target.get != nullptr)

/-- `std::hash<shared_ptr<T>>`, over the library's `std::hash<T*>`. -/
def shared_ptr.std_hash (hash_ptr : Ptr → Nat) (target : shared_ptr) : Nat :=
  hash_ptr target.get

/-- `std::equal_to<shared_ptr<T>>`. -/
def shared_ptr.std_equal_to (target1 target2 : shared_ptr) : Bool :=
  target1.get == target2.get

/-- The program state: the heap and the handle objects constructed so far, by index
(`none` marks a destroyed object). -/
structure State where
  heap : Heap
  shareds : List (Option shared_ptr)
  weaks : List (Option weak_ptr)
deriving DecidableEq, Repr

/-- The public operations of shared and weak handles.  Operands are indices into the handle
tables; a constructor (and `lock`) puts the new object at the end of its table. -/
inductive Op where
  | shared_default
  | shared_from_raw (T0_is_array : Bool) (ptr : Ptr)
  | shared_from_raw_deleter (ptr : Ptr) (deleter : Option DeleterFn)
  | shared_copy (src : Nat)
  | shared_move (src : Nat)
  | shared_copy_assign (dst src : Nat)
  | shared_move_assign (dst src : Nat)
  | shared_reset (i : Nat)
  | shared_reset_ptr (T0_is_array : Bool) (i : Nat) (ptr : Ptr)
  | shared_reset_ptr_deleter (i : Nat) (ptr : Ptr) (deleter : Option DeleterFn)
  | shared_destroy (i : Nat)
  | weak_default
  | weak_from_shared (src : Nat)
  | weak_copy (src : Nat)
  | weak_move (src : Nat)
  | weak_copy_assign (dst src : Nat)
  | weak_assign_shared (dst src : Nat)
  | weak_move_assign (dst src : Nat)
  | weak_reset (i : Nat)
  | weak_lock (T0_is_array : Bool) (i : Nat)
  | weak_destroy (i : Nat)
deriving DecidableEq, Repr

/-- The state before any handle exists. -/
def State.init : State :=
  { heap := { counters := [], released := [], freed := [] }, shareds := [], weaks := [] }

/-- One public operation.  `none`: an operand is not a live object, a move assignment is a
self assignment (`assert(this != &target)`), or the code touched a freed counter. -/
def step (s : State) : Op → Option State
  | Op.shared_default => some { s with shareds := s.shareds ++ [some shared_ptr.null] }
  | Op.shared_from_raw a ptr =>
    some { s with heap := (shared_ptr.ctor a ptr s.heap).2,
                  shareds := s.shareds ++ [some (shared_ptr.ctor a ptr s.heap).1] }
  | Op.shared_from_raw_deleter ptr d =>
    some { s with heap := (shared_ptr.ctor_deleter ptr d s.heap).2,
                  shareds := s.shareds ++ [some (shared_ptr.ctor_deleter ptr d s.heap).1] }
  | Op.shared_copy src =>
    match slot s.shareds src with
    | none => none
    | some t =>
      match shared_ptr.copy_ctor t s.heap with
      | none => none
      | some (n, m) => some { s with heap := m, shareds := s.shareds ++ [some n] }
  | Op.shared_move src =>
    match slot s.shareds src with
    | none => none
    | some t =>
      some { s with shareds := s.shareds.set src (some (shared_ptr.move_ctor t).2)
                                ++ [some (shared_ptr.move_ctor t).1] }
  | Op.shared_copy_assign dst src =>
    match slot s.shareds dst, slot s.shareds src with
    | some d, some t =>
      match shared_ptr.copy_assign d t s.heap with
      | none => none
      | some (d1, m) => some { s with heap := m, shareds := s.shareds.set dst (some d1) }
    | _, _ => none
  | Op.shared_move_assign dst src =>
    if dst = src then none
    else
      match slot s.shareds dst, slot s.shareds src with
      | some d, some t =>
        match shared_ptr.move_assign d t s.heap with
        | none => none
        | some (d1, t1, m) =>
          some { s with heap := m,
                        shareds := (s.shareds.set dst (some d1)).set src (some t1) }
      | _, _ => none
  | Op.shared_reset i =>
    match slot s.shareds i with
    | none => none
    | some h =>
      match shared_ptr.reset h s.heap with
      | none => none
      | some (h1, m) => some { s with heap := m, shareds := s.shareds.set i (some h1) }
  | Op.shared_reset_ptr a i ptr =>
    match slot s.shareds i with
    | none => none
    | some h =>
      match shared_ptr.reset_ptr a h ptr s.heap with
      | none => none
      | some (h1, m) => some { s with heap := m, shareds := s.shareds.set i (some h1) }
  | Op.shared_reset_ptr_deleter i ptr d =>
    match slot s.shareds i with
    | none => none
    | some h =>
      match shared_ptr.reset_ptr_deleter h ptr d s.heap with
      | none => none
      | some (h1, m) => some { s with heap := m, shareds := s.shareds.set i (some h1) }
  | Op.shared_destroy i =>
    match slot s.shareds i with
    | none => none
    | some h =>
      match shared_ptr.dtor h s.heap with
      | none => none
      | some m => some { s with heap := m, shareds := s.shareds.set i none }
  | Op.weak_default => some { s with weaks := s.weaks ++ [some weak_ptr.null] }
  | Op.weak_from_shared src =>
    match slot s.shareds src with
    | none => none
    | some t =>
      match weak_ptr.from_shared t s.heap with
      | none => none
      | some (n, m) => some { s with heap := m, weaks := s.weaks ++ [some n] }
  | Op.weak_copy src =>
    match slot s.weaks src with
    | none => none
    | some t =>
      match weak_ptr.copy_ctor t s.heap with
      | none => none
      | some (n, m) => some { s with heap := m, weaks := s.weaks ++ [some n] }
  | Op.weak_move src =>
    match slot s.weaks src with
    | none => none
    | some t =>
      some { s with weaks := s.weaks.set src (some (weak_ptr.move_ctor t).2)
                              ++ [some (weak_ptr.move_ctor t).1] }
  | Op.weak_copy_assign dst src =>
    match slot s.weaks dst, slot s.weaks src with
    | some d, some t =>
      match weak_ptr.copy_assign d t s.heap with
      | none => none
      | some (d1, m) => some { s with heap := m, weaks := s.weaks.set dst (some d1) }
    | _, _ => none
  | Op.weak_assign_shared dst src =>
    match slot s.weaks dst, slot s.shareds src with
    | some d, some t =>
      match weak_ptr.assign_shared d t s.heap with
      | none => none
      | some (d1, m) => some { s with heap := m, weaks := s.weaks.set dst (some d1) }
    | _, _ => none
  | Op.weak_move_assign dst src =>
    if dst = src then none
    else
      match slot s.weaks dst, slot s.weaks src with
      | some d, some t =>
        match weak_ptr.move_assign d t s.heap with
        | none => none
        | some (d1, t1, m) =>
          some { s with heap := m, weaks := (s.weaks.set dst (some d1)).set src (some t1) }
      | _, _ => none
  | Op.weak_reset i =>
    match slot s.weaks i with
    | none => none
    | some h =>
      match weak_ptr.reset h s.heap with
      | none => none
      | some (h1, m) => some { s with heap := m, weaks := s.weaks.set i (some h1) }
  | Op.weak_lock a i =>
    match slot s.weaks i with
    | none => none
    | some h =>
      match weak_ptr.lock a h s.heap with
      | none => none
      | some (n, m) => some { s with heap := m, shareds := s.shareds ++ [some n] }
  | Op.weak_destroy i =>
    match slot s.weaks i with
    | none => none
    | some h =>
      match weak_ptr.dtor h s.heap with
      | none => none
      | some m => some { s with heap := m, weaks := s.weaks.set i none }

/-- Run a sequence of operations from left to right. -/
def run (s : State) : List Op → Option State
  | [] => some s
  | op :: ops =>
    match step s op with
    | none => none
    | some s1 => run s1 ops

/-- States reachable from the initial empty state by public operations. -/
def Reachable (s : State) : Prop := ∃ ops : List Op, run State.init ops = some s

/-- Does a shared handle slot hold a live handle that references counter `c`? -/
def shared_refs (c : CounterId) : Option shared_ptr → Bool
  | some h => decide (h.ref_count = some c)
  | none => false

/-- Does a weak handle slot hold a live handle that references counter `c`? -/
def weak_refs (c : CounterId) : Option weak_ptr → Bool
  | some h => decide (h.ref_count = some c)
  | none => false

/-- Number of live shared handles that reference counter `c`. -/
def State.owners (s : State) (c : CounterId) : Nat := s.shareds.countP (shared_refs c)

/-- Number of live weak handles that reference counter `c`. -/
def State.observers (s : State) (c : CounterId) : Nat := s.weaks.countP (weak_refs c)

/-- Indicator of `r = some c`. -/
def holds (r : Option CounterId) (c : CounterId) : Int := if r = some c then 1 else 0

/-! ### Predicates and sample states used by the theorems -/

/-- The invariant of the protocol: counters agree with the handles that reference them, a
counter without references is gone, handles agree with their counter on the resource
address, and the deletion log records each counter once, with both counts at zero. -/
structure Inv (s : State) : Prop where
  live : ∀ c k, s.heap.deref c = some k →
    k.sref_count = (s.owners c : Int) ∧ k.wref_count = (s.observers c : Int) ∧
      0 < s.owners c + s.observers c
  dead : ∀ c, s.heap.deref c = none → s.owners c = 0 ∧ s.observers c = 0
  res : ∀ c k, s.heap.deref c = some k → k.resource ≠ nullptr
  sptr : ∀ i h c k, slot s.shareds i = some h → h.ref_count = some c →
    s.heap.deref c = some k → h.rawPtr = k.resource
  wptr : ∀ i h c k, slot s.weaks i = some h → h.ref_count = some c →
    s.heap.deref c = some k → h.rawPtr = k.resource
  snull : ∀ i h, slot s.shareds i = some h → h.ref_count = none →
    h.rawPtr = nullptr ∧ h.deleter = none
  wnull : ∀ i h, slot s.weaks i = some h →
    h.deleter = none ∧ (h.ref_count = none → h.rawPtr = nullptr)
  freed_once : (s.heap.freed.map Prod.fst).Nodup
  freed_zero : ∀ e ∈ s.heap.freed, e.2.sref_count = 0 ∧ e.2.wref_count = 0 ∧
    e.1 < s.heap.counters.length ∧ s.heap.deref e.1 = none

/-- A shared handle of the new state is a handle of the old state, an empty handle, or a
handle on counter `c` that stores the address `r`. -/
def SharedFrom (s s' : State) (c : CounterId) (r : Ptr) : Prop :=
  ∀ j h, slot s'.shareds j = some h →
    (∃ j0, slot s.shareds j0 = some h) ∨
    (h.ref_count = none ∧ h.rawPtr = nullptr ∧ h.deleter = none) ∨
    (h.ref_count = some c ∧ h.rawPtr = r)

/-- A weak handle of the new state is a handle of the old state, an empty handle, or a
handle on counter `c` that stores the address `r`; new ones carry no deleter. -/
def WeakFrom (s s' : State) (c : CounterId) (r : Ptr) : Prop :=
  ∀ j h, slot s'.weaks j = some h →
    (∃ j0, slot s.weaks j0 = some h) ∨
    (h.deleter = none ∧ h.ref_count = none ∧ h.rawPtr = nullptr) ∨
    (h.deleter = none ∧ h.ref_count = some c ∧ h.rawPtr = r)

/-- A reachable state used to instantiate the theorems: one resource at address `100`,
owned by two shared handles and observed by one weak handle. -/
def demo_state : State :=
  { heap := { counters := [some { sref_count := 2, wref_count := 1, resource := 100 }],
              released := [], freed := [] },
    shareds := [some { rawPtr := 100, deleter := some DeleterFn.scalar_delete, ref_count := some 0 },
                some { rawPtr := 100, deleter := some DeleterFn.scalar_delete, ref_count := some 0 }],
    weaks := [some { rawPtr := 100, deleter := none, ref_count := some 0 }] }

/-- What `smart_ptr_nts::Dispose` appends to the log of deleter invocations. -/
def invocations (b : smart_ptr_nts) : List (DeleterFn × Ptr) :=
  match b.deleter with
  | some d => [(d, b.rawPtr)]
  | none => []

/-- Operations that dispose a handle's current ownership or observation: destructors,
`reset` and assignments.  The others only construct handles. -/
def Op.disposes : Op → Bool
  | Op.shared_copy_assign _ _ => true
  | Op.shared_move_assign _ _ => true
  | Op.shared_reset _ => true
  | Op.shared_reset_ptr _ _ _ => true
  | Op.shared_reset_ptr_deleter _ _ _ => true
  | Op.shared_destroy _ => true
  | Op.weak_copy_assign _ _ => true
  | Op.weak_assign_shared _ _ => true
  | Op.weak_move_assign _ _ => true
  | Op.weak_reset _ => true
  | Op.weak_destroy _ => true
  | _ => false

/-- The state after a resource at `100` was wrapped, observed, and then released by its
owner and by its observer, in that order. -/
def freed_demo : State :=
  { heap := { counters := [none], released := [(DeleterFn.scalar_delete, 100)],
              freed := [(0, { sref_count := 0, wref_count := 0, resource := 100 })] },
    shareds := [none], weaks := [none] }

/-- The operands of an operation are live handle objects, and a move assignment is not a
self assignment. -/
def Op.live (s : State) : Op → Prop
  | Op.shared_default => True
  | Op.shared_from_raw _ _ => True
  | Op.shared_from_raw_deleter _ _ => True
  | Op.shared_copy src => ∃ t, slot s.shareds src = some t
  | Op.shared_move src => ∃ t, slot s.shareds src = some t
  | Op.shared_copy_assign dst src =>
    (∃ d, slot s.shareds dst = some d) ∧ ∃ t, slot s.shareds src = some t
  | Op.shared_move_assign dst src =>
    dst ≠ src ∧ (∃ d, slot s.shareds dst = some d) ∧ ∃ t, slot s.shareds src = some t
  | Op.shared_reset i => ∃ h, slot s.shareds i = some h
  | Op.shared_reset_ptr _ i _ => ∃ h, slot s.shareds i = some h
  | Op.shared_reset_ptr_deleter i _ _ => ∃ h, slot s.shareds i = some h
  | Op.shared_destroy i => ∃ h, slot s.shareds i = some h
  | Op.weak_default => True
  | Op.weak_from_shared src => ∃ t, slot s.shareds src = some t
  | Op.weak_copy src => ∃ t, slot s.weaks src = some t
  | Op.weak_move src => ∃ t, slot s.weaks src = some t
  | Op.weak_copy_assign dst src =>
    (∃ d, slot s.weaks dst = some d) ∧ ∃ t, slot s.weaks src = some t
  | Op.weak_assign_shared dst src =>
    (∃ d, slot s.weaks dst = some d) ∧ ∃ t, slot s.shareds src = some t
  | Op.weak_move_assign dst src =>
    dst ≠ src ∧ (∃ d, slot s.weaks dst = some d) ∧ ∃ t, slot s.weaks src = some t
  | Op.weak_reset i => ∃ h, slot s.weaks i = some h
  | Op.weak_lock _ i => ∃ h, slot s.weaks i = some h
  | Op.weak_destroy i => ∃ h, slot s.weaks i = some h

/-- A counter after its observer count moved by `d`: deleted when that leaves it without
observer and without owner. -/
def observer_shift (d : Int) (k : SharedPtrRefCounter) : Option SharedPtrRefCounter :=
  if k.wref_count + d = 0 ∧ k.sref_count = 0 then none
  else some { k with wref_count := k.wref_count + d }

/-- The weak handle operations other than `lock()`. -/
def Op.weak_only : Op → Bool
  | Op.weak_default => true
  | Op.weak_from_shared _ => true
  | Op.weak_copy _ => true
  | Op.weak_move _ => true
  | Op.weak_copy_assign _ _ => true
  | Op.weak_assign_shared _ _ => true
  | Op.weak_move_assign _ _ => true
  | Op.weak_reset _ => true
  | Op.weak_destroy _ => true
  | _ => false

/-- The counter that a weak handle operation starts to observe: the counter of the handle
that is copied, converted or assigned from. -/
def Op.observed (s : State) : Op → Option CounterId
  | Op.weak_from_shared src => (slot s.shareds src).bind shared_ptr.ref_count
  | Op.weak_copy src => (slot s.weaks src).bind weak_ptr.ref_count
  | Op.weak_copy_assign _ src => (slot s.weaks src).bind weak_ptr.ref_count
  | Op.weak_assign_shared _ src => (slot s.shareds src).bind shared_ptr.ref_count
  | _ => none

/-- The counter that a weak handle operation stops to observe: the counter of the handle
that is assigned to, reset or destroyed. -/
def Op.unobserved (s : State) : Op → Option CounterId
  | Op.weak_copy_assign dst _ => (slot s.weaks dst).bind weak_ptr.ref_count
  | Op.weak_assign_shared dst _ => (slot s.weaks dst).bind weak_ptr.ref_count
  | Op.weak_move_assign dst _ => (slot s.weaks dst).bind weak_ptr.ref_count
  | Op.weak_reset i => (slot s.weaks i).bind weak_ptr.ref_count
  | Op.weak_destroy i => (slot s.weaks i).bind weak_ptr.ref_count
  | _ => none

/-- Net change of the number of observers of counter `c`: `+1` if newly observed, `-1` if no
longer observed. -/
def Op.observer_delta (s : State) (op : Op) (c : CounterId) : Int :=
  holds (op.observed s) c - holds (op.unobserved s) c

/-- Heap `n` follows heap `m` without resurrection: no counter is deallocated from the
table, a freed counter stays freed, and a counter without owner is later either freed or
still without owner, on the same resource. -/
def Stable (m n : Heap) : Prop :=
  m.counters.length ≤ n.counters.length ∧
  ∀ c, (c < m.counters.length → m.deref c = none → n.deref c = none) ∧
    (∀ k, m.deref c = some k → k.sref_count = 0 →
      n.deref c = none ∨
        ∃ k', n.deref c = some k' ∧ k'.sref_count = 0 ∧ k'.resource = k.resource)

/-- Heap `n` follows heap `m` with freed counters and counters without owner untouched. -/
def Untouched (m n : Heap) : Prop :=
  m.counters.length ≤ n.counters.length ∧
  ∀ c, (c < m.counters.length → m.deref c = none → n.deref c = none) ∧
    (∀ k, m.deref c = some k → k.sref_count = 0 → n.deref c = some k)

/-- A reachable state with an orphaned counter: the only owner of the resource at `100` is
gone, one weak handle still observes the counter. -/
def orphan_demo : State :=
  { heap := { counters := [some { sref_count := 0, wref_count := 1, resource := 100 }],
              released := [(DeleterFn.scalar_delete, 100)], freed := [] },
    shareds := [none],
    weaks := [some { rawPtr := 100, deleter := none, ref_count := some 0 }] }

/-- The state `orphan_demo` after copying the weak handle, locking it and destroying it. -/
def orphan_demo_later : State :=
  { heap := { counters := [some { sref_count := 0, wref_count := 1, resource := 100 }],
              released := [(DeleterFn.scalar_delete, 100)], freed := [] },
    shareds := [none, some shared_ptr.null],
    weaks := [none, some { rawPtr := 100, deleter := none, ref_count := some 0 }] }

/-- Heap `n` follows heap `m` with every recorded resource address kept: no counter leaves
the table, a freed counter stays freed, and a counter that is live in both records the same
resource. -/
def Kept (m n : Heap) : Prop :=
  m.counters.length ≤ n.counters.length ∧
  ∀ c, (c < m.counters.length → m.deref c = none → n.deref c = none) ∧
    (∀ k k', m.deref c = some k → n.deref c = some k' → k'.resource = k.resource)

/-- Objects of the base class `smart_ptr_nts<T0, Dt>` constructed so far, by index (`none`
marks a destroyed object), and the heap with the log of deleter invocations. -/
structure BaseState where
  heap : Heap
  handles : List (Option smart_ptr_nts)
deriving DecidableEq, Repr

/-- The member functions of the base class.  Operands are indices into the table of
objects; a constructor puts the new object at the end. -/
inductive BaseOp where
  | null
  | ctor_default (T0_is_array : Bool) (ptr : Ptr)
  | ctor (ptr : Ptr) (deleter : Option DeleterFn)
  | copy_ctor (src : Nat)
  | move_ctor (src : Nat)
  | copy_assign (dst src : Nat)
  | move_assign (dst src : Nat)
  | reset (i : Nat)
  | reset_ptr_default (T0_is_array : Bool) (i : Nat) (ptr : Ptr)
  | reset_ptr (i : Nat) (ptr : Ptr) (deleter : Option DeleterFn)
  | DisableDisposing (i : Nat)
  | Dispose (i : Nat)
  | dtor (i : Nat)
deriving DecidableEq, Repr

/-- The argument `target` as the body of an assignment operator reads it: the assignment
calls `Dispose()` on `*this` first, so when `target` is `*this` it is read after that
call. -/
def smart_ptr_nts.target_read (dst src : Nat) (self target : smart_ptr_nts) (m : Heap) :
    smart_ptr_nts :=
  if dst = src then (self.Dispose m).1 else target

/-- The state before any base object exists. -/
def BaseState.init : BaseState :=
  { heap := { counters := [], released := [], freed := [] }, handles := [] }

/-- One member function call on base objects.  `none`: an operand is not a live object. -/
def base_step (s : BaseState) : BaseOp → Option BaseState
  | BaseOp.null => some { s with handles := s.handles ++ [some smart_ptr_nts.null] }
  | BaseOp.ctor_default a ptr =>
    some { s with handles := s.handles ++ [some (smart_ptr_nts.ctor ptr (some (Deleter a)))] }
  | BaseOp.ctor ptr d =>
    some { s with handles := s.handles ++ [some (smart_ptr_nts.ctor ptr d)] }
  | BaseOp.copy_ctor src =>
    match slot s.handles src with
    | none => none
    | some t => some { s with handles := s.handles ++ [some (smart_ptr_nts.copy_ctor t)] }
  | BaseOp.move_ctor src =>
    match slot s.handles src with
    | none => none
    | some t =>
      some { s with handles := s.handles.set src (some (smart_ptr_nts.move_ctor t).2)
                                ++ [some (smart_ptr_nts.move_ctor t).1] }
  | BaseOp.copy_assign dst src =>
    match slot s.handles dst, slot s.handles src with
    | some d, some t =>
      some { heap := (d.copy_assign (smart_ptr_nts.target_read dst src d t s.heap) s.heap).2,
             handles := s.handles.set dst
               (some (d.copy_assign (smart_ptr_nts.target_read dst src d t s.heap) s.heap).1) }
    | _, _ => none
  | BaseOp.move_assign dst src =>
    match slot s.handles dst, slot s.handles src with
    | some d, some t =>
      some { heap := (d.move_assign (smart_ptr_nts.target_read dst src d t s.heap) s.heap).2.2,
             handles := List.set
               (s.handles.set dst
                 (some (d.move_assign (smart_ptr_nts.target_read dst src d t s.heap) s.heap).1))
               src
               (some (d.move_assign (smart_ptr_nts.target_read dst src d t s.heap) s.heap).2.1) }
    | _, _ => none
  | BaseOp.reset i =>
    match slot s.handles i with
    | none => none
    | some h =>
      some { heap := (h.reset s.heap).2, handles := s.handles.set i (some (h.reset s.heap).1) }
  | BaseOp.reset_ptr_default a i ptr =>
    match slot s.handles i with
    | none => none
    | some h =>
      some { heap := (h.reset_ptr ptr (some (Deleter a)) s.heap).2,
             handles := s.handles.set i (some (h.reset_ptr ptr (some (Deleter a)) s.heap).1) }
  | BaseOp.reset_ptr i ptr d =>
    match slot s.handles i with
    | none => none
    | some h =>
      some { heap := (h.reset_ptr ptr d s.heap).2,
             handles := s.handles.set i (some (h.reset_ptr ptr d s.heap).1) }
  | BaseOp.DisableDisposing i =>
    match slot s.handles i with
    | none => none
    | some h => some { s with handles := s.handles.set i (some h.DisableDisposing) }
  | BaseOp.Dispose i =>
    match slot s.handles i with
    | none => none
    | some h =>
      some { heap := (h.Dispose s.heap).2,
             handles := s.handles.set i (some (h.Dispose s.heap).1) }
  | BaseOp.dtor i =>
    match slot s.handles i with
    | none => none
    | some h => some { heap := h.dtor s.heap, handles := s.handles.set i none }

/-- Run a sequence of base class calls from left to right. -/
def base_run (s : BaseState) : List BaseOp → Option BaseState
  | [] => some s
  | op :: ops =>
    match base_step s op with
    | none => none
    | some s1 => base_run s1 ops

/-- States reachable from the empty state by member functions of the base class. -/
def BaseReachable (s : BaseState) : Prop :=
  ∃ ops : List BaseOp, base_run BaseState.init ops = some s

/-- A base object that stores a deleter stores a non-null pointer. -/
def smart_ptr_nts.Sound (b : smart_ptr_nts) : Prop := b.deleter ≠ none → b.rawPtr ≠ nullptr

/-- Every live base object is sound and no logged deleter invocation is on a null
pointer. -/
def BaseInv (s : BaseState) : Prop :=
  (∀ i h, slot s.handles i = some h → h.Sound) ∧ (∀ e ∈ s.heap.released, e.2 ≠ nullptr)

/-- A state of base objects used to instantiate the theorems: an object on the resource at
`100` and its copy, which was then reset to the null pointer. -/
def base_demo : BaseState :=
  { heap := { counters := [], released := [(DeleterFn.scalar_delete, 100)], freed := [] },
    handles := [some { rawPtr := 100, deleter := some DeleterFn.scalar_delete },
                some { rawPtr := nullptr, deleter := none }] }

/-- Memory in which a pointee may itself hold shared handles as data members (a list node
with a `next` handle): the heap, and for every live pointee of such a type its address and
its member handles.  A pointee without entry holds no handles. -/
structure Mem where
  heap : Heap
  objects : List (Ptr × List shared_ptr)
deriving DecidableEq, Repr

/-- Where a shared handle object lives: in the table of handles with automatic or static
storage, or as member number `k` of the pointee at address `p`. -/
inductive HandleRef where
  | top (i : Nat)
  | member (p : Ptr) (k : Nat)
deriving DecidableEq, Repr

/-- The state of a program whose pointees may hold shared handles. -/
structure RefState where
  mem : Mem
  shareds : List (Option shared_ptr)
deriving DecidableEq, Repr

/-- Read a shared handle object through a reference; `none` when the object does not exist
(any more): its table slot was destroyed, or its pointee was deleted. -/
def RefState.read (x : RefState) : HandleRef → Option shared_ptr
  | HandleRef.top i => slot x.shareds i
  | HandleRef.member p k => (x.mem.objects.lookup p).bind (fun members => members[k]?)

/-- The value that an `int` holds when `++` or `--` has the mathematical result `n`: its
32-bit two's complement representative.  The C++ standard leaves signed overflow undefined;
this is what the usual targets compute. -/
def wrap_int (n : Int) : Int := (n + 2147483648) % 4294967296 - 2147483648

/-- A counter with its two `int` fields reduced to 32 bits. -/
def SharedPtrRefCounter.as_int (k : SharedPtrRefCounter) : SharedPtrRefCounter :=
  { k with sref_count := wrap_int k.sref_count, wref_count := wrap_int k.wref_count }

/-- A heap with the fields of every counter reduced to 32 bits. -/
def Heap.as_int (m : Heap) : Heap :=
  { m with counters := m.counters.map (Option.map SharedPtrRefCounter.as_int) }

/-- `IncreaseOwner()` on the `int` field: `++sref_count; return sref_count;`. -/
def SharedPtrRefCounter.IncreaseOwner_int (k : SharedPtrRefCounter) :
    SharedPtrRefCounter × Int :=
  ({ k with sref_count := wrap_int (k.sref_count + 1) }, wrap_int (k.sref_count + 1))

/-- `DecreaseOwner()` on the `int` field: `--sref_count; return sref_count;`. -/
def SharedPtrRefCounter.DecreaseOwner_int (k : SharedPtrRefCounter) :
    SharedPtrRefCounter × Int :=
  ({ k with sref_count := wrap_int (k.sref_count - 1) }, wrap_int (k.sref_count - 1))

/-- `IncreaseObserver()` on the `int` field: `++wref_count; return wref_count;`. -/
def SharedPtrRefCounter.IncreaseObserver_int (k : SharedPtrRefCounter) :
    SharedPtrRefCounter × Int :=
  ({ k with wref_count := wrap_int (k.wref_count + 1) }, wrap_int (k.wref_count + 1))

/-- `DecreaseObserver()` on the `int` field: `--wref_count; return wref_count;`. -/
def SharedPtrRefCounter.DecreaseObserver_int (k : SharedPtrRefCounter) :
    SharedPtrRefCounter × Int :=
  ({ k with wref_count := wrap_int (k.wref_count - 1) }, wrap_int (k.wref_count - 1))

/-! ### Tables -/

theorem slot_lt {α : Type} {l : List (Option α)} {i : Nat} {a : α} (h : slot l i = some a) :
    i < l.length := by
  unfold slot at h
  by_contra hc
  rw [List.getElem?_eq_none (by omega)] at h
  simp at h

theorem slot_eq_some {α : Type} {l : List (Option α)} {i : Nat} {a : α} :
    slot l i = some a ↔ l[i]? = some (some a) := by
  unfold slot
  constructor
  · intro h
    split at h
    · next b hb => simp at h; subst h; exact hb
    · simp at h
  · intro h
    simp [h]

theorem slot_set {α : Type} (l : List (Option α)) (i j : Nat) (x : Option α) :
    slot (l.set i x) j = if i = j ∧ i < l.length then x else slot l j := by
  unfold slot
  rw [List.getElem?_set]
  by_cases h : i = j
  · subst h
    by_cases h2 : i < l.length
    · simp [h2]
      cases x <;> rfl
    · have h4 : l[i]? = none := List.getElem?_eq_none (by omega)
      simp [h2, h4]
  · simp [h]

theorem slot_append {α : Type} (l : List (Option α)) (j : Nat) (x : Option α) :
    slot (l ++ [x]) j = if j = l.length then x else slot l j := by
  unfold slot
  rw [List.getElem?_append]
  by_cases h : j < l.length
  · have : j ≠ l.length := by omega
    simp [h, this]
  · by_cases h2 : j = l.length
    · subst h2
      simp
      cases x <;> rfl
    · have h3 : ¬ j - l.length = 0 := by omega
      have h4 : l[j]? = none := List.getElem?_eq_none (by omega)
      have h5 : [x][j - l.length]? = none := List.getElem?_eq_none (by simp; omega)
      simp [h, h2, h4, h5]

theorem countP_set_int {α : Type} (p : α → Bool) (l : List α) (i : Nat) (x a : α)
    (h : l[i]? = some a) :
    ((l.set i x).countP p : Int)
      = (l.countP p : Int) - (if p a then 1 else 0) + (if p x then 1 else 0) := by
  induction l generalizing i with
  | nil => simp at h
  | cons y l ih =>
    cases i with
    | zero =>
      simp at h
      subst h
      simp [List.countP_cons]
    | succ i =>
      simp at h
      have := ih i h
      simp [List.countP_cons]
      omega

theorem countP_append_int {α : Type} (p : α → Bool) (l : List α) (x : α) :
    ((l ++ [x]).countP p : Int) = (l.countP p : Int) + (if p x then 1 else 0) := by
  simp [List.countP_append, List.countP_cons]

theorem countP_pos_of_slot {α : Type} (p : Option α → Bool) (l : List (Option α)) (i : Nat)
    (a : α) (h : slot l i = some a) (hp : p (some a) = true) : 0 < l.countP p := by
  rw [slot_eq_some] at h
  exact List.countP_pos_iff.mpr ⟨some a, List.getElem?_mem h, hp⟩

theorem exists_slot_of_countP_pos {α : Type} (p : Option α → Bool) (hn : p none = false)
    (l : List (Option α)) (h : 0 < l.countP p) : ∃ i a, slot l i = some a ∧ p (some a) = true := by
  obtain ⟨x, hx, hpx⟩ := List.countP_pos_iff.mp h
  obtain ⟨i, hi⟩ := List.getElem?_of_mem hx
  cases x with
  | none => simp [hn] at hpx
  | some a => exact ⟨i, a, slot_eq_some.mpr hi, hpx⟩

/-! ### The reference counting invariant -/

theorem shared_refs_some (c : CounterId) (h : shared_ptr) :
    (if shared_refs c (some h) = true then (1 : Int) else 0) = holds h.ref_count c := by
  simp [shared_refs, holds]

theorem weak_refs_some (c : CounterId) (h : weak_ptr) :
    (if weak_refs c (some h) = true then (1 : Int) else 0) = holds h.ref_count c := by
  simp [weak_refs, holds]

theorem owners_set (s : State) (i : Nat) (h : shared_ptr) (x : Option shared_ptr)
    (c : CounterId) (hi : slot s.shareds i = some h) :
    ((s.shareds.set i x).countP (shared_refs c) : Int)
      = (s.owners c : Int) - holds h.ref_count c + (if shared_refs c x then 1 else 0) := by
  rw [countP_set_int (shared_refs c) s.shareds i x (some h) (slot_eq_some.mp hi),
    shared_refs_some]
  rfl

theorem observers_set (s : State) (i : Nat) (h : weak_ptr) (x : Option weak_ptr)
    (c : CounterId) (hi : slot s.weaks i = some h) :
    ((s.weaks.set i x).countP (weak_refs c) : Int)
      = (s.observers c : Int) - holds h.ref_count c + (if weak_refs c x then 1 else 0) := by
  rw [countP_set_int (weak_refs c) s.weaks i x (some h) (slot_eq_some.mp hi),
    weak_refs_some]
  rfl

theorem Inv.of_shared {s : State} (hI : Inv s) {i : Nat} {h : shared_ptr} {c : CounterId}
    (hi : slot s.shareds i = some h) (hc : h.ref_count = some c) :
    ∃ k, s.heap.deref c = some k ∧ 1 ≤ k.sref_count ∧ h.rawPtr = k.resource ∧
      k.sref_count = (s.owners c : Int) ∧ k.wref_count = (s.observers c : Int) := by
  have hpos : 0 < s.owners c :=
    countP_pos_of_slot (shared_refs c) s.shareds i h hi (by simp [shared_refs, hc])
  cases hk : s.heap.deref c with
  | none => have := (hI.dead c hk).1; omega
  | some k =>
    obtain ⟨h1, h2, _⟩ := hI.live c k hk
    exact ⟨k, rfl, by omega, hI.sptr i h c k hi hc hk, h1, h2⟩

theorem Inv.of_weak {s : State} (hI : Inv s) {i : Nat} {h : weak_ptr} {c : CounterId}
    (hi : slot s.weaks i = some h) (hc : h.ref_count = some c) :
    ∃ k, s.heap.deref c = some k ∧ 1 ≤ k.wref_count ∧ h.rawPtr = k.resource ∧
      k.sref_count = (s.owners c : Int) ∧ k.wref_count = (s.observers c : Int) := by
  have hpos : 0 < s.observers c :=
    countP_pos_of_slot (weak_refs c) s.weaks i h hi (by simp [weak_refs, hc])
  cases hk : s.heap.deref c with
  | none => have := (hI.dead c hk).2; omega
  | some k =>
    obtain ⟨h1, h2, _⟩ := hI.live c k hk
    exact ⟨k, rfl, by omega, hI.wptr i h c k hi hc hk, h1, h2⟩

/-! ### Effect of the heap primitives and of `Dispose` -/

theorem Heap.call_eq {m : Heap} {c : CounterId} {k : SharedPtrRefCounter}
    (f : SharedPtrRefCounter → SharedPtrRefCounter × Int) (hk : m.deref c = some k) :
    m.call c f = some ((f k).2, { m with counters := m.counters.set c (some (f k).1) }) := by
  simp [Heap.call, hk]

theorem Heap.read_eq {m : Heap} {c : CounterId} {k : SharedPtrRefCounter}
    (f : SharedPtrRefCounter → Int) (hk : m.deref c = some k) :
    m.read c f = some (f k) := by
  simp [Heap.read, hk]

theorem Heap.delete_eq {m : Heap} {c : CounterId} {k : SharedPtrRefCounter}
    (hk : m.deref c = some k) :
    m.delete_counter c
      = some { m with counters := m.counters.set c none, freed := m.freed ++ [(c, k)] } := by
  simp [Heap.delete_counter, hk]

theorem Heap.deref_set (l : List (Option SharedPtrRefCounter)) (c c' : CounterId)
    (v : Option SharedPtrRefCounter) (r : List (DeleterFn × Ptr))
    (f : List (CounterId × SharedPtrRefCounter)) (hlt : c < l.length) :
    Heap.deref { counters := l.set c v, released := r, freed := f } c'
      = if c' = c then v else slot l c' := by
  unfold Heap.deref
  rw [slot_set]
  by_cases h : c = c'
  · subst h; simp [hlt]
  · have h' : ¬ c' = c := fun e => h e.symm
    simp [h, h']

theorem shared_Dispose_spec (self : shared_ptr) (m : Heap) (c : CounterId)
    (k : SharedPtrRefCounter) (hc : self.ref_count = some c) (hk : m.deref c = some k) :
    ∃ m', self.Dispose m = some
        ({ tosmart_ptr_nts :=
             if k.sref_count = 1 then self.tosmart_ptr_nts else self.DisableDisposing,
           ref_count := none }, m') ∧
      m'.released = m.released ∧
      m'.counters = m.counters.set c
        (if k.sref_count = 1 ∧ k.wref_count = 0 then none
         else some { k with sref_count := k.sref_count - 1 }) ∧
      m'.freed = if k.sref_count = 1 ∧ k.wref_count = 0
        then m.freed ++ [(c, { k with sref_count := 0 })] else m.freed := by
  have hlt := slot_lt hk
  have e1 : k.sref_count - 1 = 0 ↔ k.sref_count = 1 := by omega
  by_cases h1 : k.sref_count = 1
  · by_cases h2 : k.wref_count = 0
    · simp [shared_ptr.Dispose, hc, Heap.call_eq _ hk, Heap.read, Heap.delete_counter,
        Heap.deref_set, hlt, SharedPtrRefCounter.DecreaseOwner,
        SharedPtrRefCounter.CountObservers, h1, h2]
    · simp [shared_ptr.Dispose, hc, Heap.call_eq _ hk, Heap.read, Heap.delete_counter,
        Heap.deref_set, hlt, SharedPtrRefCounter.DecreaseOwner,
        SharedPtrRefCounter.CountObservers, h1, h2]
  · simp [shared_ptr.Dispose, hc, Heap.call_eq _ hk, Heap.read, Heap.delete_counter,
        Heap.deref_set, hlt, SharedPtrRefCounter.DecreaseOwner,
        SharedPtrRefCounter.CountObservers, h1, e1]

theorem weak_Dispose_spec (self : weak_ptr) (m : Heap) (c : CounterId)
    (k : SharedPtrRefCounter) (hc : self.ref_count = some c) (hk : m.deref c = some k) :
    ∃ m', self.Dispose m = some ({ self with ref_count := none }, m') ∧
      m'.released = m.released ∧
      m'.counters = m.counters.set c
        (if k.wref_count = 1 ∧ k.sref_count = 0 then none
         else some { k with wref_count := k.wref_count - 1 }) ∧
      m'.freed = if k.wref_count = 1 ∧ k.sref_count = 0
        then m.freed ++ [(c, { k with wref_count := 0 })] else m.freed := by
  have hlt := slot_lt hk
  have e1 : k.wref_count - 1 = 0 ↔ k.wref_count = 1 := by omega
  by_cases h1 : k.wref_count = 1
  · by_cases h2 : k.sref_count = 0
    · simp [weak_ptr.Dispose, hc, Heap.call_eq _ hk, Heap.read, Heap.delete_counter,
        Heap.deref_set, hlt, SharedPtrRefCounter.DecreaseObserver,
        SharedPtrRefCounter.CountOwners, h1, h2]
    · simp [weak_ptr.Dispose, hc, Heap.call_eq _ hk, Heap.read, Heap.delete_counter,
        Heap.deref_set, hlt, SharedPtrRefCounter.DecreaseObserver,
        SharedPtrRefCounter.CountOwners, h1, h2]
  · simp [weak_ptr.Dispose, hc, Heap.call_eq _ hk, Heap.read, Heap.delete_counter,
        Heap.deref_set, hlt, SharedPtrRefCounter.DecreaseObserver,
        SharedPtrRefCounter.CountOwners, h1, e1]

@[simp] theorem base_dtor_counters (b : smart_ptr_nts) (m : Heap) :
    (b.dtor m).counters = m.counters := by
  unfold smart_ptr_nts.dtor smart_ptr_nts.Dispose Heap.invoke
  cases b.deleter <;> rfl

@[simp] theorem base_dtor_freed (b : smart_ptr_nts) (m : Heap) :
    (b.dtor m).freed = m.freed := by
  unfold smart_ptr_nts.dtor smart_ptr_nts.Dispose Heap.invoke
  cases b.deleter <;> rfl

@[simp] theorem base_Dispose_counters (b : smart_ptr_nts) (m : Heap) :
    (b.Dispose m).2.counters = m.counters := by
  unfold smart_ptr_nts.Dispose Heap.invoke
  cases b.deleter <;> rfl

@[simp] theorem base_Dispose_freed (b : smart_ptr_nts) (m : Heap) :
    (b.Dispose m).2.freed = m.freed := by
  unfold smart_ptr_nts.Dispose Heap.invoke
  cases b.deleter <;> rfl

@[simp] theorem base_Dispose_fst (b : smart_ptr_nts) (m : Heap) :
    (b.Dispose m).1 = { rawPtr := nullptr, deleter := none } := by
  unfold smart_ptr_nts.Dispose
  cases b.deleter <;> rfl

theorem deref_congr {m m' : Heap} (h : m'.counters = m.counters) (c : CounterId) :
    m'.deref c = m.deref c := by
  unfold Heap.deref; rw [h]

theorem deref_of_set {m n : Heap} {c : CounterId} {v : Option SharedPtrRefCounter}
    (h : n.counters = m.counters.set c v) (hlt : c < m.counters.length) (c' : CounterId) :
    n.deref c' = if c' = c then v else m.deref c' := by
  unfold Heap.deref
  rw [h, slot_set]
  by_cases e : c = c'
  · subst e; simp [hlt]
  · have e' : ¬ c' = c := fun x => e x.symm
    simp [e, e']

theorem deref_of_append {m n : Heap} {v : Option SharedPtrRefCounter}
    (h : n.counters = m.counters ++ [v]) (c' : CounterId) :
    n.deref c' = if c' = m.counters.length then v else m.deref c' := by
  unfold Heap.deref
  rw [h, slot_append]

/-! ### Generic invariant steps -/

theorem owners_of_set {s u : State} {i : Nat} {h : shared_ptr} {x : Option shared_ptr}
    (hs : u.shareds = s.shareds.set i x) (hi : slot s.shareds i = some h) (c : CounterId) :
    (u.owners c : Int)
      = (s.owners c : Int) - holds h.ref_count c + (if shared_refs c x then 1 else 0) := by
  unfold State.owners
  rw [hs]
  exact owners_set s i h x c hi

theorem observers_of_set {s u : State} {i : Nat} {h : weak_ptr} {x : Option weak_ptr}
    (hs : u.weaks = s.weaks.set i x) (hi : slot s.weaks i = some h) (c : CounterId) :
    (u.observers c : Int)
      = (s.observers c : Int) - holds h.ref_count c + (if weak_refs c x then 1 else 0) := by
  unfold State.observers
  rw [hs]
  exact observers_set s i h x c hi

theorem owners_of_append {s u : State} {x : Option shared_ptr}
    (hs : u.shareds = s.shareds ++ [x]) (c : CounterId) :
    (u.owners c : Int) = (s.owners c : Int) + (if shared_refs c x then 1 else 0) := by
  unfold State.owners
  rw [hs]
  exact countP_append_int _ _ _

theorem observers_of_append {s u : State} {x : Option weak_ptr}
    (hs : u.weaks = s.weaks ++ [x]) (c : CounterId) :
    (u.observers c : Int) = (s.observers c : Int) + (if weak_refs c x then 1 else 0) := by
  unfold State.observers
  rw [hs]
  exact countP_append_int _ _ _

theorem observers_of_eq {s s' : State} (h : s'.weaks = s.weaks) (c : CounterId) :
    s'.observers c = s.observers c := by
  unfold State.observers; rw [h]

theorem slot_of_set {α : Type} {l l' : List (Option α)} {i : Nat} {a : α} {x : Option α}
    (hs : l' = l.set i x) (hi : slot l i = some a) (j : Nat) :
    slot l' j = if j = i then x else slot l j := by
  rw [hs, slot_set]
  have := slot_lt hi
  by_cases e : i = j
  · subst e; simp [this]
  · have e' : ¬ j = i := fun x => e x.symm
    simp [e, e']

theorem slot_of_append {α : Type} {l l' : List (Option α)} {x : Option α}
    (hs : l' = l ++ [x]) (j : Nat) :
    slot l' j = if j = l.length then x else slot l j := by
  rw [hs, slot_append]

/-- Generic step on one live counter `c`: its counts move by `x` / `y` together with the
number of handles that reference it, and it is freed exactly when both reach zero. -/
theorem Inv.step_counter {s s' : State} (hI : Inv s) {c : CounterId}
    {k : SharedPtrRefCounter} {v : Option SharedPtrRefCounter} {x y : Int}
    (hk : s.heap.deref c = some k)
    (hlen : s'.heap.counters.length = s.heap.counters.length)
    (hder : ∀ c', s'.heap.deref c' = if c' = c then v else s.heap.deref c')
    (hv_some : ∀ k', v = some k' → k'.resource = k.resource ∧
      k'.sref_count = k.sref_count + x ∧ k'.wref_count = k.wref_count + y ∧
      ¬ (k'.sref_count = 0 ∧ k'.wref_count = 0) ∧ s'.heap.freed = s.heap.freed)
    (hv_none : v = none → k.sref_count + x = 0 ∧ k.wref_count + y = 0 ∧
      ∃ kz : SharedPtrRefCounter, kz.sref_count = 0 ∧ kz.wref_count = 0 ∧
        s'.heap.freed = s.heap.freed ++ [(c, kz)])
    (hown : ∀ c', (s'.owners c' : Int) = s.owners c' + if c' = c then x else 0)
    (hobs : ∀ c', (s'.observers c' : Int) = s.observers c' + if c' = c then y else 0)
    (hS : SharedFrom s s' c k.resource) (hW : WeakFrom s s' c k.resource) : Inv s' := by
  have hlt := slot_lt hk
  obtain ⟨ko, kw, kpos⟩ := hI.live c k hk
  have key : ∀ c' k', s'.heap.deref c' = some k' →
      ∃ k0, s.heap.deref c' = some k0 ∧ k'.resource = k0.resource := by
    intro c' k' hk'
    rw [hder] at hk'
    by_cases e : c' = c
    · subst e
      simp only [if_true] at hk'
      exact ⟨k, hk, (hv_some k' hk').1⟩
    · simp only [e, if_false] at hk'
      exact ⟨k', hk', rfl⟩
  constructor
  · intro c' k' hk'
    rw [hder] at hk'
    have h1 := hown c'
    have h2 := hobs c'
    by_cases e : c' = c
    · subst e
      rw [if_pos rfl] at hk' h1 h2
      obtain ⟨_, a, b, nz, _⟩ := hv_some k' hk'
      omega
    · rw [if_neg e] at hk' h1 h2
      have := hI.live c' k' hk'
      omega
  · intro c' hk'
    rw [hder] at hk'
    have h1 := hown c'
    have h2 := hobs c'
    by_cases e : c' = c
    · subst e
      rw [if_pos rfl] at hk' h1 h2
      obtain ⟨a, b, _⟩ := hv_none hk'
      omega
    · rw [if_neg e] at hk' h1 h2
      have := hI.dead c' hk'
      omega
  · intro c' k' hk'
    obtain ⟨k0, hk0, hr⟩ := key c' k' hk'
    rw [hr]
    exact hI.res c' k0 hk0
  · intro j h' c' k' hj hc' hk'
    obtain ⟨k0, hk0, hr⟩ := key c' k' hk'
    rcases hS j h' hj with ⟨j0, hj0⟩ | ⟨hn, _, _⟩ | ⟨hcc, hp⟩
    · rw [hr]; exact hI.sptr j0 h' c' k0 hj0 hc' hk0
    · rw [hn] at hc'; simp at hc'
    · rw [hcc] at hc'
      simp at hc'
      subst hc'
      rw [hk] at hk0
      simp at hk0
      subst hk0
      rw [hr, hp]
  · intro j h' c' k' hj hc' hk'
    obtain ⟨k0, hk0, hr⟩ := key c' k' hk'
    rcases hW j h' hj with ⟨j0, hj0⟩ | ⟨_, hn, _⟩ | ⟨_, hcc, hp⟩
    · rw [hr]; exact hI.wptr j0 h' c' k0 hj0 hc' hk0
    · rw [hn] at hc'; simp at hc'
    · rw [hcc] at hc'
      simp at hc'
      subst hc'
      rw [hk] at hk0
      simp at hk0
      subst hk0
      rw [hr, hp]
  · intro j h' hj hc'
    rcases hS j h' hj with ⟨j0, hj0⟩ | ⟨_, a, b⟩ | ⟨hcc, _⟩
    · exact hI.snull j0 h' hj0 hc'
    · exact ⟨a, b⟩
    · rw [hcc] at hc'; simp at hc'
  · intro j h' hj
    rcases hW j h' hj with ⟨j0, hj0⟩ | ⟨a, b, d⟩ | ⟨a, hcc, _⟩
    · exact hI.wnull j0 h' hj0
    · exact ⟨a, fun _ => d⟩
    · exact ⟨a, fun e => by rw [hcc] at e; simp at e⟩
  · cases hv : v with
    | none =>
      obtain ⟨_, _, kz, _, _, hf⟩ := hv_none hv
      rw [hf, List.map_append, List.nodup_append]
      refine ⟨hI.freed_once, by simp, ?_⟩
      intro a ha hb
      simp at hb
      subst hb
      obtain ⟨e, he, rfl⟩ := List.mem_map.mp ha
      have := (hI.freed_zero e he).2.2.2
      rw [hk] at this
      simp at this
    | some k' =>
      rw [(hv_some k' hv).2.2.2.2]
      exact hI.freed_once
  · have old : ∀ e ∈ s.heap.freed, e.2.sref_count = 0 ∧ e.2.wref_count = 0 ∧
        e.1 < s'.heap.counters.length ∧ s'.heap.deref e.1 = none := by
      intro e he
      obtain ⟨a1, a2, a3, a4⟩ := hI.freed_zero e he
      have : e.1 ≠ c := by
        intro ec; rw [ec, hk] at a4; simp at a4
      refine ⟨a1, a2, by rw [hlen]; exact a3, ?_⟩
      rw [hder]
      simp [this, a4]
    intro e he
    cases hv : v with
    | none =>
      obtain ⟨_, _, kz, z1, z2, hf⟩ := hv_none hv
      rw [hf] at he
      rcases List.mem_append.mp he with he | he
      · exact old e he
      · simp at he
        subst he
        refine ⟨z1, z2, by rw [hlen]; exact hlt, ?_⟩
        rw [hder]
        simp [hv]
    | some k' =>
      rw [(hv_some k' hv).2.2.2.2] at he
      exact old e he

/-- Generic step that touches no counter and keeps the number of references to each. -/
theorem Inv.step_frame {s s' : State} (hI : Inv s)
    (hcs : s'.heap.counters = s.heap.counters) (hf : s'.heap.freed = s.heap.freed)
    (hown' : ∀ c', (s'.owners c' : Int) = s.owners c')
    (hobs' : ∀ c', (s'.observers c' : Int) = s.observers c')
    (hS : ∀ j h, slot s'.shareds j = some h →
      (∃ j0, slot s.shareds j0 = some h) ∨
      (h.ref_count = none ∧ h.rawPtr = nullptr ∧ h.deleter = none))
    (hW : ∀ j h, slot s'.weaks j = some h →
      (∃ j0, slot s.weaks j0 = some h) ∨
      (h.deleter = none ∧ h.ref_count = none ∧ h.rawPtr = nullptr)) : Inv s' := by
  have hder : ∀ c, s'.heap.deref c = s.heap.deref c := deref_congr hcs
  have hown : ∀ c', s'.owners c' = s.owners c' := fun c' => Int.ofNat_inj.mp (hown' c')
  have hobs : ∀ c', s'.observers c' = s.observers c' := fun c' => Int.ofNat_inj.mp (hobs' c')
  constructor
  · intro c k hk
    rw [hder] at hk
    rw [hown, hobs]
    exact hI.live c k hk
  · intro c hk
    rw [hder] at hk
    rw [hown, hobs]
    exact hI.dead c hk
  · intro c k hk
    rw [hder] at hk
    exact hI.res c k hk
  · intro j h c k hj hc hk
    rw [hder] at hk
    rcases hS j h hj with ⟨j0, hj0⟩ | ⟨hn, _, _⟩
    · exact hI.sptr j0 h c k hj0 hc hk
    · rw [hn] at hc; simp at hc
  · intro j h c k hj hc hk
    rw [hder] at hk
    rcases hW j h hj with ⟨j0, hj0⟩ | ⟨_, hn, _⟩
    · exact hI.wptr j0 h c k hj0 hc hk
    · rw [hn] at hc; simp at hc
  · intro j h hj hc
    rcases hS j h hj with ⟨j0, hj0⟩ | ⟨_, a, b⟩
    · exact hI.snull j0 h hj0 hc
    · exact ⟨a, b⟩
  · intro j h hj
    rcases hW j h hj with ⟨j0, hj0⟩ | ⟨a, _, d⟩
    · exact hI.wnull j0 h hj0
    · exact ⟨a, fun _ => d⟩
  · rw [hf]; exact hI.freed_once
  · intro e he
    rw [hf] at he
    rw [hcs, hder]
    exact hI.freed_zero e he

/-- Generic step that allocates a counter for `p` and hands it to one new shared handle. -/
theorem Inv.step_alloc {s s' : State} (hI : Inv s) {p : Ptr} (hp : p ≠ nullptr)
    (hcs : s'.heap.counters = s.heap.counters ++ [some (SharedPtrRefCounter.create p)])
    (hf : s'.heap.freed = s.heap.freed)
    (hown : ∀ c', (s'.owners c' : Int)
      = s.owners c' + if c' = s.heap.counters.length then 1 else 0)
    (hobs' : ∀ c', (s'.observers c' : Int) = s.observers c')
    (hS : ∀ j h, slot s'.shareds j = some h →
      (∃ j0, slot s.shareds j0 = some h) ∨
      (h.ref_count = none ∧ h.rawPtr = nullptr ∧ h.deleter = none) ∨
      (h.ref_count = some s.heap.counters.length ∧ h.rawPtr = p))
    (hW : ∀ j h, slot s'.weaks j = some h →
      (∃ j0, slot s.weaks j0 = some h) ∨
      (h.deleter = none ∧ h.ref_count = none ∧ h.rawPtr = nullptr)) : Inv s' := by
  have hder := deref_of_append hcs
  have hobs : ∀ c', s'.observers c' = s.observers c' := fun c' => Int.ofNat_inj.mp (hobs' c')
  have hnone : s.heap.deref s.heap.counters.length = none := by
    cases hd : s.heap.deref s.heap.counters.length with
    | none => rfl
    | some k => have := slot_lt hd; omega
  obtain ⟨z1, z2⟩ := hI.dead _ hnone
  constructor
  · intro c k hk
    rw [hder] at hk
    have h1 := hown c
    rw [hobs]
    by_cases e : c = s.heap.counters.length
    · subst e
      simp at hk h1
      subst hk
      simp [SharedPtrRefCounter.create]
      omega
    · simp only [e, if_false] at hk h1
      have := hI.live c k hk
      omega
  · intro c hk
    rw [hder] at hk
    have h1 := hown c
    rw [hobs]
    by_cases e : c = s.heap.counters.length
    · subst e
      simp at hk
    · simp only [e, if_false] at hk h1
      have := hI.dead c hk
      omega
  · intro c k hk
    rw [hder] at hk
    by_cases e : c = s.heap.counters.length
    · subst e
      simp at hk
      subst hk
      exact hp
    · simp only [e, if_false] at hk
      exact hI.res c k hk
  · intro j h c k hj hc hk
    rw [hder] at hk
    rcases hS j h hj with ⟨j0, hj0⟩ | ⟨hn, _, _⟩ | ⟨hcc, hpp⟩
    · by_cases e : c = s.heap.counters.length
      · subst e
        have := countP_pos_of_slot (shared_refs s.heap.counters.length) s.shareds j0 h hj0
          (by simp [shared_refs, hc])
        unfold State.owners at z1
        omega
      · simp only [e, if_false] at hk
        exact hI.sptr j0 h c k hj0 hc hk
    · rw [hn] at hc; simp at hc
    · rw [hcc] at hc
      simp at hc
      subst hc
      simp at hk
      subst hk
      simp [SharedPtrRefCounter.create, hpp]
  · intro j h c k hj hc hk
    rw [hder] at hk
    rcases hW j h hj with ⟨j0, hj0⟩ | ⟨_, hn, _⟩
    · by_cases e : c = s.heap.counters.length
      · subst e
        have := countP_pos_of_slot (weak_refs s.heap.counters.length) s.weaks j0 h hj0
          (by simp [weak_refs, hc])
        unfold State.observers at z2
        omega
      · simp only [e, if_false] at hk
        exact hI.wptr j0 h c k hj0 hc hk
    · rw [hn] at hc; simp at hc
  · intro j h hj hc
    rcases hS j h hj with ⟨j0, hj0⟩ | ⟨_, a, b⟩ | ⟨hcc, _⟩
    · exact hI.snull j0 h hj0 hc
    · exact ⟨a, b⟩
    · rw [hcc] at hc; simp at hc
  · intro j h hj
    rcases hW j h hj with ⟨j0, hj0⟩ | ⟨a, _, d⟩
    · exact hI.wnull j0 h hj0
    · exact ⟨a, fun _ => d⟩
  · rw [hf]; exact hI.freed_once
  · intro e he
    rw [hf] at he
    obtain ⟨a1, a2, a3, a4⟩ := hI.freed_zero e he
    have a5 : e.1 < s'.heap.counters.length := by
      rw [hcs, List.length_append]
      exact Nat.lt_add_right _ a3
    refine ⟨a1, a2, a5, ?_⟩
    rw [hder]
    have : e.1 ≠ s.heap.counters.length := Nat.ne_of_lt a3
    simp [this, a4]

/-! ### Every public operation keeps the invariant -/

theorem slot_append_cases {α : Type} {l : List (Option α)} {x : Option α} {j : Nat} {a : α}
    (h : slot (l ++ [x]) j = some a) : slot l j = some a ∨ x = some a := by
  rw [slot_append] at h
  split at h
  · exact Or.inr h
  · exact Or.inl h

theorem slot_set_cases {α : Type} {l : List (Option α)} {x : Option α} {i j : Nat} {a : α}
    (h : slot (l.set i x) j = some a) : slot l j = some a ∨ x = some a := by
  rw [slot_set] at h
  split at h
  · exact Or.inr h
  · exact Or.inl h

theorem slot_set_cases' {α : Type} {l : List (Option α)} {x : Option α} {i j : Nat} {a : α}
    (h : slot (l.set i x) j = some a) :
    (j ≠ i ∧ slot l j = some a) ∨ (j = i ∧ x = some a) := by
  rw [slot_set] at h
  split at h
  · next e => exact Or.inr ⟨e.1.symm, h⟩
  · next e =>
    by_cases e2 : j = i
    · subst e2
      have := slot_lt h
      exact absurd ⟨rfl, this⟩ e
    · exact Or.inl ⟨e2, h⟩

theorem slot_set_ne {α : Type} (l : List (Option α)) (x : Option α) {i j : Nat} (h : j ≠ i) :
    slot (l.set i x) j = slot l j := by
  rw [slot_set]
  have : ¬ (i = j ∧ i < l.length) := fun e => h e.1.symm
  rw [if_neg this]

theorem slot_set_self {α : Type} {l : List (Option α)} (x : Option α) {i : Nat} {a : α}
    (h : slot l i = some a) : slot (l.set i x) i = x := by
  rw [slot_set]
  rw [if_pos ⟨rfl, slot_lt h⟩]

theorem shared_mk_eq (t : shared_ptr) (r : Option CounterId) (h : t.ref_count = r) :
    ({ tosmart_ptr_nts := { rawPtr := t.rawPtr, deleter := t.deleter },
       ref_count := r } : shared_ptr) = t := by
  subst h; rfl

theorem weak_mk_eq (t : weak_ptr) (r : Option CounterId) (h : t.ref_count = r) :
    ({ tosmart_ptr_nts := { rawPtr := t.rawPtr, deleter := t.deleter },
       ref_count := r } : weak_ptr) = t := by
  subst h; rfl

theorem Inv.shared_default {s u : State} (hI : Inv s)
    (hs : step s Op.shared_default = some u) : Inv u := by
  simp only [step, Option.some.injEq] at hs
  subst hs
  refine hI.step_frame rfl rfl ?_ (fun _ => rfl) ?_ ?_
  · intro c
    refine (owners_of_append (s := s) rfl c).trans ?_
    simp [shared_refs, shared_ptr.null]
  · intro j h hj
    rcases slot_append_cases hj with hj | hj
    · exact Or.inl ⟨j, hj⟩
    · simp at hj; subst hj; exact Or.inr ⟨rfl, rfl, rfl⟩
  · intro j h hj
    exact Or.inl ⟨j, hj⟩

theorem Inv.weak_default {s s' : State} (hI : Inv s)
    (hs : step s Op.weak_default = some s') : Inv s' := by
  simp only [step, Option.some.injEq] at hs
  subst hs
  refine hI.step_frame rfl rfl (fun _ => rfl) ?_ ?_ ?_
  · intro c
    refine (observers_of_append (s := s) rfl c).trans ?_
    simp [weak_refs, weak_ptr.null]
  · intro j h hj
    exact Or.inl ⟨j, hj⟩
  · intro j h hj
    rcases slot_append_cases hj with hj | hj
    · exact Or.inl ⟨j, hj⟩
    · simp at hj; subst hj; exact Or.inr ⟨rfl, rfl, rfl⟩

theorem Inv.shared_from_raw_deleter {s s' : State} (hI : Inv s) (ptr : Ptr)
    (d : Option DeleterFn)
    (hs : step s (Op.shared_from_raw_deleter ptr d) = some s') : Inv s' := by
  simp only [step, Option.some.injEq] at hs
  subst hs
  by_cases hp : ptr = nullptr
  · subst hp
    refine hI.step_frame rfl rfl ?_ (fun _ => rfl) ?_ ?_
    · intro c
      refine (owners_of_append (s := s) rfl c).trans ?_
      simp [shared_refs, shared_ptr.ctor_deleter]
    · intro j h hj
      rcases slot_append_cases hj with hj | hj
      · exact Or.inl ⟨j, hj⟩
      · simp [shared_ptr.ctor_deleter, smart_ptr_nts.ctor] at hj
        subst hj; exact Or.inr ⟨rfl, rfl, rfl⟩
    · intro j h hj
      exact Or.inl ⟨j, hj⟩
  · refine hI.step_alloc hp ?_ ?_ ?_ (fun _ => rfl) ?_ ?_
    · simp [shared_ptr.ctor_deleter, hp, shared_ptr.CreateCounter, Heap.new_counter]
    · simp [shared_ptr.ctor_deleter, hp, shared_ptr.CreateCounter, Heap.new_counter]
    · intro c
      refine (owners_of_append (s := s) rfl c).trans ?_
      simp [shared_refs, shared_ptr.ctor_deleter, hp, shared_ptr.CreateCounter,
        Heap.new_counter, eq_comm]
    · intro j h hj
      rcases slot_append_cases hj with hj | hj
      · exact Or.inl ⟨j, hj⟩
      · simp [shared_ptr.ctor_deleter, smart_ptr_nts.ctor, hp, shared_ptr.CreateCounter,
          Heap.new_counter] at hj
        subst hj; exact Or.inr (Or.inr ⟨rfl, rfl⟩)
    · intro j h hj
      exact Or.inl ⟨j, hj⟩

theorem Inv.shared_copy {s s' : State} (hI : Inv s) (src : Nat)
    (hs : step s (Op.shared_copy src) = some s') : Inv s' := by
  simp only [step] at hs
  split at hs
  · simp at hs
  · next t ht =>
    cases hc : t.ref_count with
    | none =>
      simp [shared_ptr.copy_ctor, hc, smart_ptr_nts.copy_ctor] at hs
      rw [shared_mk_eq t none hc] at hs
      subst hs
      refine hI.step_frame rfl rfl ?_ (fun _ => rfl) ?_ ?_
      · intro c
        refine (owners_of_append (s := s) rfl c).trans ?_
        simp [shared_refs, hc]
      · intro j h hj
        rcases slot_append_cases hj with hj | hj
        · exact Or.inl ⟨j, hj⟩
        · simp at hj; subst hj; exact Or.inl ⟨src, ht⟩
      · intro j h hj
        exact Or.inl ⟨j, hj⟩
    | some c =>
      obtain ⟨k, hk, hk1, hkp, _, _⟩ := hI.of_shared ht hc
      simp [shared_ptr.copy_ctor, hc, smart_ptr_nts.copy_ctor, Heap.call_eq _ hk,
        SharedPtrRefCounter.IncreaseOwner] at hs
      rw [shared_mk_eq t (some c) hc] at hs
      subst hs
      refine hI.step_counter (x := 1) (y := 0) hk (by simp)
        (deref_of_set rfl (slot_lt hk)) ?_ (by simp) ?_ (fun _ => by simp; rfl) ?_ ?_
      · intro k' hk'
        simp at hk'
        subst hk'
        simp
        omega
      · intro c'
        refine (owners_of_append (s := s) rfl c').trans ?_
        simp [shared_refs, hc, eq_comm]
      · intro j h hj
        rcases slot_append_cases hj with hj | hj
        · exact Or.inl ⟨j, hj⟩
        · simp at hj; subst hj; exact Or.inl ⟨src, ht⟩
      · intro j h hj
        exact Or.inl ⟨j, hj⟩

theorem shared_Dispose_ref {self s1 : shared_ptr} {m m1 : Heap}
    (h : self.Dispose m = some (s1, m1)) : s1.ref_count = none := by
  unfold shared_ptr.Dispose at h
  split at h
  · next hn => simp at h; rw [← h.1]; exact hn
  · split at h
    · simp at h
    · split at h
      · split at h
        · simp at h
        · split at h
          · split at h
            · simp at h
            · simp at h; rw [← h.1]
          · simp at h; rw [← h.1]
      · simp at h; rw [← h.1]

theorem weak_Dispose_ref {self s1 : weak_ptr} {m m1 : Heap}
    (h : self.Dispose m = some (s1, m1)) : s1.ref_count = none := by
  unfold weak_ptr.Dispose at h
  split at h
  · next hn => simp at h; rw [← h.1]; exact hn
  · split at h
    · simp at h
    · split at h
      · split at h
        · simp at h
        · split at h
          · split at h
            · simp at h
            · simp at h; rw [← h.1]
          · simp at h; rw [← h.1]
      · simp at h; rw [← h.1]

theorem shared_reset_eq (self : shared_ptr) (m : Heap) :
    self.reset m = (self.dtor m).map (fun m' => (shared_ptr.null, m')) := by
  unfold shared_ptr.reset shared_ptr.dtor
  cases hd : self.Dispose m with
  | none => rfl
  | some r =>
    obtain ⟨s1, m1⟩ := r
    have := shared_Dispose_ref hd
    simp [smart_ptr_nts.reset, smart_ptr_nts.dtor, shared_ptr.null, smart_ptr_nts.null, this]

theorem weak_reset_eq (self : weak_ptr) (m : Heap) :
    self.reset m = (self.dtor m).map (fun m' => (weak_ptr.null, m')) := by
  unfold weak_ptr.reset weak_ptr.dtor
  cases hd : self.Dispose m with
  | none => rfl
  | some r =>
    obtain ⟨s1, m1⟩ := r
    have := weak_Dispose_ref hd
    simp [smart_ptr_nts.reset, smart_ptr_nts.dtor, weak_ptr.null, smart_ptr_nts.null, this]

theorem shared_reset_ptr_deleter_eq (self : shared_ptr) (ptr : Ptr)
    (d : Option DeleterFn) (m : Heap) :
    self.reset_ptr_deleter ptr d m = (self.dtor m).map (fun m' => shared_ptr.ctor_deleter ptr d m') := by
  unfold shared_ptr.reset_ptr_deleter shared_ptr.dtor
  cases hd : self.Dispose m with
  | none => rfl
  | some r =>
    obtain ⟨s1, m1⟩ := r
    have := shared_Dispose_ref hd
    by_cases hp : ptr = nullptr
    · simp [smart_ptr_nts.reset_ptr, smart_ptr_nts.dtor, shared_ptr.ctor_deleter, hp, this,
        smart_ptr_nts.ctor]
    · simp [smart_ptr_nts.reset_ptr, smart_ptr_nts.dtor, shared_ptr.ctor_deleter, hp, this,
        smart_ptr_nts.ctor]

theorem shared_copy_assign_eq (self target : shared_ptr) (m : Heap)
    (hne : self.ref_count ≠ target.ref_count) :
    self.copy_assign target m = (self.dtor m).bind (fun m' => target.copy_ctor m') := by
  unfold shared_ptr.copy_assign shared_ptr.dtor shared_ptr.copy_ctor
  rw [if_neg hne]
  cases hd : self.Dispose m with
  | none => rfl
  | some r =>
    obtain ⟨s1, m1⟩ := r
    cases target.ref_count <;>
      simp [smart_ptr_nts.copy_assign, smart_ptr_nts.dtor, smart_ptr_nts.copy_ctor]

theorem weak_copy_assign_eq (self target : weak_ptr) (m : Heap)
    (hne : self.ref_count ≠ target.ref_count) :
    self.copy_assign target m = (self.dtor m).bind (fun m' => target.copy_ctor m') := by
  unfold weak_ptr.copy_assign weak_ptr.dtor weak_ptr.copy_ctor
  rw [if_neg hne]
  cases hd : self.Dispose m with
  | none => rfl
  | some r =>
    obtain ⟨s1, m1⟩ := r
    cases target.ref_count <;>
      simp [smart_ptr_nts.copy_assign, smart_ptr_nts.dtor, smart_ptr_nts.copy_ctor]

theorem shared_move_assign_eq (self target : shared_ptr) (m : Heap) :
    self.move_assign target m
      = (self.dtor m).map (fun m' => (target, shared_ptr.null, m')) := by
  unfold shared_ptr.move_assign shared_ptr.dtor
  cases hd : self.Dispose m with
  | none => rfl
  | some r =>
    obtain ⟨s1, m1⟩ := r
    simp [smart_ptr_nts.move_assign, smart_ptr_nts.dtor, shared_ptr.null, smart_ptr_nts.null]

theorem weak_move_assign_eq (self target : weak_ptr) (m : Heap) :
    self.move_assign target m
      = (self.dtor m).map (fun m' => (target, weak_ptr.null, m')) := by
  unfold weak_ptr.move_assign weak_ptr.dtor
  cases hd : self.Dispose m with
  | none => rfl
  | some r =>
    obtain ⟨s1, m1⟩ := r
    simp [smart_ptr_nts.move_assign, smart_ptr_nts.dtor, weak_ptr.null, smart_ptr_nts.null]

/-- Releasing the ownership of shared handle `i` (what the destructor, `reset` and the
assignments do first) succeeds and keeps the invariant. -/
theorem Inv.release_shared {s : State} (hI : Inv s) {i : Nat} {h : shared_ptr}
    (hi : slot s.shareds i = some h) :
    ∃ m', h.dtor s.heap = some m' ∧
      Inv { heap := m', shareds := s.shareds.set i (some shared_ptr.null), weaks := s.weaks } := by
  cases hc : h.ref_count with
  | none =>
    refine ⟨(h.tosmart_ptr_nts.dtor s.heap), by simp [shared_ptr.dtor, shared_ptr.Dispose, hc], ?_⟩
    refine hI.step_frame (by simp) (by simp) ?_ (fun _ => rfl) ?_ ?_
    · intro c
      refine (owners_of_set (s := s) rfl hi c).trans ?_
      simp [shared_refs, shared_ptr.null, holds, hc]
    · intro j h' hj
      rcases slot_set_cases hj with hj | hj
      · exact Or.inl ⟨j, hj⟩
      · simp at hj; subst hj; exact Or.inr ⟨rfl, rfl, rfl⟩
    · intro j h' hj
      exact Or.inl ⟨j, hj⟩
  | some c =>
    obtain ⟨k, hk, hk1, hkp, hko, hkw⟩ := hI.of_shared hi hc
    obtain ⟨m1, hd, hr, hcs, hf⟩ := shared_Dispose_spec h s.heap c k hc hk
    refine ⟨(if k.sref_count = 1 then h.tosmart_ptr_nts else h.DisableDisposing).dtor m1,
      by simp [shared_ptr.dtor, hd], ?_⟩
    refine hI.step_counter (x := -1) (y := 0) hk (by simp [hcs])
      (deref_of_set ((base_dtor_counters _ _).trans hcs) (slot_lt hk)) ?_ ?_ ?_ (fun _ => by simp; rfl) ?_ ?_
    · intro k' hk'
      split at hk'
      · simp at hk'
      · next hz =>
        simp at hk'
        subst hk'
        simp [hf, hz]
        refine ⟨by omega, ?_⟩
        intro h0 h1
        exact hz ⟨by omega, h1⟩
    · intro hv
      split at hv
      · next hz =>
        refine ⟨by omega, by omega, ⟨{ k with sref_count := 0 }, rfl, hz.2, ?_⟩⟩
        simp [hf, hz]
      · simp at hv
    · intro c'
      refine (owners_of_set (s := s) rfl hi c').trans ?_
      simp [shared_refs, shared_ptr.null, holds, hc, eq_comm]
      split <;> omega
    · intro j h' hj
      rcases slot_set_cases hj with hj | hj
      · exact Or.inl ⟨j, hj⟩
      · simp at hj; subst hj; exact Or.inr (Or.inl ⟨rfl, rfl, rfl⟩)
    · intro j h' hj
      exact Or.inl ⟨j, hj⟩

/-- Releasing the observation of weak handle `i` succeeds and keeps the invariant. -/
theorem Inv.release_weak {s : State} (hI : Inv s) {i : Nat} {h : weak_ptr}
    (hi : slot s.weaks i = some h) :
    ∃ m', h.dtor s.heap = some m' ∧
      Inv { heap := m', shareds := s.shareds, weaks := s.weaks.set i (some weak_ptr.null) } := by
  cases hc : h.ref_count with
  | none =>
    refine ⟨(h.tosmart_ptr_nts.dtor s.heap), by simp [weak_ptr.dtor, weak_ptr.Dispose, hc], ?_⟩
    refine hI.step_frame (by simp) (by simp) (fun _ => rfl) ?_ ?_ ?_
    · intro c
      refine (observers_of_set (s := s) rfl hi c).trans ?_
      simp [weak_refs, weak_ptr.null, holds, hc]
    · intro j h' hj
      exact Or.inl ⟨j, hj⟩
    · intro j h' hj
      rcases slot_set_cases hj with hj | hj
      · exact Or.inl ⟨j, hj⟩
      · simp at hj; subst hj; exact Or.inr ⟨rfl, rfl, rfl⟩
  | some c =>
    obtain ⟨k, hk, hk1, hkp, hko, hkw⟩ := hI.of_weak hi hc
    obtain ⟨m1, hd, hr, hcs, hf⟩ := weak_Dispose_spec h s.heap c k hc hk
    refine ⟨h.tosmart_ptr_nts.dtor m1, by simp [weak_ptr.dtor, hd], ?_⟩
    refine hI.step_counter (x := 0) (y := -1) hk (by simp [hcs])
      (deref_of_set ((base_dtor_counters _ _).trans hcs) (slot_lt hk)) ?_ ?_ (fun _ => by simp; rfl) ?_ ?_ ?_
    · intro k' hk'
      split at hk'
      · simp at hk'
      · next hz =>
        simp at hk'
        subst hk'
        simp [hf, hz]
        refine ⟨by omega, ?_⟩
        intro h0 h1
        exact hz ⟨by omega, h0⟩
    · intro hv
      split at hv
      · next hz =>
        refine ⟨by omega, by omega, ⟨{ k with wref_count := 0 }, hz.2, rfl, ?_⟩⟩
        simp [hf, hz]
      · simp at hv
    · intro c'
      refine (observers_of_set (s := s) rfl hi c').trans ?_
      simp [weak_refs, weak_ptr.null, holds, hc, eq_comm]
      split <;> omega
    · intro j h' hj
      exact Or.inl ⟨j, hj⟩
    · intro j h' hj
      rcases slot_set_cases hj with hj | hj
      · exact Or.inl ⟨j, hj⟩
      · simp at hj; subst hj; exact Or.inr (Or.inl ⟨rfl, rfl, rfl⟩)

theorem Inv.shared_reset {s s' : State} (hI : Inv s) (i : Nat)
    (hs : step s (Op.shared_reset i) = some s') : Inv s' := by
  simp only [step] at hs
  split at hs
  · simp at hs
  · next h hi =>
    obtain ⟨m', hd, hX⟩ := hI.release_shared hi
    simp [shared_reset_eq, hd] at hs
    subst hs
    exact hX

theorem Inv.shared_destroy {s s' : State} (hI : Inv s) (i : Nat)
    (hs : step s (Op.shared_destroy i) = some s') : Inv s' := by
  simp only [step] at hs
  split at hs
  · simp at hs
  · next h hi =>
    obtain ⟨m', hd, hX⟩ := hI.release_shared hi
    simp [hd] at hs
    subst hs
    have hi' : slot (s.shareds.set i (some shared_ptr.null)) i = some shared_ptr.null :=
      slot_set_self _ hi
    refine hX.step_frame rfl rfl ?_ (fun _ => rfl) ?_ ?_
    · intro c
      refine (owners_of_set (s := { heap := m', shareds := _, weaks := s.weaks })
        (List.set_set _ _ _ _).symm hi' c).trans ?_
      simp [shared_refs, shared_ptr.null, holds]
    · intro j h' hj
      rcases slot_set_cases' hj with ⟨e, hj⟩ | ⟨_, hj⟩
      · exact Or.inl ⟨j, by rw [slot_set_ne _ _ e]; exact hj⟩
      · simp at hj
    · intro j h' hj
      exact Or.inl ⟨j, hj⟩

/-- Copying handle `j` into the empty shared handle `i` succeeds and keeps the invariant. -/
theorem Inv.copy_into_shared {s : State} (hI : Inv s) {i j : Nat} {h0 t : shared_ptr}
    (hi : slot s.shareds i = some h0) (h0n : h0.ref_count = none)
    (ht : slot s.shareds j = some t) :
    ∃ m', t.copy_ctor s.heap = some (t, m') ∧
      Inv { heap := m', shareds := s.shareds.set i (some t), weaks := s.weaks } := by
  cases hc : t.ref_count with
  | none =>
    refine ⟨s.heap, ?_, ?_⟩
    · simp [shared_ptr.copy_ctor, hc, smart_ptr_nts.copy_ctor]
      exact shared_mk_eq t none hc
    · refine hI.step_frame rfl rfl ?_ (fun _ => rfl) ?_ ?_
      · intro c
        refine (owners_of_set (s := s) rfl hi c).trans ?_
        simp [shared_refs, holds, hc, h0n]
      · intro j' h hj
        rcases slot_set_cases hj with hj | hj
        · exact Or.inl ⟨j', hj⟩
        · simp at hj; subst hj; exact Or.inl ⟨j, ht⟩
      · intro j' h hj
        exact Or.inl ⟨j', hj⟩
  | some c =>
    obtain ⟨k, hk, hk1, hkp, _, _⟩ := hI.of_shared ht hc
    refine ⟨Heap.mk (s.heap.counters.set c (some { k with sref_count := k.sref_count + 1 }))
      s.heap.released s.heap.freed, ?_, ?_⟩
    · simp [shared_ptr.copy_ctor, hc, smart_ptr_nts.copy_ctor, Heap.call_eq _ hk,
        SharedPtrRefCounter.IncreaseOwner]
      exact shared_mk_eq t (some c) hc
    · refine hI.step_counter (x := 1) (y := 0) hk (by simp)
        (deref_of_set rfl (slot_lt hk)) ?_ (by simp) ?_ (fun _ => by simp; rfl) ?_ ?_
      · intro k' hk'
        simp at hk'
        subst hk'
        simp
        omega
      · intro c'
        refine (owners_of_set (s := s) rfl hi c').trans ?_
        simp [shared_refs, holds, hc, h0n, eq_comm]
      · intro j' h hj
        rcases slot_set_cases hj with hj | hj
        · exact Or.inl ⟨j', hj⟩
        · simp at hj; subst hj; exact Or.inl ⟨j, ht⟩
      · intro j' h hj
        exact Or.inl ⟨j', hj⟩

/-- Constructing from a raw pointer into the empty shared handle `i` keeps the invariant. -/
theorem Inv.ctor_into_shared {s : State} (hI : Inv s) {i : Nat} {h0 : shared_ptr}
    (hi : slot s.shareds i = some h0) (h0n : h0.ref_count = none) (ptr : Ptr)
    (d : Option DeleterFn) :
    Inv { heap := (shared_ptr.ctor_deleter ptr d s.heap).2,
          shareds := s.shareds.set i (some (shared_ptr.ctor_deleter ptr d s.heap).1),
          weaks := s.weaks } := by
  by_cases hp : ptr = nullptr
  · subst hp
    refine hI.step_frame rfl rfl ?_ (fun _ => rfl) ?_ ?_
    · intro c
      refine (owners_of_set (s := s) rfl hi c).trans ?_
      simp [shared_refs, shared_ptr.ctor_deleter, holds, h0n]
    · intro j h hj
      rcases slot_set_cases hj with hj | hj
      · exact Or.inl ⟨j, hj⟩
      · simp [shared_ptr.ctor_deleter, smart_ptr_nts.ctor] at hj
        subst hj; exact Or.inr ⟨rfl, rfl, rfl⟩
    · intro j h hj
      exact Or.inl ⟨j, hj⟩
  · refine hI.step_alloc hp ?_ ?_ ?_ (fun _ => rfl) ?_ ?_
    · simp [shared_ptr.ctor_deleter, hp, shared_ptr.CreateCounter, Heap.new_counter]
    · simp [shared_ptr.ctor_deleter, hp, shared_ptr.CreateCounter, Heap.new_counter]
    · intro c
      refine (owners_of_set (s := s) rfl hi c).trans ?_
      simp [shared_refs, shared_ptr.ctor_deleter, hp, shared_ptr.CreateCounter,
        Heap.new_counter, eq_comm, holds, h0n]
    · intro j h hj
      rcases slot_set_cases hj with hj | hj
      · exact Or.inl ⟨j, hj⟩
      · simp [shared_ptr.ctor_deleter, smart_ptr_nts.ctor, hp, shared_ptr.CreateCounter,
          Heap.new_counter] at hj
        subst hj; exact Or.inr (Or.inr ⟨rfl, rfl⟩)
    · intro j h hj
      exact Or.inl ⟨j, hj⟩

/-- Moving handle `j` into the empty shared handle `i` keeps the invariant. -/
theorem Inv.move_into_shared {s : State} (hI : Inv s) {i j : Nat} {h0 t : shared_ptr}
    (hi : slot s.shareds i = some h0) (h0n : h0.ref_count = none)
    (ht : slot s.shareds j = some t) (hij : i ≠ j) :
    Inv { heap := s.heap,
          shareds := (s.shareds.set i (some t)).set j (some shared_ptr.null),
          weaks := s.weaks } := by
  have ht' : slot (s.shareds.set i (some t)) j = some t := by
    rw [slot_set_ne _ _ (Ne.symm hij)]; exact ht
  refine hI.step_frame rfl rfl ?_ (fun _ => rfl) ?_ ?_
  · intro c
    refine (owners_of_set (s := { s with shareds := s.shareds.set i (some t) }) rfl ht' c).trans ?_
    rw [owners_of_set (s := s) rfl hi c]
    simp [shared_refs, holds, h0n, shared_ptr.null]
  · intro j' h hj
    rcases slot_set_cases hj with hj | hj
    · rcases slot_set_cases hj with hj | hj
      · exact Or.inl ⟨j', hj⟩
      · simp at hj; subst hj; exact Or.inl ⟨j, ht⟩
    · simp at hj; subst hj; exact Or.inr ⟨rfl, rfl, rfl⟩
  · intro j' h hj
    exact Or.inl ⟨j', hj⟩

theorem Inv.shared_reset_ptr_deleter {s s' : State} (hI : Inv s) (i : Nat) (ptr : Ptr)
    (d : Option DeleterFn)
    (hs : step s (Op.shared_reset_ptr_deleter i ptr d) = some s') : Inv s' := by
  simp only [step] at hs
  split at hs
  · simp at hs
  · next h hi =>
    obtain ⟨m', hd, hX⟩ := hI.release_shared hi
    simp [shared_reset_ptr_deleter_eq, hd] at hs
    subst hs
    have := hX.ctor_into_shared (i := i) (slot_set_self _ hi) rfl ptr d
    simp only [List.set_set] at this
    exact this

theorem Inv.shared_copy_assign {s s' : State} (hI : Inv s) (dst src : Nat)
    (hs : step s (Op.shared_copy_assign dst src) = some s') : Inv s' := by
  simp only [step] at hs
  split at hs
  · next d t hd ht =>
    by_cases e : d.ref_count = t.ref_count
    · simp [shared_ptr.copy_assign, e] at hs
      subst hs
      refine hI.step_frame rfl rfl ?_ (fun _ => rfl) ?_ ?_
      · intro c
        refine (owners_of_set (s := s) rfl hd c).trans ?_
        simp [shared_refs, holds]
      · intro j h hj
        rcases slot_set_cases hj with hj | hj
        · exact Or.inl ⟨j, hj⟩
        · simp at hj; subst hj; exact Or.inl ⟨dst, hd⟩
      · intro j h hj
        exact Or.inl ⟨j, hj⟩
    · have hne : src ≠ dst := by
        intro h; subst h; rw [hd] at ht; simp at ht; subst ht; exact e rfl
      obtain ⟨m', hdd, hX⟩ := hI.release_shared hd
      have ht' : slot (s.shareds.set dst (some shared_ptr.null)) src = some t := by
        rw [slot_set_ne _ _ hne]; exact ht
      obtain ⟨m3, hcp, hY⟩ := hX.copy_into_shared (i := dst) (j := src)
        (slot_set_self _ hd) rfl ht'
      simp [shared_copy_assign_eq _ _ _ e, hdd] at hs
      simp at hcp
      simp [hcp] at hs
      subst hs
      simp only [List.set_set] at hY
      exact hY
  · simp at hs

theorem Inv.shared_move_assign {s s' : State} (hI : Inv s) (dst src : Nat)
    (hs : step s (Op.shared_move_assign dst src) = some s') : Inv s' := by
  simp only [step] at hs
  split at hs
  · simp at hs
  · next hne =>
    split at hs
    · next d t hd ht =>
      obtain ⟨m', hdd, hX⟩ := hI.release_shared hd
      have ht' : slot (s.shareds.set dst (some shared_ptr.null)) src = some t := by
        rw [slot_set_ne _ _ (Ne.symm hne)]; exact ht
      have hY := hX.move_into_shared (i := dst) (j := src) (slot_set_self _ hd) rfl ht' hne
      simp [shared_move_assign_eq, hdd] at hs
      subst hs
      simp only [List.set_set] at hY
      exact hY
    · simp at hs

theorem Inv.shared_move {s s' : State} (hI : Inv s) (src : Nat)
    (hs : step s (Op.shared_move src) = some s') : Inv s' := by
  simp only [step] at hs
  split at hs
  · simp at hs
  · next t ht =>
    simp [shared_ptr.move_ctor, smart_ptr_nts.move_ctor] at hs
    rw [shared_mk_eq t _ rfl] at hs
    subst hs
    refine hI.step_frame rfl rfl ?_ (fun _ => rfl) ?_ ?_
    · intro c
      refine (owners_of_append (s := { s with shareds := s.shareds.set src _ }) rfl c).trans ?_
      rw [owners_of_set (s := s) rfl ht c]
      simp [shared_refs, holds]
    · intro j h hj
      rcases slot_append_cases hj with hj | hj
      · rcases slot_set_cases hj with hj | hj
        · exact Or.inl ⟨j, hj⟩
        · simp at hj; subst hj; exact Or.inr ⟨rfl, rfl, rfl⟩
      · simp at hj; subst hj; exact Or.inl ⟨src, ht⟩
    · intro j h hj
      exact Or.inl ⟨j, hj⟩

/-- Constructing a weak handle from shared handle `j` succeeds and keeps the invariant. -/
theorem Inv.from_shared_push {s : State} (hI : Inv s) {j : Nat} {t : shared_ptr}
    (ht : slot s.shareds j = some t) :
    ∃ n m', weak_ptr.from_shared t s.heap = some (n, m') ∧
      Inv { heap := m', shareds := s.shareds, weaks := s.weaks ++ [some n] } := by
  cases hc : t.ref_count with
  | none =>
    obtain ⟨z1, z2⟩ := hI.snull j t ht hc
    refine ⟨weak_ptr.null, s.heap, ?_, ?_⟩
    · simp [weak_ptr.from_shared, shared_ptr.GetRefCounter, hc, smart_ptr_nts.ctor,
        shared_ptr.get, smart_ptr_nts.Get, z1, weak_ptr.null, smart_ptr_nts.null]
    · refine hI.step_frame rfl rfl (fun _ => rfl) ?_ ?_ ?_
      · intro c
        refine (observers_of_append (s := s) rfl c).trans ?_
        simp [weak_refs, weak_ptr.null]
      · intro j' h hj
        exact Or.inl ⟨j', hj⟩
      · intro j' h hj
        rcases slot_append_cases hj with hj | hj
        · exact Or.inl ⟨j', hj⟩
        · simp at hj; subst hj; exact Or.inr ⟨rfl, rfl, rfl⟩
  | some c =>
    obtain ⟨k, hk, hk1, hkp, _, _⟩ := hI.of_shared ht hc
    refine ⟨{ tosmart_ptr_nts := smart_ptr_nts.ctor t.get none, ref_count := some c },
      Heap.mk (s.heap.counters.set c (some { k with wref_count := k.wref_count + 1 }))
        s.heap.released s.heap.freed, ?_, ?_⟩
    · simp [weak_ptr.from_shared, shared_ptr.GetRefCounter, hc, Heap.call_eq _ hk,
        SharedPtrRefCounter.IncreaseObserver]
    · refine hI.step_counter (x := 0) (y := 1) hk (by simp)
        (deref_of_set rfl (slot_lt hk)) ?_ (by simp) (fun _ => by simp; rfl) ?_ ?_ ?_
      · intro k' hk'
        simp at hk'
        subst hk'
        simp
        omega
      · intro c'
        refine (observers_of_append (s := s) rfl c').trans ?_
        simp [weak_refs, eq_comm]
      · intro j' h hj
        exact Or.inl ⟨j', hj⟩
      · intro j' h hj
        rcases slot_append_cases hj with hj | hj
        · exact Or.inl ⟨j', hj⟩
        · simp at hj
          subst hj
          refine Or.inr (Or.inr ⟨?_, rfl, ?_⟩)
          · simp [smart_ptr_nts.ctor]
          · simp [smart_ptr_nts.ctor, shared_ptr.get, smart_ptr_nts.Get, hkp]

theorem Inv.weak_from_shared {s s' : State} (hI : Inv s) (src : Nat)
    (hs : step s (Op.weak_from_shared src) = some s') : Inv s' := by
  simp only [step] at hs
  split at hs
  · simp at hs
  · next t ht =>
    obtain ⟨n, m', hf, hX⟩ := hI.from_shared_push ht
    simp [hf] at hs
    subst hs
    exact hX

theorem Inv.weak_copy {s s' : State} (hI : Inv s) (src : Nat)
    (hs : step s (Op.weak_copy src) = some s') : Inv s' := by
  simp only [step] at hs
  split at hs
  · simp at hs
  · next t ht =>
    cases hc : t.ref_count with
    | none =>
      simp [weak_ptr.copy_ctor, hc, smart_ptr_nts.copy_ctor] at hs
      rw [weak_mk_eq t none hc] at hs
      subst hs
      refine hI.step_frame rfl rfl (fun _ => rfl) ?_ ?_ ?_
      · intro c
        refine (observers_of_append (s := s) rfl c).trans ?_
        simp [weak_refs, hc]
      · intro j h hj
        exact Or.inl ⟨j, hj⟩
      · intro j h hj
        rcases slot_append_cases hj with hj | hj
        · exact Or.inl ⟨j, hj⟩
        · simp at hj; subst hj; exact Or.inl ⟨src, ht⟩
    | some c =>
      obtain ⟨k, hk, hk1, hkp, _, _⟩ := hI.of_weak ht hc
      simp [weak_ptr.copy_ctor, hc, smart_ptr_nts.copy_ctor, Heap.call_eq _ hk,
        SharedPtrRefCounter.IncreaseObserver] at hs
      rw [weak_mk_eq t (some c) hc] at hs
      subst hs
      refine hI.step_counter (x := 0) (y := 1) hk (by simp)
        (deref_of_set rfl (slot_lt hk)) ?_ (by simp) (fun _ => by simp; rfl) ?_ ?_ ?_
      · intro k' hk'
        simp at hk'
        subst hk'
        simp
        omega
      · intro c'
        refine (observers_of_append (s := s) rfl c').trans ?_
        simp [weak_refs, hc, eq_comm]
      · intro j h hj
        exact Or.inl ⟨j, hj⟩
      · intro j h hj
        rcases slot_append_cases hj with hj | hj
        · exact Or.inl ⟨j, hj⟩
        · simp at hj; subst hj; exact Or.inl ⟨src, ht⟩

/-- Copying handle `j` into the empty weak handle `i` succeeds and keeps the invariant. -/
theorem Inv.copy_into_weak {s : State} (hI : Inv s) {i j : Nat} {h0 t : weak_ptr}
    (hi : slot s.weaks i = some h0) (h0n : h0.ref_count = none)
    (ht : slot s.weaks j = some t) :
    ∃ m', t.copy_ctor s.heap = some (t, m') ∧
      Inv { heap := m', shareds := s.shareds, weaks := s.weaks.set i (some t) } := by
  cases hc : t.ref_count with
  | none =>
    refine ⟨s.heap, ?_, ?_⟩
    · simp [weak_ptr.copy_ctor, hc, smart_ptr_nts.copy_ctor]
      exact weak_mk_eq t none hc
    · refine hI.step_frame rfl rfl (fun _ => rfl) ?_ ?_ ?_
      · intro c
        refine (observers_of_set (s := s) rfl hi c).trans ?_
        simp [weak_refs, holds, hc, h0n]
      · intro j' h hj
        exact Or.inl ⟨j', hj⟩
      · intro j' h hj
        rcases slot_set_cases hj with hj | hj
        · exact Or.inl ⟨j', hj⟩
        · simp at hj; subst hj; exact Or.inl ⟨j, ht⟩
  | some c =>
    obtain ⟨k, hk, hk1, hkp, _, _⟩ := hI.of_weak ht hc
    refine ⟨Heap.mk (s.heap.counters.set c (some { k with wref_count := k.wref_count + 1 }))
      s.heap.released s.heap.freed, ?_, ?_⟩
    · simp [weak_ptr.copy_ctor, hc, smart_ptr_nts.copy_ctor, Heap.call_eq _ hk,
        SharedPtrRefCounter.IncreaseObserver]
      exact weak_mk_eq t (some c) hc
    · refine hI.step_counter (x := 0) (y := 1) hk (by simp)
        (deref_of_set rfl (slot_lt hk)) ?_ (by simp) (fun _ => by simp; rfl) ?_ ?_ ?_
      · intro k' hk'
        simp at hk'
        subst hk'
        simp
        omega
      · intro c'
        refine (observers_of_set (s := s) rfl hi c').trans ?_
        simp [weak_refs, holds, hc, h0n, eq_comm]
      · intro j' h hj
        exact Or.inl ⟨j', hj⟩
      · intro j' h hj
        rcases slot_set_cases hj with hj | hj
        · exact Or.inl ⟨j', hj⟩
        · simp at hj; subst hj; exact Or.inl ⟨j, ht⟩

/-- Moving handle `j` into the empty weak handle `i` keeps the invariant. -/
theorem Inv.move_into_weak {s : State} (hI : Inv s) {i j : Nat} {h0 t : weak_ptr}
    (hi : slot s.weaks i = some h0) (h0n : h0.ref_count = none)
    (ht : slot s.weaks j = some t) (hij : i ≠ j) :
    Inv { heap := s.heap, shareds := s.shareds,
          weaks := (s.weaks.set i (some t)).set j (some weak_ptr.null) } := by
  have ht' : slot (s.weaks.set i (some t)) j = some t := by
    rw [slot_set_ne _ _ (Ne.symm hij)]; exact ht
  refine hI.step_frame rfl rfl (fun _ => rfl) ?_ ?_ ?_
  · intro c
    refine (observers_of_set (s := { s with weaks := s.weaks.set i (some t) }) rfl ht' c).trans ?_
    rw [observers_of_set (s := s) rfl hi c]
    simp [weak_refs, holds, h0n, weak_ptr.null]
  · intro j' h hj
    exact Or.inl ⟨j', hj⟩
  · intro j' h hj
    rcases slot_set_cases hj with hj | hj
    · rcases slot_set_cases hj with hj | hj
      · exact Or.inl ⟨j', hj⟩
      · simp at hj; subst hj; exact Or.inl ⟨j, ht⟩
    · simp at hj; subst hj; exact Or.inr ⟨rfl, rfl, rfl⟩

theorem Inv.weak_reset {s s' : State} (hI : Inv s) (i : Nat)
    (hs : step s (Op.weak_reset i) = some s') : Inv s' := by
  simp only [step] at hs
  split at hs
  · simp at hs
  · next h hi =>
    obtain ⟨m', hd, hX⟩ := hI.release_weak hi
    simp [weak_reset_eq, hd] at hs
    subst hs
    exact hX

theorem Inv.weak_destroy {s s' : State} (hI : Inv s) (i : Nat)
    (hs : step s (Op.weak_destroy i) = some s') : Inv s' := by
  simp only [step] at hs
  split at hs
  · simp at hs
  · next h hi =>
    obtain ⟨m', hd, hX⟩ := hI.release_weak hi
    simp [hd] at hs
    subst hs
    have hi' : slot (s.weaks.set i (some weak_ptr.null)) i = some weak_ptr.null :=
      slot_set_self _ hi
    refine hX.step_frame rfl rfl (fun _ => rfl) ?_ ?_ ?_
    · intro c
      refine (observers_of_set (s := { heap := m', shareds := s.shareds, weaks := _ })
        (List.set_set _ _ _ _).symm hi' c).trans ?_
      simp [weak_refs, weak_ptr.null, holds]
    · intro j h' hj
      exact Or.inl ⟨j, hj⟩
    · intro j h' hj
      rcases slot_set_cases' hj with ⟨e, hj⟩ | ⟨_, hj⟩
      · exact Or.inl ⟨j, by rw [slot_set_ne _ _ e]; exact hj⟩
      · simp at hj

theorem Inv.weak_copy_assign {s s' : State} (hI : Inv s) (dst src : Nat)
    (hs : step s (Op.weak_copy_assign dst src) = some s') : Inv s' := by
  simp only [step] at hs
  split at hs
  · next d t hd ht =>
    by_cases e : d.ref_count = t.ref_count
    · simp [weak_ptr.copy_assign, e] at hs
      subst hs
      refine hI.step_frame rfl rfl (fun _ => rfl) ?_ ?_ ?_
      · intro c
        refine (observers_of_set (s := s) rfl hd c).trans ?_
        simp [weak_refs, holds]
      · intro j h hj
        exact Or.inl ⟨j, hj⟩
      · intro j h hj
        rcases slot_set_cases hj with hj | hj
        · exact Or.inl ⟨j, hj⟩
        · simp at hj; subst hj; exact Or.inl ⟨dst, hd⟩
    · have hne : src ≠ dst := by
        intro h; subst h; rw [hd] at ht; simp at ht; subst ht; exact e rfl
      obtain ⟨m', hdd, hX⟩ := hI.release_weak hd
      have ht' : slot (s.weaks.set dst (some weak_ptr.null)) src = some t := by
        rw [slot_set_ne _ _ hne]; exact ht
      obtain ⟨m3, hcp, hY⟩ := hX.copy_into_weak (i := dst) (j := src)
        (slot_set_self _ hd) rfl ht'
      simp [weak_copy_assign_eq _ _ _ e, hdd] at hs
      simp at hcp
      simp [hcp] at hs
      subst hs
      simp only [List.set_set] at hY
      exact hY
  · simp at hs

theorem Inv.weak_move_assign {s s' : State} (hI : Inv s) (dst src : Nat)
    (hs : step s (Op.weak_move_assign dst src) = some s') : Inv s' := by
  simp only [step] at hs
  split at hs
  · simp at hs
  · next hne =>
    split at hs
    · next d t hd ht =>
      obtain ⟨m', hdd, hX⟩ := hI.release_weak hd
      have ht' : slot (s.weaks.set dst (some weak_ptr.null)) src = some t := by
        rw [slot_set_ne _ _ (Ne.symm hne)]; exact ht
      have hY := hX.move_into_weak (i := dst) (j := src) (slot_set_self _ hd) rfl ht' hne
      simp [weak_move_assign_eq, hdd] at hs
      subst hs
      simp only [List.set_set] at hY
      exact hY
    · simp at hs

theorem Inv.weak_move {s s' : State} (hI : Inv s) (src : Nat)
    (hs : step s (Op.weak_move src) = some s') : Inv s' := by
  simp only [step] at hs
  split at hs
  · simp at hs
  · next t ht =>
    simp [weak_ptr.move_ctor, smart_ptr_nts.move_ctor] at hs
    rw [weak_mk_eq t _ rfl] at hs
    subst hs
    refine hI.step_frame rfl rfl (fun _ => rfl) ?_ ?_ ?_
    · intro c
      refine (observers_of_append (s := { s with weaks := s.weaks.set src _ }) rfl c).trans ?_
      rw [observers_of_set (s := s) rfl ht c]
      simp [weak_refs, holds]
    · intro j h hj
      exact Or.inl ⟨j, hj⟩
    · intro j h hj
      rcases slot_append_cases hj with hj | hj
      · rcases slot_set_cases hj with hj | hj
        · exact Or.inl ⟨j, hj⟩
        · simp at hj; subst hj; exact Or.inr ⟨rfl, rfl, rfl⟩
      · simp at hj; subst hj; exact Or.inl ⟨src, ht⟩

theorem weak_dtor_null (m : Heap) : weak_ptr.null.dtor m = some m := by
  simp [weak_ptr.dtor, weak_ptr.Dispose, weak_ptr.null, smart_ptr_nts.null,
    smart_ptr_nts.dtor, smart_ptr_nts.Dispose]

theorem weak_assign_shared_eq (self : weak_ptr) (target : shared_ptr) (m : Heap) :
    self.assign_shared target m
      = (weak_ptr.from_shared target m).bind
          (fun r => (self.dtor r.2).map (fun m2 => (r.1, m2))) := by
  unfold weak_ptr.assign_shared
  cases hf : weak_ptr.from_shared target m with
  | none => rfl
  | some r =>
    obtain ⟨tmp, m1⟩ := r
    simp only [weak_move_assign_eq, Option.bind_some]
    cases hd : self.dtor m1 with
    | none => simp [hd]
    | some m2 => simp [weak_dtor_null, hd]

theorem Inv.weak_assign_shared {s s' : State} (hI : Inv s) (dst src : Nat)
    (hs : step s (Op.weak_assign_shared dst src) = some s') : Inv s' := by
  simp only [step] at hs
  split at hs
  · next d t hd ht =>
    obtain ⟨n, m1, hf, hY⟩ := hI.from_shared_push ht
    have hd' : slot (s.weaks ++ [some n]) dst = some d := by
      rw [slot_append, if_neg (Nat.ne_of_lt (slot_lt hd))]; exact hd
    obtain ⟨m2, hdd, hZ⟩ := hY.release_weak (i := dst) hd'
    simp at hdd
    simp [weak_assign_shared_eq, hf, hdd] at hs
    subst hs
    refine hZ.step_frame rfl rfl (fun _ => rfl) ?_ ?_ ?_
    · intro c
      have e1 := observers_of_set (s := s)
        (u := State.mk m2 s.shareds (s.weaks.set dst (some n))) rfl hd c
      have e2 := observers_of_set (s := State.mk m1 s.shareds (s.weaks ++ [some n]))
        (u := State.mk m2 s.shareds ((s.weaks ++ [some n]).set dst (some weak_ptr.null)))
        rfl hd' c
      have e3 := observers_of_append (s := s)
        (u := State.mk m1 s.shareds (s.weaks ++ [some n])) rfl c
      rw [e1, e2, e3]
      simp [weak_refs, weak_ptr.null]
      omega
    · intro j h hj
      exact Or.inl ⟨j, hj⟩
    · intro j h hj
      left
      rcases slot_set_cases' hj with ⟨e, hj⟩ | ⟨e, hj⟩
      · refine ⟨j, ?_⟩
        show slot ((s.weaks ++ [some n]).set dst (some weak_ptr.null)) j = some h
        rw [slot_set_ne _ _ e, slot_append, if_neg (Nat.ne_of_lt (slot_lt hj))]
        exact hj
      · refine ⟨s.weaks.length, ?_⟩
        show slot ((s.weaks ++ [some n]).set dst (some weak_ptr.null)) s.weaks.length = some h
        rw [slot_set_ne _ _ (Ne.symm (Nat.ne_of_lt (slot_lt hd))), slot_append, if_pos rfl]
        exact hj
  · simp at hs

theorem Inv.weak_lock {s s' : State} (hI : Inv s) (a : Bool) (i : Nat)
    (hs : step s (Op.weak_lock a i) = some s') : Inv s' := by
  simp only [step] at hs
  split at hs
  · simp at hs
  · next w hw =>
    have hnull : Inv { s with shareds := s.shareds ++ [some shared_ptr.null] } :=
      hI.shared_default (u := { s with shareds := s.shareds ++ [some shared_ptr.null] }) rfl
    by_cases hp : w.rawPtr = nullptr
    · simp [weak_ptr.lock, shared_ptr.CreateFrom, smart_ptr_nts.Get, hp] at hs
      subst hs
      exact hnull
    · cases hc : w.ref_count with
      | none =>
        simp [weak_ptr.lock, shared_ptr.CreateFrom, smart_ptr_nts.Get, hp, hc] at hs
        subst hs
        exact hnull
      | some c =>
        obtain ⟨k, hk, hk1, hkp, _, _⟩ := hI.of_weak hw hc
        by_cases ho : k.sref_count = 0
        · simp [weak_ptr.lock, shared_ptr.CreateFrom, smart_ptr_nts.Get, hp, hc,
            Heap.read_eq _ hk, SharedPtrRefCounter.CountOwners, ho] at hs
          subst hs
          exact hnull
        · simp [weak_ptr.lock, shared_ptr.CreateFrom, smart_ptr_nts.Get, hp, hc,
            Heap.read_eq _ hk, SharedPtrRefCounter.CountOwners, ho, shared_ptr.private_ctor,
            Heap.call_eq _ hk, SharedPtrRefCounter.IncreaseOwner, smart_ptr_nts.ctor] at hs
          subst hs
          refine hI.step_counter (x := 1) (y := 0) hk (by simp)
            (deref_of_set rfl (slot_lt hk)) ?_ (by simp) ?_ (fun _ => by simp; rfl) ?_ ?_
          · intro k' hk'
            simp at hk'
            subst hk'
            simp
            have := (hI.live c k hk).1
            omega
          · intro c'
            refine (owners_of_append (s := s) rfl c').trans ?_
            simp [shared_refs, eq_comm]
          · intro j h hj
            rcases slot_append_cases hj with hj | hj
            · exact Or.inl ⟨j, hj⟩
            · simp at hj; subst hj; exact Or.inr (Or.inr ⟨rfl, hkp⟩)
          · intro j h hj
            exact Or.inl ⟨j, hj⟩

/-- Every public operation keeps the invariant. -/
theorem Inv.step {s s' : State} (hI : Inv s) (op : Op) (hs : step s op = some s') :
    Inv s' := by
  cases op with
  | shared_default => exact hI.shared_default hs
  | shared_from_raw a ptr => exact hI.shared_from_raw_deleter ptr (some (Deleter a)) hs
  | shared_from_raw_deleter ptr d => exact hI.shared_from_raw_deleter ptr d hs
  | shared_copy src => exact hI.shared_copy src hs
  | shared_move src => exact hI.shared_move src hs
  | shared_copy_assign dst src => exact hI.shared_copy_assign dst src hs
  | shared_move_assign dst src => exact hI.shared_move_assign dst src hs
  | shared_reset i => exact hI.shared_reset i hs
  | shared_reset_ptr a i ptr => exact hI.shared_reset_ptr_deleter i ptr (some (Deleter a)) hs
  | shared_reset_ptr_deleter i ptr d => exact hI.shared_reset_ptr_deleter i ptr d hs
  | shared_destroy i => exact hI.shared_destroy i hs
  | weak_default => exact hI.weak_default hs
  | weak_from_shared src => exact hI.weak_from_shared src hs
  | weak_copy src => exact hI.weak_copy src hs
  | weak_move src => exact hI.weak_move src hs
  | weak_copy_assign dst src => exact hI.weak_copy_assign dst src hs
  | weak_assign_shared dst src => exact hI.weak_assign_shared dst src hs
  | weak_move_assign dst src => exact hI.weak_move_assign dst src hs
  | weak_reset i => exact hI.weak_reset i hs
  | weak_lock a i => exact hI.weak_lock a i hs
  | weak_destroy i => exact hI.weak_destroy i hs

theorem Inv.init : Inv State.init := by
  constructor <;> simp [State.init, Heap.deref, slot, State.owners, State.observers]

theorem Inv.run {s s' : State} (hI : Inv s) (ops : List Op) (hs : run s ops = some s') :
    Inv s' := by
  induction ops generalizing s with
  | nil => simp [smart_pointer_nts.run] at hs; subst hs; exact hI
  | cons op ops ih =>
    simp only [smart_pointer_nts.run] at hs
    split at hs
    · simp at hs
    · next s1 h1 => exact ih (hI.step op h1) hs

theorem Reachable.inv {s : State} (h : Reachable s) : Inv s := by
  obtain ⟨ops, hr⟩ := h
  exact Inv.init.run ops hr

theorem demo_state_reachable : Reachable demo_state :=
  ⟨[Op.shared_from_raw false 100, Op.shared_copy 0, Op.weak_from_shared 1], by decide⟩

theorem base_dtor_released (b : smart_ptr_nts) (m : Heap) :
    (b.dtor m).released = m.released ++ invocations b := by
  unfold smart_ptr_nts.dtor smart_ptr_nts.Dispose invocations Heap.invoke
  cases b.deleter <;> simp

/-! ### Destructors: effect on the heap -/

theorem shared_dtor_none (h : shared_ptr) (m : Heap) (hc : h.ref_count = none) :
    h.dtor m = some (h.tosmart_ptr_nts.dtor m) := by
  simp [shared_ptr.dtor, shared_ptr.Dispose, hc]

theorem weak_dtor_none (h : weak_ptr) (m : Heap) (hc : h.ref_count = none) :
    h.dtor m = some (h.tosmart_ptr_nts.dtor m) := by
  simp [weak_ptr.dtor, weak_ptr.Dispose, hc]

theorem shared_dtor_spec (h : shared_ptr) (m : Heap) (c : CounterId)
    (k : SharedPtrRefCounter) (hc : h.ref_count = some c) (hk : m.deref c = some k) :
    ∃ m', h.dtor m = some m' ∧
      m'.counters = m.counters.set c
        (if k.sref_count = 1 ∧ k.wref_count = 0 then none
         else some { k with sref_count := k.sref_count - 1 }) ∧
      m'.freed = (if k.sref_count = 1 ∧ k.wref_count = 0
        then m.freed ++ [(c, { k with sref_count := 0 })] else m.freed) ∧
      m'.released = m.released ++
        (if k.sref_count = 1 then invocations h.tosmart_ptr_nts else []) := by
  obtain ⟨m1, hd, hr, hcs, hf⟩ := shared_Dispose_spec h m c k hc hk
  refine ⟨(if k.sref_count = 1 then h.tosmart_ptr_nts else h.DisableDisposing).dtor m1,
    by simp [shared_ptr.dtor, hd], ?_, ?_, ?_⟩
  · rw [base_dtor_counters, hcs]
  · rw [base_dtor_freed, hf]
  · rw [base_dtor_released, hr]
    split <;> simp [invocations, smart_ptr_nts.DisableDisposing]

theorem weak_dtor_spec (h : weak_ptr) (m : Heap) (c : CounterId)
    (k : SharedPtrRefCounter) (hc : h.ref_count = some c) (hk : m.deref c = some k) :
    ∃ m', h.dtor m = some m' ∧
      m'.counters = m.counters.set c
        (if k.wref_count = 1 ∧ k.sref_count = 0 then none
         else some { k with wref_count := k.wref_count - 1 }) ∧
      m'.freed = (if k.wref_count = 1 ∧ k.sref_count = 0
        then m.freed ++ [(c, { k with wref_count := 0 })] else m.freed) ∧
      m'.released = m.released ++ invocations h.tosmart_ptr_nts := by
  obtain ⟨m1, hd, hr, hcs, hf⟩ := weak_Dispose_spec h m c k hc hk
  refine ⟨h.tosmart_ptr_nts.dtor m1, by simp [weak_ptr.dtor, hd], ?_, ?_, ?_⟩
  · rw [base_dtor_counters, hcs]
  · rw [base_dtor_freed, hf]
  · rw [base_dtor_released, hr]

/-! ### The deletion log grows only at disposals -/

theorem shared_dtor_freed {h : shared_ptr} {m m' : Heap} (hd : h.dtor m = some m') :
    ∃ l, m'.freed = m.freed ++ l ∧ l.length ≤ 1 := by
  cases hc : h.ref_count with
  | none =>
    rw [shared_dtor_none h m hc] at hd
    simp at hd
    subst hd
    exact ⟨[], by simp, by simp⟩
  | some c =>
    cases hk : m.deref c with
    | none => simp [shared_ptr.dtor, shared_ptr.Dispose, hc, Heap.call, hk] at hd
    | some k =>
      obtain ⟨m1, h1, _, h3, _⟩ := shared_dtor_spec h m c k hc hk
      rw [h1] at hd
      simp at hd
      subst hd
      rw [h3]
      split
      · exact ⟨_, rfl, by simp⟩
      · exact ⟨[], by simp, by simp⟩

theorem weak_dtor_freed {h : weak_ptr} {m m' : Heap} (hd : h.dtor m = some m') :
    ∃ l, m'.freed = m.freed ++ l ∧ l.length ≤ 1 := by
  cases hc : h.ref_count with
  | none =>
    rw [weak_dtor_none h m hc] at hd
    simp at hd
    subst hd
    exact ⟨[], by simp, by simp⟩
  | some c =>
    cases hk : m.deref c with
    | none => simp [weak_ptr.dtor, weak_ptr.Dispose, hc, Heap.call, hk] at hd
    | some k =>
      obtain ⟨m1, h1, _, h3, _⟩ := weak_dtor_spec h m c k hc hk
      rw [h1] at hd
      simp at hd
      subst hd
      rw [h3]
      split
      · exact ⟨_, rfl, by simp⟩
      · exact ⟨[], by simp, by simp⟩

theorem call_freed {m : Heap} {c : CounterId}
    {f : SharedPtrRefCounter → SharedPtrRefCounter × Int} {r : Int × Heap}
    (h : m.call c f = some r) : r.2.freed = m.freed := by
  unfold Heap.call at h
  split at h
  · simp at h
  · simp at h; rw [← h]

theorem shared_copy_ctor_freed {t : shared_ptr} {m : Heap} {r : shared_ptr × Heap}
    (h : t.copy_ctor m = some r) : r.2.freed = m.freed := by
  unfold shared_ptr.copy_ctor at h
  split at h
  · split at h
    · simp at h
    · next hc => simp at h; rw [← h]; exact call_freed hc
  · simp at h; rw [← h]

theorem weak_copy_ctor_freed {t : weak_ptr} {m : Heap} {r : weak_ptr × Heap}
    (h : t.copy_ctor m = some r) : r.2.freed = m.freed := by
  unfold weak_ptr.copy_ctor at h
  split at h
  · split at h
    · simp at h
    · next hc => simp at h; rw [← h]; exact call_freed hc
  · simp at h; rw [← h]

theorem from_shared_freed {t : shared_ptr} {m : Heap} {r : weak_ptr × Heap}
    (h : weak_ptr.from_shared t m = some r) : r.2.freed = m.freed := by
  unfold weak_ptr.from_shared at h
  split at h
  · split at h
    · simp at h
    · next hc => simp at h; rw [← h]; exact call_freed hc
  · simp at h; rw [← h]

theorem ctor_deleter_freed (ptr : Ptr) (d : Option DeleterFn) (m : Heap) :
    (shared_ptr.ctor_deleter ptr d m).2.freed = m.freed := by
  unfold shared_ptr.ctor_deleter shared_ptr.CreateCounter Heap.new_counter
  split <;> rfl

theorem lock_freed {a : Bool} {w : weak_ptr} {m : Heap} {r : shared_ptr × Heap}
    (h : w.lock a m = some r) : r.2.freed = m.freed := by
  by_cases hp : w.rawPtr = nullptr
  · simp [weak_ptr.lock, shared_ptr.CreateFrom, smart_ptr_nts.Get, hp] at h
    rw [← h]
  · cases hc : w.ref_count with
    | none =>
      simp [weak_ptr.lock, shared_ptr.CreateFrom, smart_ptr_nts.Get, hp, hc] at h
      rw [← h]
    | some c =>
      cases hk : m.deref c with
      | none =>
        simp [weak_ptr.lock, shared_ptr.CreateFrom, smart_ptr_nts.Get, hp, hc, Heap.read,
          hk] at h
      | some k =>
        by_cases ho : k.sref_count = 0
        · simp [weak_ptr.lock, shared_ptr.CreateFrom, smart_ptr_nts.Get, hp, hc,
            Heap.read_eq _ hk, SharedPtrRefCounter.CountOwners, ho] at h
          rw [← h]
        · simp [weak_ptr.lock, shared_ptr.CreateFrom, smart_ptr_nts.Get, hp, hc,
            Heap.read_eq _ hk, SharedPtrRefCounter.CountOwners, ho, shared_ptr.private_ctor,
            Heap.call_eq _ hk, SharedPtrRefCounter.IncreaseOwner, smart_ptr_nts.ctor] at h
          rw [← h]

/-- Each operation appends at most one entry to the deletion log, and none unless it
disposes. -/
theorem step_freed {s s' : State} {op : Op} (hs : step s op = some s') :
    ∃ l, s'.heap.freed = s.heap.freed ++ l ∧ l.length ≤ 1 ∧ (op.disposes = false → l = []) := by
  have same : s'.heap.freed = s.heap.freed →
      ∃ l, s'.heap.freed = s.heap.freed ++ l ∧ l.length ≤ 1 ∧ (op.disposes = false → l = []) :=
    fun e => ⟨[], by simp [e], by simp, fun _ => rfl⟩
  have grow : op.disposes = true → (∃ l, s'.heap.freed = s.heap.freed ++ l ∧ l.length ≤ 1) →
      ∃ l, s'.heap.freed = s.heap.freed ++ l ∧ l.length ≤ 1 ∧ (op.disposes = false → l = []) :=
    fun e ⟨l, h1, h2⟩ => ⟨l, h1, h2, fun e' => by rw [e] at e'; simp at e'⟩
  cases op with
  | shared_default => simp [step] at hs; subst hs; exact same rfl
  | shared_from_raw a ptr =>
    simp [step] at hs; subst hs
    exact same (ctor_deleter_freed _ _ _)
  | shared_from_raw_deleter ptr d =>
    simp [step] at hs; subst hs
    exact same (ctor_deleter_freed _ _ _)
  | shared_copy src =>
    simp only [step] at hs
    split at hs
    · simp at hs
    · split at hs
      · simp at hs
      · next hc => simp at hs; subst hs; exact same (shared_copy_ctor_freed hc)
  | shared_move src =>
    simp only [step] at hs
    split at hs
    · simp at hs
    · simp at hs; subst hs; exact same rfl
  | shared_copy_assign dst src =>
    refine grow rfl ?_
    simp only [step] at hs
    split at hs
    · next d t hd ht =>
      by_cases e : d.ref_count = t.ref_count
      · simp [shared_ptr.copy_assign, e] at hs
        subst hs
        exact ⟨[], by simp, by simp⟩
      · rw [shared_copy_assign_eq _ _ _ e] at hs
        cases hdt : d.dtor s.heap with
        | none => simp [hdt] at hs
        | some m1 =>
          simp only [hdt, Option.bind_some] at hs
          split at hs
          · simp at hs
          · next hc =>
            simp at hs; subst hs
            obtain ⟨l, h1, h2⟩ := shared_dtor_freed hdt
            exact ⟨l, by rw [← h1]; exact shared_copy_ctor_freed hc, h2⟩
    · simp at hs
  | shared_move_assign dst src =>
    refine grow rfl ?_
    simp only [step] at hs
    split at hs
    · simp at hs
    · split at hs
      · next d t hd ht =>
        rw [shared_move_assign_eq] at hs
        cases hdt : d.dtor s.heap with
        | none => simp [hdt] at hs
        | some m1 =>
          simp [hdt] at hs; subst hs
          exact shared_dtor_freed hdt
      · simp at hs
  | shared_reset i =>
    refine grow rfl ?_
    simp only [step] at hs
    split at hs
    · simp at hs
    · next h hi =>
      rw [shared_reset_eq] at hs
      cases hdt : h.dtor s.heap with
      | none => simp [hdt] at hs
      | some m1 =>
        simp [hdt] at hs; subst hs
        exact shared_dtor_freed hdt
  | shared_reset_ptr a i ptr =>
    refine grow rfl ?_
    simp only [step, shared_ptr.reset_ptr] at hs
    split at hs
    · simp at hs
    · next h hi =>
      rw [shared_reset_ptr_deleter_eq] at hs
      cases hdt : h.dtor s.heap with
      | none => simp [hdt] at hs
      | some m1 =>
        simp [hdt] at hs; subst hs
        obtain ⟨l, h1, h2⟩ := shared_dtor_freed hdt
        exact ⟨l, by rw [← h1]; exact ctor_deleter_freed _ _ _, h2⟩
  | shared_reset_ptr_deleter i ptr d =>
    refine grow rfl ?_
    simp only [step] at hs
    split at hs
    · simp at hs
    · next h hi =>
      rw [shared_reset_ptr_deleter_eq] at hs
      cases hdt : h.dtor s.heap with
      | none => simp [hdt] at hs
      | some m1 =>
        simp [hdt] at hs; subst hs
        obtain ⟨l, h1, h2⟩ := shared_dtor_freed hdt
        exact ⟨l, by rw [← h1]; exact ctor_deleter_freed _ _ _, h2⟩
  | shared_destroy i =>
    refine grow rfl ?_
    simp only [step] at hs
    split at hs
    · simp at hs
    · next h hi =>
      cases hdt : h.dtor s.heap with
      | none => simp [hdt] at hs
      | some m1 =>
        simp [hdt] at hs; subst hs
        exact shared_dtor_freed hdt
  | weak_default => simp [step] at hs; subst hs; exact same rfl
  | weak_from_shared src =>
    simp only [step] at hs
    split at hs
    · simp at hs
    · split at hs
      · simp at hs
      · next hc => simp at hs; subst hs; exact same (from_shared_freed hc)
  | weak_copy src =>
    simp only [step] at hs
    split at hs
    · simp at hs
    · split at hs
      · simp at hs
      · next hc => simp at hs; subst hs; exact same (weak_copy_ctor_freed hc)
  | weak_move src =>
    simp only [step] at hs
    split at hs
    · simp at hs
    · simp at hs; subst hs; exact same rfl
  | weak_copy_assign dst src =>
    refine grow rfl ?_
    simp only [step] at hs
    split at hs
    · next d t hd ht =>
      by_cases e : d.ref_count = t.ref_count
      · simp [weak_ptr.copy_assign, e] at hs
        subst hs
        exact ⟨[], by simp, by simp⟩
      · rw [weak_copy_assign_eq _ _ _ e] at hs
        cases hdt : d.dtor s.heap with
        | none => simp [hdt] at hs
        | some m1 =>
          simp only [hdt, Option.bind_some] at hs
          split at hs
          · simp at hs
          · next hc =>
            simp at hs; subst hs
            obtain ⟨l, h1, h2⟩ := weak_dtor_freed hdt
            exact ⟨l, by rw [← h1]; exact weak_copy_ctor_freed hc, h2⟩
    · simp at hs
  | weak_assign_shared dst src =>
    refine grow rfl ?_
    simp only [step] at hs
    split at hs
    · next d t hd ht =>
      rw [weak_assign_shared_eq] at hs
      cases hf : weak_ptr.from_shared t s.heap with
      | none => simp [hf] at hs
      | some r =>
        simp only [hf, Option.bind_some] at hs
        cases hdt : d.dtor r.2 with
        | none => simp [hdt] at hs
        | some m2 =>
          simp [hdt] at hs; subst hs
          obtain ⟨l, h1, h2⟩ := weak_dtor_freed hdt
          exact ⟨l, by rw [← from_shared_freed hf]; exact h1, h2⟩
    · simp at hs
  | weak_move_assign dst src =>
    refine grow rfl ?_
    simp only [step] at hs
    split at hs
    · simp at hs
    · split at hs
      · next d t hd ht =>
        rw [weak_move_assign_eq] at hs
        cases hdt : d.dtor s.heap with
        | none => simp [hdt] at hs
        | some m1 =>
          simp [hdt] at hs; subst hs
          exact weak_dtor_freed hdt
      · simp at hs
  | weak_reset i =>
    refine grow rfl ?_
    simp only [step] at hs
    split at hs
    · simp at hs
    · next h hi =>
      rw [weak_reset_eq] at hs
      cases hdt : h.dtor s.heap with
      | none => simp [hdt] at hs
      | some m1 =>
        simp [hdt] at hs; subst hs
        exact weak_dtor_freed hdt
  | weak_lock a i =>
    simp only [step] at hs
    split at hs
    · simp at hs
    · split at hs
      · simp at hs
      · next hc => simp at hs; subst hs; exact same (lock_freed hc)
  | weak_destroy i =>
    refine grow rfl ?_
    simp only [step] at hs
    split at hs
    · simp at hs
    · next h hi =>
      cases hdt : h.dtor s.heap with
      | none => simp [hdt] at hs
      | some m1 =>
        simp [hdt] at hs; subst hs
        exact weak_dtor_freed hdt

/-! ### One lineage: construction, copies, disposals -/

theorem use_count_of_deref {h : shared_ptr} {m : Heap} {c : CounterId}
    {k : SharedPtrRefCounter} (hc : h.ref_count = some c) (hk : m.deref c = some k) :
    h.use_count m = some k.sref_count := by
  simp [shared_ptr.use_count, hc, Heap.read_eq _ hk, SharedPtrRefCounter.CountOwners]

/-! ### Operations on live handles are defined -/

theorem shared_copy_ctor_defined {s : State} (hI : Inv s) {j : Nat} {t : shared_ptr}
    (ht : slot s.shareds j = some t) : ∃ r, t.copy_ctor s.heap = some r := by
  cases hc : t.ref_count with
  | none => exact ⟨_, by simp [shared_ptr.copy_ctor, hc]; rfl⟩
  | some c =>
    obtain ⟨k, hk, _⟩ := hI.of_shared ht hc
    exact ⟨_, by simp [shared_ptr.copy_ctor, hc, Heap.call_eq _ hk]; rfl⟩

theorem weak_copy_ctor_defined {s : State} (hI : Inv s) {j : Nat} {t : weak_ptr}
    (ht : slot s.weaks j = some t) : ∃ r, t.copy_ctor s.heap = some r := by
  cases hc : t.ref_count with
  | none => exact ⟨_, by simp [weak_ptr.copy_ctor, hc]; rfl⟩
  | some c =>
    obtain ⟨k, hk, _⟩ := hI.of_weak ht hc
    exact ⟨_, by simp [weak_ptr.copy_ctor, hc, Heap.call_eq _ hk]; rfl⟩

theorem lock_defined {s : State} (hI : Inv s) (a : Bool) {i : Nat} {w : weak_ptr}
    (hw : slot s.weaks i = some w) : ∃ r, w.lock a s.heap = some r := by
  by_cases hp : w.rawPtr = nullptr
  · exact ⟨_, by simp [weak_ptr.lock, shared_ptr.CreateFrom, smart_ptr_nts.Get, hp]; rfl⟩
  · cases hc : w.ref_count with
    | none =>
      exact ⟨_, by simp [weak_ptr.lock, shared_ptr.CreateFrom, smart_ptr_nts.Get, hp, hc]; rfl⟩
    | some c =>
      obtain ⟨k, hk, _⟩ := hI.of_weak hw hc
      by_cases ho : k.sref_count = 0
      · exact ⟨_, by
          simp [weak_ptr.lock, shared_ptr.CreateFrom, smart_ptr_nts.Get, hp, hc,
            Heap.read_eq _ hk, SharedPtrRefCounter.CountOwners, ho]
          rfl⟩
      · exact ⟨_, by
          simp [weak_ptr.lock, shared_ptr.CreateFrom, smart_ptr_nts.Get, hp, hc,
            Heap.read_eq _ hk, SharedPtrRefCounter.CountOwners, ho, shared_ptr.private_ctor,
            Heap.call_eq _ hk]
          rfl⟩

/-- No public operation on live handles of a state that satisfies the invariant reads or
writes a freed counter or fails an assertion: the step is defined. -/
theorem step_defined {s : State} (hI : Inv s) (op : Op) (hl : op.live s) :
    ∃ u, step s op = some u := by
  cases op with
  | shared_default => exact ⟨_, rfl⟩
  | shared_from_raw a ptr => exact ⟨_, rfl⟩
  | shared_from_raw_deleter ptr d => exact ⟨_, rfl⟩
  | shared_copy src =>
    obtain ⟨t, ht⟩ := hl
    obtain ⟨r, hr⟩ := shared_copy_ctor_defined hI ht
    exact ⟨_, by simp [step, ht, hr]; rfl⟩
  | shared_move src =>
    obtain ⟨t, ht⟩ := hl
    exact ⟨_, by simp [step, ht]; rfl⟩
  | shared_copy_assign dst src =>
    obtain ⟨⟨d, hd⟩, t, ht⟩ := hl
    by_cases e : d.ref_count = t.ref_count
    · exact ⟨_, by simp [step, hd, ht, shared_ptr.copy_assign, e]; rfl⟩
    · have hne : src ≠ dst := by
        intro h; subst h; rw [hd] at ht; simp at ht; subst ht; exact e rfl
      obtain ⟨m', hdd, hX⟩ := hI.release_shared hd
      have ht' : slot (s.shareds.set dst (some shared_ptr.null)) src = some t := by
        rw [slot_set_ne _ _ hne]; exact ht
      obtain ⟨r, hr⟩ := shared_copy_ctor_defined hX (j := src) ht'
      exact ⟨_, by simp [step, hd, ht, shared_copy_assign_eq _ _ _ e, hdd, hr]; rfl⟩
  | shared_move_assign dst src =>
    obtain ⟨hne, ⟨d, hd⟩, t, ht⟩ := hl
    obtain ⟨m', hdd, _⟩ := hI.release_shared hd
    exact ⟨_, by simp [step, hne, hd, ht, shared_move_assign_eq, hdd]; rfl⟩
  | shared_reset i =>
    obtain ⟨h, hi⟩ := hl
    obtain ⟨m', hdd, _⟩ := hI.release_shared hi
    exact ⟨_, by simp [step, hi, shared_reset_eq, hdd]; rfl⟩
  | shared_reset_ptr a i ptr =>
    obtain ⟨h, hi⟩ := hl
    obtain ⟨m', hdd, _⟩ := hI.release_shared hi
    exact ⟨_, by
      simp [step, hi, shared_ptr.reset_ptr, shared_reset_ptr_deleter_eq, hdd]; rfl⟩
  | shared_reset_ptr_deleter i ptr d =>
    obtain ⟨h, hi⟩ := hl
    obtain ⟨m', hdd, _⟩ := hI.release_shared hi
    exact ⟨_, by simp [step, hi, shared_reset_ptr_deleter_eq, hdd]; rfl⟩
  | shared_destroy i =>
    obtain ⟨h, hi⟩ := hl
    obtain ⟨m', hdd, _⟩ := hI.release_shared hi
    exact ⟨_, by simp [step, hi, hdd]; rfl⟩
  | weak_default => exact ⟨_, rfl⟩
  | weak_from_shared src =>
    obtain ⟨t, ht⟩ := hl
    obtain ⟨n, m', hf, _⟩ := hI.from_shared_push ht
    exact ⟨_, by simp [step, ht, hf]; rfl⟩
  | weak_copy src =>
    obtain ⟨t, ht⟩ := hl
    obtain ⟨r, hr⟩ := weak_copy_ctor_defined hI ht
    exact ⟨_, by simp [step, ht, hr]; rfl⟩
  | weak_move src =>
    obtain ⟨t, ht⟩ := hl
    exact ⟨_, by simp [step, ht]; rfl⟩
  | weak_copy_assign dst src =>
    obtain ⟨⟨d, hd⟩, t, ht⟩ := hl
    by_cases e : d.ref_count = t.ref_count
    · exact ⟨_, by simp [step, hd, ht, weak_ptr.copy_assign, e]; rfl⟩
    · have hne : src ≠ dst := by
        intro h; subst h; rw [hd] at ht; simp at ht; subst ht; exact e rfl
      obtain ⟨m', hdd, hX⟩ := hI.release_weak hd
      have ht' : slot (s.weaks.set dst (some weak_ptr.null)) src = some t := by
        rw [slot_set_ne _ _ hne]; exact ht
      obtain ⟨r, hr⟩ := weak_copy_ctor_defined hX (j := src) ht'
      exact ⟨_, by simp [step, hd, ht, weak_copy_assign_eq _ _ _ e, hdd, hr]; rfl⟩
  | weak_assign_shared dst src =>
    obtain ⟨⟨d, hd⟩, t, ht⟩ := hl
    obtain ⟨n, m1, hf, hY⟩ := hI.from_shared_push ht
    have hd' : slot (s.weaks ++ [some n]) dst = some d := by
      rw [slot_append, if_neg (Nat.ne_of_lt (slot_lt hd))]; exact hd
    obtain ⟨m2, hdd, _⟩ := hY.release_weak (i := dst) hd'
    simp at hdd
    exact ⟨_, by simp [step, hd, ht, weak_assign_shared_eq, hf, hdd]; rfl⟩
  | weak_move_assign dst src =>
    obtain ⟨hne, ⟨d, hd⟩, t, ht⟩ := hl
    obtain ⟨m', hdd, _⟩ := hI.release_weak hd
    exact ⟨_, by simp [step, hne, hd, ht, weak_move_assign_eq, hdd]; rfl⟩
  | weak_reset i =>
    obtain ⟨h, hi⟩ := hl
    obtain ⟨m', hdd, _⟩ := hI.release_weak hi
    exact ⟨_, by simp [step, hi, weak_reset_eq, hdd]; rfl⟩
  | weak_lock a i =>
    obtain ⟨h, hi⟩ := hl
    obtain ⟨r, hr⟩ := lock_defined hI a hi
    exact ⟨_, by simp [step, hi, hr]; rfl⟩
  | weak_destroy i =>
    obtain ⟨h, hi⟩ := hl
    obtain ⟨m', hdd, _⟩ := hI.release_weak hi
    exact ⟨_, by simp [step, hi, hdd]; rfl⟩


/-! ### The base class and exclusive handles -/

theorem base_Dispose_released (b : smart_ptr_nts) (m : Heap) :
    (b.Dispose m).2.released = m.released ++ invocations b := by
  unfold smart_ptr_nts.Dispose invocations Heap.invoke
  cases b.deleter <;> simp

theorem invocations_some {b : smart_ptr_nts} {dl : DeleterFn} (h : b.deleter = some dl) :
    invocations b = [(dl, b.rawPtr)] := by
  simp [invocations, h]

theorem invocations_none {b : smart_ptr_nts} (h : b.deleter = none) : invocations b = [] := by
  simp [invocations, h]

theorem base_Dispose_none {b : smart_ptr_nts} (h : b.deleter = none) (m : Heap) :
    (b.Dispose m).2 = m := by
  simp [smart_ptr_nts.Dispose, h]

/-! ### Stored deleters -/

theorem lock_nonempty_deleter {a : Bool} {w : weak_ptr} {m : Heap} {r : shared_ptr × Heap}
    (h : w.lock a m = some r) (hb : r.1.to_bool = true) :
    r.1.deleter = some (Deleter a) ∧ r.1.get = w.rawPtr := by
  have hnull : r ≠ (shared_ptr.null, m) := by
    intro e
    rw [e] at hb
    have e2 : (shared_ptr.null, m).1.to_bool = false := rfl
    rw [e2] at hb
    exact Bool.noConfusion hb
  by_cases hp : w.rawPtr = nullptr
  · simp [weak_ptr.lock, shared_ptr.CreateFrom, smart_ptr_nts.Get, hp] at h
    exact absurd h.symm hnull
  cases hc : w.ref_count with
  | none =>
    simp [weak_ptr.lock, shared_ptr.CreateFrom, smart_ptr_nts.Get, hp, hc] at h
    exact absurd h.symm hnull
  | some c =>
    cases hk : m.read c SharedPtrRefCounter.CountOwners with
    | none => simp [weak_ptr.lock, shared_ptr.CreateFrom, smart_ptr_nts.Get, hp, hc, hk] at h
    | some n =>
      by_cases h0 : n = 0
      · simp [weak_ptr.lock, shared_ptr.CreateFrom, smart_ptr_nts.Get, hp, hc, hk, h0] at h
        exact absurd h.symm hnull
      · cases hcall : m.call c SharedPtrRefCounter.IncreaseOwner with
        | none =>
          simp [weak_ptr.lock, shared_ptr.CreateFrom, smart_ptr_nts.Get, hp, hc, hk, h0,
            shared_ptr.private_ctor, hcall] at h
        | some x =>
          simp [weak_ptr.lock, shared_ptr.CreateFrom, smart_ptr_nts.Get, hp, hc, hk, h0,
            shared_ptr.private_ctor, hcall] at h
          subst h
          simp [smart_ptr_nts.ctor, shared_ptr.get, smart_ptr_nts.Get, hp]

theorem reset_ptr_deleter_stored {h : shared_ptr} {p : Ptr} {d : Option DeleterFn} {m : Heap}
    {r : shared_ptr × Heap} (hp : p ≠ nullptr) (hr : h.reset_ptr_deleter p d m = some r) :
    r.1.deleter = d ∧ r.1.get = p := by
  rw [shared_reset_ptr_deleter_eq] at hr
  cases hd : h.dtor m with
  | none => simp [hd] at hr
  | some n =>
    simp [hd] at hr
    subst hr
    simp [shared_ptr.ctor_deleter, hp, smart_ptr_nts.ctor, shared_ptr.get, smart_ptr_nts.Get]

/-! ### Release and acquisition by shared handles -/

/-- Destruction of a live shared handle in a state that satisfies the invariant: what it
does to the heap. -/
theorem shared_release_cases {s : State} (hI : Inv s) {i : Nat} {h : shared_ptr}
    (hi : slot s.shareds i = some h) :
    ∃ m1, h.dtor s.heap = some m1 ∧ m1.counters.length = s.heap.counters.length ∧
      ((h.ref_count = none ∧ h.rawPtr = nullptr ∧ m1 = s.heap) ∨
       (∃ c k, h.ref_count = some c ∧ s.heap.deref c = some k ∧ 1 ≤ k.sref_count ∧
          h.rawPtr = k.resource ∧ k.resource ≠ nullptr ∧
          (∀ c', m1.deref c' = if c' = c then
              (if k.sref_count = 1 ∧ k.wref_count = 0 then none
               else some { k with sref_count := k.sref_count - 1 })
            else s.heap.deref c') ∧
          m1.released = s.heap.released ++
            (if k.sref_count = 1 then invocations h.tosmart_ptr_nts else []) ∧
          m1.freed = (if k.sref_count = 1 ∧ k.wref_count = 0
            then s.heap.freed ++ [(c, { k with sref_count := 0 })] else s.heap.freed))) := by
  cases hc : h.ref_count with
  | none =>
    obtain ⟨hp, hdl⟩ := hI.snull i h hi hc
    have e : h.dtor s.heap = some s.heap := by
      rw [shared_dtor_none h _ hc]
      simp [smart_ptr_nts.dtor, smart_ptr_nts.Dispose, hdl]
    exact ⟨s.heap, e, rfl, Or.inl ⟨rfl, hp, rfl⟩⟩
  | some c =>
    obtain ⟨k, hk, h1, hp, _, _⟩ := hI.of_shared hi hc
    obtain ⟨m1, hd, hcs, hf, hrl⟩ := shared_dtor_spec h s.heap c k hc hk
    refine ⟨m1, hd, by rw [hcs, List.length_set], Or.inr ⟨c, k, rfl, hk, h1, hp, hI.res c k hk,
      deref_of_set hcs (slot_lt hk), hrl, hf⟩⟩

theorem shared_copy_ctor_some {t : shared_ptr} {m : Heap} {c : CounterId}
    {k : SharedPtrRefCounter} (hc : t.ref_count = some c) (hk : m.deref c = some k) :
    t.copy_ctor m = some (t, Heap.mk
      (m.counters.set c (some { k with sref_count := k.sref_count + 1 })) m.released m.freed) := by
  simp only [shared_ptr.copy_ctor, hc, Heap.call_eq _ hk, smart_ptr_nts.copy_ctor,
    SharedPtrRefCounter.IncreaseOwner]
  rw [shared_mk_eq t (some c) hc]

theorem shared_copy_ctor_none {t : shared_ptr} (m : Heap) (hc : t.ref_count = none) :
    t.copy_ctor m = some (t, m) := by
  simp only [shared_ptr.copy_ctor, hc, smart_ptr_nts.copy_ctor]
  rw [shared_mk_eq t none hc]

theorem ctor_deleter_some {p : Ptr} (d : Option DeleterFn) (m : Heap) (hp : p ≠ nullptr) :
    shared_ptr.ctor_deleter p d m
      = ({ rawPtr := p, deleter := d, ref_count := some m.counters.length },
         Heap.mk (m.counters ++ [some (SharedPtrRefCounter.create p)]) m.released m.freed) := by
  simp [shared_ptr.ctor_deleter, hp, smart_ptr_nts.ctor, shared_ptr.CreateCounter,
    Heap.new_counter]

theorem ctor_deleter_null (d : Option DeleterFn) (m : Heap) :
    shared_ptr.ctor_deleter nullptr d m = (shared_ptr.null, m) := by
  simp [shared_ptr.ctor_deleter, smart_ptr_nts.ctor, shared_ptr.null, smart_ptr_nts.null]

/-! ### Weak handle operations move observer counts only -/

theorem observer_shift_zero {k : SharedPtrRefCounter}
    (h : ¬ (k.wref_count = 0 ∧ k.sref_count = 0)) : observer_shift 0 k = some k := by
  unfold observer_shift
  rw [if_neg (by simpa using h)]
  simp

theorem observer_shift_one {k : SharedPtrRefCounter} (h : 0 ≤ k.wref_count) :
    observer_shift 1 k = some { k with wref_count := k.wref_count + 1 } := by
  unfold observer_shift
  rw [if_neg]
  intro e
  omega

theorem observer_shift_neg (k : SharedPtrRefCounter) :
    observer_shift (-1) k = if k.wref_count = 1 ∧ k.sref_count = 0 then none
      else some { k with wref_count := k.wref_count - 1 } := by
  unfold observer_shift
  have e : (k.wref_count + -1 = 0) ↔ k.wref_count = 1 := by omega
  simp only [e]
  rfl

/-- What the destructor of a weak handle without deleter does to the heap. -/
theorem weak_dtor_deref (h : weak_ptr) (m : Heap) (hdl : h.deleter = none)
    (hlive : ∀ c, h.ref_count = some c → ∃ k, m.deref c = some k) :
    ∃ m1, h.dtor m = some m1 ∧ m1.released = m.released ∧
      m1.counters.length = m.counters.length ∧
      ∀ c, m1.deref c = if h.ref_count = some c then (m.deref c).bind (observer_shift (-1))
        else m.deref c := by
  cases hc : h.ref_count with
  | none =>
    refine ⟨m, ?_, rfl, rfl, by simp⟩
    rw [weak_dtor_none h m hc]
    simp [smart_ptr_nts.dtor, smart_ptr_nts.Dispose, hdl]
  | some c =>
    obtain ⟨k, hk⟩ := hlive c hc
    obtain ⟨m1, hd, hcs, _, hrl⟩ := weak_dtor_spec h m c k hc hk
    refine ⟨m1, hd, ?_, by rw [hcs, List.length_set], ?_⟩
    · rw [hrl, invocations_none hdl]; simp
    · intro c'
      rw [deref_of_set hcs (slot_lt hk)]
      by_cases e : c' = c
      · subst e
        simp [hk, observer_shift_neg]
      · have : ¬ (c = c') := fun x => e x.symm
        simp [e, this]

/-- What `IncreaseObserver` through an optional counter pointer does to the heap. -/
theorem observe_deref (r : Option CounterId) (m : Heap)
    (hlive : ∀ c, r = some c → ∃ k, m.deref c = some k) :
    ∃ m1, (∀ c, r = some c → ∃ x, m.call c SharedPtrRefCounter.IncreaseObserver = some (x, m1)) ∧
      (r = none → m1 = m) ∧ m1.released = m.released ∧
      m1.counters.length = m.counters.length ∧
      ∀ c, m1.deref c = if r = some c
        then (m.deref c).map (fun k => { k with wref_count := k.wref_count + 1 })
        else m.deref c := by
  cases r with
  | none => exact ⟨m, by simp, fun _ => rfl, rfl, rfl, by simp⟩
  | some c =>
    obtain ⟨k, hk⟩ := hlive c rfl
    refine ⟨Heap.mk (m.counters.set c (some (SharedPtrRefCounter.IncreaseObserver k).1))
      m.released m.freed, ?_, by simp, rfl, by simp, ?_⟩
    · intro c' hc'
      simp at hc'
      subst hc'
      exact ⟨_, Heap.call_eq _ hk⟩
    · intro c'
      rw [deref_of_set (m := m) rfl (slot_lt hk)]
      by_cases e : c' = c
      · subst e
        simp [hk, SharedPtrRefCounter.IncreaseObserver]
      · have : ¬ (c = c') := fun x => e x.symm
        simp [e, this]

theorem from_shared_of_call {t : shared_ptr} {m m1 : Heap}
    (h1 : ∀ c, t.ref_count = some c →
      ∃ x, m.call c SharedPtrRefCounter.IncreaseObserver = some (x, m1))
    (h2 : t.ref_count = none → m1 = m) :
    weak_ptr.from_shared t m
      = some ({ tosmart_ptr_nts := smart_ptr_nts.ctor t.get none, ref_count := t.ref_count },
              m1) := by
  cases hc : t.ref_count with
  | none =>
    rw [h2 hc]
    simp [weak_ptr.from_shared, shared_ptr.GetRefCounter, hc]
  | some c =>
    obtain ⟨x, hx⟩ := h1 c hc
    simp [weak_ptr.from_shared, shared_ptr.GetRefCounter, hc, hx]

theorem weak_copy_ctor_of_call {t : weak_ptr} {m m1 : Heap}
    (h1 : ∀ c, t.ref_count = some c →
      ∃ x, m.call c SharedPtrRefCounter.IncreaseObserver = some (x, m1))
    (h2 : t.ref_count = none → m1 = m) :
    weak_ptr.copy_ctor t m = some (t, m1) := by
  cases hc : t.ref_count with
  | none =>
    rw [h2 hc]
    simp only [weak_ptr.copy_ctor, hc, smart_ptr_nts.copy_ctor]
    rw [weak_mk_eq t none hc]
  | some c =>
    obtain ⟨x, hx⟩ := h1 c hc
    simp only [weak_ptr.copy_ctor, hc, hx, smart_ptr_nts.copy_ctor]
    rw [weak_mk_eq t (some c) hc]

/-- Acquire through `ro`, then release through `ru`: the net effect on every counter. -/
theorem assemble_acquire_release {s : State} (hI : Inv s) (ro ru : Option CounterId)
    {m n : Heap}
    (hu : ∀ c, ru = some c → ∃ k, s.heap.deref c = some k ∧ 1 ≤ k.wref_count)
    (h1 : ∀ c, m.deref c = if ro = some c
      then (s.heap.deref c).map (fun k => { k with wref_count := k.wref_count + 1 })
      else s.heap.deref c)
    (h2 : ∀ c, n.deref c = if ru = some c then (m.deref c).bind (observer_shift (-1))
      else m.deref c) (c : CounterId) :
    n.deref c = (s.heap.deref c).bind (observer_shift (holds ro c - holds ru c)) := by
  rw [h2, h1]
  cases hk : s.heap.deref c with
  | none => simp
  | some k =>
    obtain ⟨e1, e2, e3⟩ := hI.live c k hk
    have hw0 : 0 ≤ k.wref_count := by omega
    have hnz : ¬ (k.wref_count = 0 ∧ k.sref_count = 0) := by omega
    by_cases ho : ro = some c
    · by_cases hr : ru = some c
      · obtain ⟨k', hk', hw1⟩ := hu c hr
        rw [hk] at hk'
        simp at hk'
        subst hk'
        simp only [ho, hr, holds, if_true, Option.map_some', Option.some_bind, sub_self]
        rw [observer_shift_zero hnz, observer_shift_neg]
        rw [if_neg (by simp; omega)]
        simp
      · simp only [ho, hr, holds, if_true, if_false, Option.map_some', Option.some_bind,
          sub_zero]
        rw [observer_shift_one hw0]
    · by_cases hr : ru = some c
      · simp only [ho, hr, holds, if_true, if_false, Option.some_bind, zero_sub]
      · simp only [ho, hr, holds, if_false, Option.some_bind, sub_self]
        rw [observer_shift_zero hnz]

/-- Release through `ru`, then acquire through a different `ro`: the net effect on every
counter. -/
theorem assemble_release_acquire {s : State} (hI : Inv s) (ro ru : Option CounterId)
    (hne : ru ≠ ro) {m n : Heap}
    (h1 : ∀ c, m.deref c = if ru = some c then (s.heap.deref c).bind (observer_shift (-1))
      else s.heap.deref c)
    (h2 : ∀ c, n.deref c = if ro = some c
      then (m.deref c).map (fun k => { k with wref_count := k.wref_count + 1 })
      else m.deref c) (c : CounterId) :
    n.deref c = (s.heap.deref c).bind (observer_shift (holds ro c - holds ru c)) := by
  rw [h2, h1]
  cases hk : s.heap.deref c with
  | none => simp
  | some k =>
    obtain ⟨e1, e2, e3⟩ := hI.live c k hk
    have hw0 : 0 ≤ k.wref_count := by omega
    have hnz : ¬ (k.wref_count = 0 ∧ k.sref_count = 0) := by omega
    by_cases ho : ro = some c
    · have hr : ¬ ru = some c := fun e => hne (e.trans ho.symm)
      simp only [ho, hr, holds, if_true, if_false, Option.map_some', Option.some_bind,
        sub_zero]
      rw [observer_shift_one hw0]
    · by_cases hr : ru = some c
      · simp only [ho, hr, holds, if_true, if_false, Option.some_bind, zero_sub]
      · simp only [ho, hr, holds, if_false, Option.some_bind, sub_self]
        rw [observer_shift_zero hnz]

theorem weak_live_of_inv {s : State} (hI : Inv s) {i : Nat} {h : weak_ptr}
    (hi : slot s.weaks i = some h) :
    ∀ c, h.ref_count = some c → ∃ k, s.heap.deref c = some k ∧ 1 ≤ k.wref_count := by
  intro c hc
  obtain ⟨k, hk, h1, _⟩ := hI.of_weak hi hc
  exact ⟨k, hk, h1⟩

theorem shared_live_of_inv {s : State} (hI : Inv s) {i : Nat} {h : shared_ptr}
    (hi : slot s.shareds i = some h) :
    ∀ c, h.ref_count = some c → ∃ k, s.heap.deref c = some k := by
  intro c hc
  obtain ⟨k, hk, _⟩ := hI.of_shared hi hc
  exact ⟨k, hk⟩

theorem deref_frame_zero {s : State} (hI : Inv s) (c : CounterId) :
    s.heap.deref c = (s.heap.deref c).bind (observer_shift (holds none c - holds none c)) :=
  assemble_acquire_release hI none none (m := s.heap) (n := s.heap) (by simp) (by simp)
    (by simp) c

/-- Effect of one weak handle operation other than `lock()` on the heap and the table of
shared handles. -/
theorem weak_step_effect {s s' : State} (hI : Inv s) {op : Op} (hop : op.weak_only = true)
    (hs : step s op = some s') :
    s'.heap.released = s.heap.released ∧ s'.shareds = s.shareds ∧
      s'.heap.counters.length = s.heap.counters.length ∧
      ∀ c, s'.heap.deref c
        = (s.heap.deref c).bind (observer_shift (op.observer_delta s c)) := by
  cases op with
  | weak_default =>
    simp only [step] at hs
    cases hs
    exact ⟨rfl, rfl, rfl, fun c => deref_frame_zero hI c⟩
  | weak_move src =>
    cases ht : slot s.weaks src with
    | none => simp [step, ht] at hs
    | some t =>
      simp only [step, ht] at hs
      cases hs
      exact ⟨rfl, rfl, rfl, fun c => deref_frame_zero hI c⟩
  | weak_from_shared src =>
    cases ht : slot s.shareds src with
    | none => simp [step, ht] at hs
    | some t =>
      obtain ⟨m1, hcall, hnone, hrl, hlen, hder⟩ :=
        observe_deref t.ref_count s.heap (shared_live_of_inv hI ht)
      have hfs := from_shared_of_call hcall hnone
      simp only [step, ht, hfs] at hs
      cases hs
      refine ⟨hrl, rfl, hlen, fun c => ?_⟩
      have := assemble_acquire_release hI t.ref_count none (m := m1) (n := m1) (by simp)
        hder (by simp) c
      simpa [Op.observer_delta, Op.observed, Op.unobserved, ht] using this
  | weak_copy src =>
    cases ht : slot s.weaks src with
    | none => simp [step, ht] at hs
    | some t =>
      obtain ⟨m1, hcall, hnone, hrl, hlen, hder⟩ :=
        observe_deref t.ref_count s.heap
          (fun c hc => (weak_live_of_inv hI ht c hc).imp (fun _ h => h.1))
      have hfs := weak_copy_ctor_of_call hcall hnone
      simp only [step, ht, hfs] at hs
      cases hs
      refine ⟨hrl, rfl, hlen, fun c => ?_⟩
      have := assemble_acquire_release hI t.ref_count none (m := m1) (n := m1) (by simp)
        hder (by simp) c
      simpa [Op.observer_delta, Op.observed, Op.unobserved, ht] using this
  | weak_reset i =>
    cases hi : slot s.weaks i with
    | none => simp [step, hi] at hs
    | some h =>
      obtain ⟨m2, hd, hrl, hlen, hder⟩ := weak_dtor_deref h s.heap (hI.wnull i h hi).1
        (fun c hc => (weak_live_of_inv hI hi c hc).imp (fun _ h => h.1))
      simp only [step, hi, weak_reset_eq, hd, Option.map_some'] at hs
      cases hs
      refine ⟨hrl, rfl, hlen, fun c => ?_⟩
      have := assemble_acquire_release hI none h.ref_count (m := s.heap) (n := m2)
        (weak_live_of_inv hI hi) (by simp) hder c
      simpa [Op.observer_delta, Op.observed, Op.unobserved, hi] using this
  | weak_destroy i =>
    cases hi : slot s.weaks i with
    | none => simp [step, hi] at hs
    | some h =>
      obtain ⟨m2, hd, hrl, hlen, hder⟩ := weak_dtor_deref h s.heap (hI.wnull i h hi).1
        (fun c hc => (weak_live_of_inv hI hi c hc).imp (fun _ h => h.1))
      simp only [step, hi, hd] at hs
      cases hs
      refine ⟨hrl, rfl, hlen, fun c => ?_⟩
      have := assemble_acquire_release hI none h.ref_count (m := s.heap) (n := m2)
        (weak_live_of_inv hI hi) (by simp) hder c
      simpa [Op.observer_delta, Op.observed, Op.unobserved, hi] using this
  | weak_move_assign dst src =>
    by_cases hds : dst = src
    · simp [step, hds] at hs
    cases hd : slot s.weaks dst with
    | none => simp [step, hd, hds] at hs
    | some d =>
      cases ht : slot s.weaks src with
      | none => simp [step, hd, ht, hds] at hs
      | some t =>
        obtain ⟨m2, hdt, hrl, hlen, hder⟩ := weak_dtor_deref d s.heap (hI.wnull dst d hd).1
          (fun c hc => (weak_live_of_inv hI hd c hc).imp (fun _ h => h.1))
        simp only [step, hd, ht, hds, if_false, weak_move_assign_eq, hdt, Option.map_some'] at hs
        cases hs
        refine ⟨hrl, rfl, hlen, fun c => ?_⟩
        have := assemble_acquire_release hI none d.ref_count (m := s.heap) (n := m2)
          (weak_live_of_inv hI hd) (by simp) hder c
        simpa [Op.observer_delta, Op.observed, Op.unobserved, hd] using this
  | weak_assign_shared dst src =>
    cases hd : slot s.weaks dst with
    | none => simp [step, hd] at hs
    | some d =>
      cases ht : slot s.shareds src with
      | none => simp [step, hd, ht] at hs
      | some t =>
        obtain ⟨m1, hcall, hnone, hrl1, hlen1, hder1⟩ :=
          observe_deref t.ref_count s.heap (shared_live_of_inv hI ht)
        have hfs := from_shared_of_call hcall hnone
        have hlive1 : ∀ c, d.ref_count = some c → ∃ k, m1.deref c = some k := by
          intro c hc
          obtain ⟨k, hk, _⟩ := weak_live_of_inv hI hd c hc
          rw [hder1, hk]
          by_cases e : t.ref_count = some c <;> simp [e]
        obtain ⟨m2, hdt, hrl, hlen, hder⟩ := weak_dtor_deref d m1 (hI.wnull dst d hd).1 hlive1
        simp only [step, hd, ht, weak_assign_shared_eq, hfs, Option.some_bind, hdt,
          Option.map_some'] at hs
        cases hs
        refine ⟨hrl.trans hrl1, rfl, hlen.trans hlen1, fun c => ?_⟩
        have := assemble_acquire_release hI t.ref_count d.ref_count (m := m1) (n := m2)
          (weak_live_of_inv hI hd) hder1 hder c
        simpa [Op.observer_delta, Op.observed, Op.unobserved, hd, ht] using this
  | weak_copy_assign dst src =>
    cases hd : slot s.weaks dst with
    | none => simp [step, hd] at hs
    | some d =>
      cases ht : slot s.weaks src with
      | none => simp [step, hd, ht] at hs
      | some t =>
        by_cases he : d.ref_count = t.ref_count
        · have e : d.copy_assign t s.heap = some (d, s.heap) := by
            simp [weak_ptr.copy_assign, he]
          simp only [step, hd, ht, e] at hs
          cases hs
          refine ⟨rfl, rfl, rfl, fun c => ?_⟩
          have := deref_frame_zero hI c
          simpa [Op.observer_delta, Op.observed, Op.unobserved, hd, ht, he] using this
        · obtain ⟨m1, hdt, hrl1, hlen1, hder1⟩ := weak_dtor_deref d s.heap
            (hI.wnull dst d hd).1
            (fun c hc => (weak_live_of_inv hI hd c hc).imp (fun _ h => h.1))
          have hlive1 : ∀ c, t.ref_count = some c → ∃ k, m1.deref c = some k := by
            intro c hc
            obtain ⟨k, hk, _⟩ := weak_live_of_inv hI ht c hc
            have : ¬ d.ref_count = some c := fun e => he (e.trans hc.symm)
            rw [hder1, if_neg this]
            exact ⟨k, hk⟩
          obtain ⟨m2, hcall, hnone, hrl, hlen, hder⟩ := observe_deref t.ref_count m1 hlive1
          have hcc := weak_copy_ctor_of_call hcall hnone
          simp only [step, hd, ht, weak_copy_assign_eq _ _ _ he, hdt, Option.some_bind,
            hcc] at hs
          cases hs
          refine ⟨hrl.trans hrl1, rfl, hlen.trans hlen1, fun c => ?_⟩
          have := assemble_release_acquire hI t.ref_count d.ref_count he (m := m1) (n := m2)
            hder1 hder c
          simpa [Op.observer_delta, Op.observed, Op.unobserved, hd, ht] using this
  | _ => simp [Op.weak_only] at hop

/-! ### No resurrection -/

theorem stable_refl (m : Heap) : Stable m m :=
  ⟨Nat.le_refl _, fun _ => ⟨fun _ h => h, fun k hk h0 => Or.inr ⟨k, hk, h0, rfl⟩⟩⟩

theorem stable_trans {m n p : Heap} (h1 : Stable m n) (h2 : Stable n p) : Stable m p := by
  refine ⟨Nat.le_trans h1.1 h2.1, fun c => ⟨?_, ?_⟩⟩
  · intro hlt hc
    exact (h2.2 c).1 (Nat.lt_of_lt_of_le hlt h1.1) ((h1.2 c).1 hlt hc)
  · intro k hk h0
    rcases (h1.2 c).2 k hk h0 with hn | ⟨k', hk', h0', hr'⟩
    · exact Or.inl ((h2.2 c).1 (Nat.lt_of_lt_of_le (slot_lt hk) h1.1) hn)
    · rcases (h2.2 c).2 k' hk' h0' with hn | ⟨k2, hk2, h02, hr2⟩
      · exact Or.inl hn
      · exact Or.inr ⟨k2, hk2, h02, hr2.trans hr'⟩

theorem untouched_refl (m : Heap) : Untouched m m :=
  ⟨Nat.le_refl _, fun _ => ⟨fun _ h => h, fun _ hk _ => hk⟩⟩

theorem untouched_trans {m n p : Heap} (h1 : Untouched m n) (h2 : Untouched n p) :
    Untouched m p := by
  refine ⟨Nat.le_trans h1.1 h2.1, fun c => ⟨?_, ?_⟩⟩
  · intro hlt hc
    exact (h2.2 c).1 (Nat.lt_of_lt_of_le hlt h1.1) ((h1.2 c).1 hlt hc)
  · intro k hk h0
    exact (h2.2 c).2 k ((h1.2 c).2 k hk h0) h0

theorem untouched_stable {m n : Heap} (h : Untouched m n) : Stable m n :=
  ⟨h.1, fun c => ⟨(h.2 c).1, fun k hk h0 => Or.inr ⟨k, (h.2 c).2 k hk h0, h0, rfl⟩⟩⟩

/-- A change of one counter that has an owner leaves the other counters untouched. -/
theorem untouched_of_deref {m n : Heap} {c : CounterId} {k : SharedPtrRefCounter}
    {v : Option SharedPtrRefCounter} (hlen : n.counters.length = m.counters.length)
    (hk : m.deref c = some k) (h1 : k.sref_count ≠ 0)
    (hder : ∀ c', n.deref c' = if c' = c then v else m.deref c') : Untouched m n := by
  refine ⟨by rw [hlen], fun c' => ⟨?_, ?_⟩⟩
  · intro _ hc'
    have : c' ≠ c := by
      intro e
      subst e
      rw [hk] at hc'
      exact Option.noConfusion hc'
    rw [hder, if_neg this]
    exact hc'
  · intro k' hk' h0
    have : c' ≠ c := by
      intro e
      subst e
      rw [hk] at hk'
      exact h1 (by rw [Option.some.inj hk']; exact h0)
    rw [hder, if_neg this]
    exact hk'

/-- Allocation of a counter leaves the existing counters untouched. -/
theorem untouched_append {m n : Heap} {v : Option SharedPtrRefCounter}
    (h : n.counters = m.counters ++ [v]) : Untouched m n := by
  refine ⟨by rw [h]; simp, fun c => ⟨?_, ?_⟩⟩
  · intro hlt hc
    rw [deref_of_append h, if_neg (Nat.ne_of_lt hlt)]
    exact hc
  · intro k hk _
    rw [deref_of_append h, if_neg (Nat.ne_of_lt (slot_lt hk))]
    exact hk

theorem ctor_deleter_untouched (p : Ptr) (d : Option DeleterFn) (m : Heap) :
    Untouched m (shared_ptr.ctor_deleter p d m).2 := by
  by_cases hp : p = nullptr
  · subst hp
    rw [ctor_deleter_null]
    exact untouched_refl m
  · rw [ctor_deleter_some d m hp]
    exact untouched_append rfl

theorem shared_release_untouched {s : State} (hI : Inv s) {i : Nat} {h : shared_ptr}
    (hi : slot s.shareds i = some h) {m1 : Heap} (hd : h.dtor s.heap = some m1) :
    Untouched s.heap m1 := by
  obtain ⟨m, hm, hlen, hcase⟩ := shared_release_cases hI hi
  rw [hd] at hm
  have e : m1 = m := Option.some.inj hm
  subst e
  rcases hcase with ⟨_, _, e⟩ | ⟨c, k, _, hk, h1, _, _, hder, _, _⟩
  · rw [e]
    exact untouched_refl _
  · exact untouched_of_deref hlen hk (by omega) hder

theorem shared_copy_untouched {t : shared_ptr} {m : Heap} {r : shared_ptr × Heap}
    (hlive : ∀ c, t.ref_count = some c → ∃ k, m.deref c = some k ∧ k.sref_count ≠ 0)
    (h : t.copy_ctor m = some r) : Untouched m r.2 := by
  cases hc : t.ref_count with
  | none =>
    rw [shared_copy_ctor_none m hc] at h
    rw [← Option.some.inj h]
    exact untouched_refl m
  | some c =>
    obtain ⟨k, hk, h1⟩ := hlive c hc
    rw [shared_copy_ctor_some hc hk] at h
    rw [← Option.some.inj h]
    exact untouched_of_deref (by simp) hk h1 (deref_of_set (m := m) rfl (slot_lt hk))

theorem lock_untouched {a : Bool} {w : weak_ptr} {m : Heap} {r : shared_ptr × Heap}
    (h : w.lock a m = some r) : Untouched m r.2 := by
  by_cases hp : w.rawPtr = nullptr
  · simp [weak_ptr.lock, shared_ptr.CreateFrom, smart_ptr_nts.Get, hp] at h
    rw [← h]
    exact untouched_refl m
  cases hc : w.ref_count with
  | none =>
    simp [weak_ptr.lock, shared_ptr.CreateFrom, smart_ptr_nts.Get, hp, hc] at h
    rw [← h]
    exact untouched_refl m
  | some c =>
    cases hk : m.deref c with
    | none =>
      simp [weak_ptr.lock, shared_ptr.CreateFrom, smart_ptr_nts.Get, hp, hc, Heap.read, hk] at h
    | some k =>
      by_cases h0 : k.sref_count = 0
      · simp [weak_ptr.lock, shared_ptr.CreateFrom, smart_ptr_nts.Get, hp, hc,
          Heap.read_eq _ hk, SharedPtrRefCounter.CountOwners, h0] at h
        rw [← h]
        exact untouched_refl m
      · simp [weak_ptr.lock, shared_ptr.CreateFrom, smart_ptr_nts.Get, hp, hc,
          Heap.read_eq _ hk, SharedPtrRefCounter.CountOwners, h0, shared_ptr.private_ctor,
          Heap.call_eq _ hk, SharedPtrRefCounter.IncreaseOwner, smart_ptr_nts.ctor] at h
        rw [← h]
        exact untouched_of_deref (by simp) hk h0 (deref_of_set (m := m) rfl (slot_lt hk))

theorem shared_owned_of_inv {s : State} (hI : Inv s) {i : Nat} {h : shared_ptr}
    (hi : slot s.shareds i = some h) :
    ∀ c, h.ref_count = some c → ∃ k, s.heap.deref c = some k ∧ k.sref_count ≠ 0 := by
  intro c hc
  obtain ⟨k, hk, h1, _⟩ := hI.of_shared hi hc
  exact ⟨k, hk, by omega⟩

/-- A shared handle operation, or `lock()`, leaves freed counters and counters without
owner untouched. -/
theorem owner_step_untouched {s s' : State} (hI : Inv s) {op : Op}
    (hop : op.weak_only = false) (hs : step s op = some s') :
    Untouched s.heap s'.heap := by
  cases op with
  | shared_default =>
    simp only [step] at hs
    cases hs
    exact untouched_refl _
  | shared_from_raw a p =>
    simp only [step] at hs
    cases hs
    exact ctor_deleter_untouched p _ s.heap
  | shared_from_raw_deleter p d =>
    simp only [step] at hs
    cases hs
    exact ctor_deleter_untouched p d s.heap
  | shared_copy src =>
    cases ht : slot s.shareds src with
    | none => simp [step, ht] at hs
    | some t =>
      cases hc : t.copy_ctor s.heap with
      | none => simp [step, ht, hc] at hs
      | some r =>
        simp only [step, ht, hc] at hs
        cases hs
        exact shared_copy_untouched (shared_owned_of_inv hI ht) hc
  | shared_move src =>
    cases ht : slot s.shareds src with
    | none => simp [step, ht] at hs
    | some t =>
      simp only [step, ht] at hs
      cases hs
      exact untouched_refl _
  | shared_copy_assign dst src =>
    cases hd : slot s.shareds dst with
    | none => simp [step, hd] at hs
    | some d =>
      cases ht : slot s.shareds src with
      | none => simp [step, hd, ht] at hs
      | some t =>
        by_cases he : d.ref_count = t.ref_count
        · have e : d.copy_assign t s.heap = some (d, s.heap) := by
            simp [shared_ptr.copy_assign, he]
          simp only [step, hd, ht, e] at hs
          cases hs
          exact untouched_refl _
        · obtain ⟨m1, hdt, _, _⟩ := shared_release_cases hI hd
          have h1 := shared_release_untouched hI hd hdt
          cases hc : t.copy_ctor m1 with
          | none => simp [step, hd, ht, shared_copy_assign_eq _ _ _ he, hdt, hc] at hs
          | some r =>
            simp only [step, hd, ht, shared_copy_assign_eq _ _ _ he, hdt, Option.some_bind,
              hc] at hs
            cases hs
            refine untouched_trans h1 (shared_copy_untouched ?_ hc)
            intro c hct
            obtain ⟨k, hk, hk1⟩ := shared_owned_of_inv hI ht c hct
            obtain ⟨m, hm, _, hcase⟩ := shared_release_cases hI hd
            rw [hdt] at hm
            have e : m1 = m := Option.some.inj hm
            subst e
            rcases hcase with ⟨_, _, e⟩ | ⟨cd, kd, hcd, _, _, _, _, hder, _, _⟩
            · rw [e]; exact ⟨k, hk, hk1⟩
            · have : c ≠ cd := by
                intro e
                subst e
                exact he (hcd.trans hct.symm)
              rw [hder, if_neg this]
              exact ⟨k, hk, hk1⟩
  | shared_move_assign dst src =>
    by_cases hds : dst = src
    · simp [step, hds] at hs
    cases hd : slot s.shareds dst with
    | none => simp [step, hd, hds] at hs
    | some d =>
      cases ht : slot s.shareds src with
      | none => simp [step, hd, ht, hds] at hs
      | some t =>
        obtain ⟨m1, hdt, _, _⟩ := shared_release_cases hI hd
        simp only [step, hd, ht, hds, if_false, shared_move_assign_eq, hdt,
          Option.map_some'] at hs
        cases hs
        exact shared_release_untouched hI hd hdt
  | shared_reset i =>
    cases hi : slot s.shareds i with
    | none => simp [step, hi] at hs
    | some h =>
      obtain ⟨m1, hdt, _, _⟩ := shared_release_cases hI hi
      simp only [step, hi, shared_reset_eq, hdt, Option.map_some'] at hs
      cases hs
      exact shared_release_untouched hI hi hdt
  | shared_reset_ptr a i p =>
    cases hi : slot s.shareds i with
    | none => simp [step, hi] at hs
    | some h =>
      obtain ⟨m1, hdt, _, _⟩ := shared_release_cases hI hi
      simp only [step, hi, shared_ptr.reset_ptr, shared_reset_ptr_deleter_eq, hdt,
        Option.map_some'] at hs
      cases hs
      exact untouched_trans (shared_release_untouched hI hi hdt) (ctor_deleter_untouched p _ m1)
  | shared_reset_ptr_deleter i p d =>
    cases hi : slot s.shareds i with
    | none => simp [step, hi] at hs
    | some h =>
      obtain ⟨m1, hdt, _, _⟩ := shared_release_cases hI hi
      simp only [step, hi, shared_reset_ptr_deleter_eq, hdt, Option.map_some'] at hs
      cases hs
      exact untouched_trans (shared_release_untouched hI hi hdt) (ctor_deleter_untouched p d m1)
  | shared_destroy i =>
    cases hi : slot s.shareds i with
    | none => simp [step, hi] at hs
    | some h =>
      obtain ⟨m1, hdt, _, _⟩ := shared_release_cases hI hi
      simp only [step, hi, hdt] at hs
      cases hs
      exact shared_release_untouched hI hi hdt
  | weak_lock a i =>
    cases hi : slot s.weaks i with
    | none => simp [step, hi] at hs
    | some w =>
      cases hl : w.lock a s.heap with
      | none => simp [step, hi, hl] at hs
      | some r =>
        simp only [step, hi, hl] at hs
        cases hs
        exact lock_untouched hl
  | _ => simp [Op.weak_only] at hop

theorem weak_step_stable {s s' : State} (hI : Inv s) {op : Op} (hop : op.weak_only = true)
    (hs : step s op = some s') : Stable s.heap s'.heap := by
  obtain ⟨_, _, hlen, hder⟩ := weak_step_effect hI hop hs
  refine ⟨by rw [hlen], fun c => ⟨?_, ?_⟩⟩
  · intro _ hc
    rw [hder, hc]
    rfl
  · intro k hk h0
    rw [hder, hk]
    simp only [Option.some_bind, observer_shift]
    split
    · exact Or.inl rfl
    · exact Or.inr ⟨_, rfl, h0, rfl⟩

theorem step_stable {s s' : State} (hI : Inv s) (op : Op) (hs : step s op = some s') :
    Stable s.heap s'.heap := by
  cases hop : op.weak_only with
  | true => exact weak_step_stable hI hop hs
  | false => exact untouched_stable (owner_step_untouched hI hop hs)

theorem run_stable {s s' : State} (hI : Inv s) (ops : List Op) (hs : run s ops = some s') :
    Stable s.heap s'.heap := by
  induction ops generalizing s with
  | nil =>
    simp [smart_pointer_nts.run] at hs
    subst hs
    exact stable_refl _
  | cons op ops ih =>
    simp only [smart_pointer_nts.run] at hs
    cases h1 : step s op with
    | none => simp [h1] at hs
    | some s1 =>
      simp only [h1] at hs
      exact stable_trans (step_stable hI op h1) (ih (hI.step op h1) hs)

theorem orphan_demo_reachable : Reachable orphan_demo :=
  ⟨[Op.shared_from_raw false 100, Op.weak_from_shared 0, Op.shared_destroy 0], by decide⟩

theorem lock_of_orphan {w : weak_ptr} {m : Heap} {c : CounterId} {k : SharedPtrRefCounter}
    (a : Bool) (hc : w.ref_count = some c) (hk : m.deref c = some k) (h0 : k.sref_count = 0) :
    w.lock a m = some (shared_ptr.null, m) ∧ w.expired m = some true := by
  constructor
  · by_cases hp : w.rawPtr = nullptr
    · simp [weak_ptr.lock, shared_ptr.CreateFrom, smart_ptr_nts.Get, hp]
    · simp [weak_ptr.lock, shared_ptr.CreateFrom, smart_ptr_nts.Get, hp, hc,
        Heap.read_eq _ hk, SharedPtrRefCounter.CountOwners, h0]
  · simp [weak_ptr.expired, hc, Heap.read_eq _ hk, SharedPtrRefCounter.CountOwners, h0]

/-! ### The recorded resource address never changes -/

theorem kept_refl (m : Heap) : Kept m m :=
  ⟨Nat.le_refl _, fun _ => ⟨fun _ h => h, fun k k' hk hk' => by
    rw [hk] at hk'; rw [Option.some.inj hk']⟩⟩

theorem kept_trans {m n p : Heap} (h1 : Kept m n) (h2 : Kept n p) : Kept m p := by
  refine ⟨Nat.le_trans h1.1 h2.1, fun c => ⟨?_, ?_⟩⟩
  · intro hlt hc
    exact (h2.2 c).1 (Nat.lt_of_lt_of_le hlt h1.1) ((h1.2 c).1 hlt hc)
  · intro k k' hk hk'
    cases hn : n.deref c with
    | none =>
      have := (h2.2 c).1 (Nat.lt_of_lt_of_le (slot_lt hk) h1.1) hn
      rw [this] at hk'
      exact Option.noConfusion hk'
    | some k2 =>
      exact ((h2.2 c).2 k2 k' hn hk').trans ((h1.2 c).2 k k2 hk hn)

theorem kept_of_counters_eq {m n : Heap} (h : n.counters = m.counters) : Kept m n := by
  refine ⟨by rw [h], fun c => ⟨fun _ hc => by rw [deref_congr h]; exact hc, ?_⟩⟩
  intro k k' hk hk'
  rw [deref_congr h, hk] at hk'
  rw [Option.some.inj hk']

theorem kept_of_counters_set {m n : Heap} {c : CounterId} {k : SharedPtrRefCounter}
    {v : Option SharedPtrRefCounter} (hk : m.deref c = some k)
    (h : n.counters = m.counters.set c v)
    (hv : ∀ k', v = some k' → k'.resource = k.resource) : Kept m n := by
  have hder := deref_of_set h (slot_lt hk)
  refine ⟨by rw [h, List.length_set], fun c' => ⟨?_, ?_⟩⟩
  · intro _ hc'
    have : c' ≠ c := by
      intro e
      subst e
      rw [hk] at hc'
      exact Option.noConfusion hc'
    rw [hder, if_neg this]
    exact hc'
  · intro k1 k2 hk1 hk2
    rw [hder] at hk2
    by_cases e : c' = c
    · subst e
      rw [if_pos rfl] at hk2
      rw [hk] at hk1
      rw [← Option.some.inj hk1]
      exact hv k2 hk2
    · rw [if_neg e, hk1] at hk2
      rw [Option.some.inj hk2]

theorem kept_append {m n : Heap} {v : Option SharedPtrRefCounter}
    (h : n.counters = m.counters ++ [v]) : Kept m n := by
  refine ⟨by rw [h]; simp, fun c => ⟨?_, ?_⟩⟩
  · intro hlt hc
    rw [deref_of_append h, if_neg (Nat.ne_of_lt hlt)]
    exact hc
  · intro k k' hk hk'
    rw [deref_of_append h, if_neg (Nat.ne_of_lt (slot_lt hk)), hk] at hk'
    rw [Option.some.inj hk']

theorem ctor_deleter_kept (p : Ptr) (d : Option DeleterFn) (m : Heap) :
    Kept m (shared_ptr.ctor_deleter p d m).2 := by
  by_cases hp : p = nullptr
  · subst hp
    rw [ctor_deleter_null]
    exact kept_refl m
  · rw [ctor_deleter_some d m hp]
    exact kept_append rfl

theorem shared_dtor_kept {h : shared_ptr} {m n : Heap} (hd : h.dtor m = some n) :
    Kept m n := by
  cases hc : h.ref_count with
  | none =>
    rw [shared_dtor_none h m hc] at hd
    rw [← Option.some.inj hd]
    exact kept_of_counters_eq (base_dtor_counters _ _)
  | some c =>
    cases hk : m.deref c with
    | none => simp [shared_ptr.dtor, shared_ptr.Dispose, hc, Heap.call, hk] at hd
    | some k =>
      obtain ⟨m1, h1, hcs, _, _⟩ := shared_dtor_spec h m c k hc hk
      rw [hd] at h1
      rw [Option.some.inj h1]
      refine kept_of_counters_set hk hcs ?_
      intro k' hk'
      split at hk'
      · exact Option.noConfusion hk'
      · rw [← Option.some.inj hk']

theorem weak_dtor_kept {h : weak_ptr} {m n : Heap} (hd : h.dtor m = some n) : Kept m n := by
  cases hc : h.ref_count with
  | none =>
    rw [weak_dtor_none h m hc] at hd
    rw [← Option.some.inj hd]
    exact kept_of_counters_eq (base_dtor_counters _ _)
  | some c =>
    cases hk : m.deref c with
    | none => simp [weak_ptr.dtor, weak_ptr.Dispose, hc, Heap.call, hk] at hd
    | some k =>
      obtain ⟨m1, h1, hcs, _, _⟩ := weak_dtor_spec h m c k hc hk
      rw [hd] at h1
      rw [Option.some.inj h1]
      refine kept_of_counters_set hk hcs ?_
      intro k' hk'
      split at hk'
      · exact Option.noConfusion hk'
      · rw [← Option.some.inj hk']

theorem call_kept {m : Heap} {c : CounterId}
    {f : SharedPtrRefCounter → SharedPtrRefCounter × Int} {r : Int × Heap}
    (hf : ∀ k, (f k).1.resource = k.resource) (h : m.call c f = some r) : Kept m r.2 := by
  cases hk : m.deref c with
  | none => simp [Heap.call, hk] at h
  | some k =>
    rw [Heap.call_eq f hk] at h
    rw [← Option.some.inj h]
    refine kept_of_counters_set hk rfl ?_
    intro k' hk'
    rw [← Option.some.inj hk']
    exact hf k

theorem shared_copy_ctor_kept {t : shared_ptr} {m : Heap} {r : shared_ptr × Heap}
    (h : t.copy_ctor m = some r) : Kept m r.2 := by
  unfold shared_ptr.copy_ctor at h
  split at h
  · rename_i c _
    cases hx : m.call c SharedPtrRefCounter.IncreaseOwner with
    | none => simp [hx] at h
    | some x =>
      simp only [hx] at h
      rw [← Option.some.inj h]
      exact call_kept (fun _ => rfl) hx
  · rw [← Option.some.inj h]
    exact kept_refl m

theorem weak_copy_ctor_kept {t : weak_ptr} {m : Heap} {r : weak_ptr × Heap}
    (h : t.copy_ctor m = some r) : Kept m r.2 := by
  unfold weak_ptr.copy_ctor at h
  split at h
  · rename_i c _
    cases hx : m.call c SharedPtrRefCounter.IncreaseObserver with
    | none => simp [hx] at h
    | some x =>
      simp only [hx] at h
      rw [← Option.some.inj h]
      exact call_kept (fun _ => rfl) hx
  · rw [← Option.some.inj h]
    exact kept_refl m

theorem from_shared_kept {t : shared_ptr} {m : Heap} {r : weak_ptr × Heap}
    (h : weak_ptr.from_shared t m = some r) : Kept m r.2 := by
  unfold weak_ptr.from_shared at h
  split at h
  · rename_i c _
    cases hx : m.call c SharedPtrRefCounter.IncreaseObserver with
    | none => simp [hx] at h
    | some x =>
      simp only [hx] at h
      rw [← Option.some.inj h]
      exact call_kept (fun _ => rfl) hx
  · rw [← Option.some.inj h]
    exact kept_refl m

theorem lock_kept {a : Bool} {w : weak_ptr} {m : Heap} {r : shared_ptr × Heap}
    (h : w.lock a m = some r) : Kept m r.2 := by
  by_cases hp : w.rawPtr = nullptr
  · simp [weak_ptr.lock, shared_ptr.CreateFrom, smart_ptr_nts.Get, hp] at h
    rw [← h]
    exact kept_refl m
  cases hc : w.ref_count with
  | none =>
    simp [weak_ptr.lock, shared_ptr.CreateFrom, smart_ptr_nts.Get, hp, hc] at h
    rw [← h]
    exact kept_refl m
  | some c =>
    cases hk : m.deref c with
    | none =>
      simp [weak_ptr.lock, shared_ptr.CreateFrom, smart_ptr_nts.Get, hp, hc, Heap.read, hk] at h
    | some k =>
      by_cases h0 : k.sref_count = 0
      · simp [weak_ptr.lock, shared_ptr.CreateFrom, smart_ptr_nts.Get, hp, hc,
          Heap.read_eq _ hk, SharedPtrRefCounter.CountOwners, h0] at h
        rw [← h]
        exact kept_refl m
      · simp [weak_ptr.lock, shared_ptr.CreateFrom, smart_ptr_nts.Get, hp, hc,
          Heap.read_eq _ hk, SharedPtrRefCounter.CountOwners, h0, shared_ptr.private_ctor,
          Heap.call_eq _ hk, SharedPtrRefCounter.IncreaseOwner, smart_ptr_nts.ctor] at h
        rw [← h]
        refine kept_of_counters_set hk rfl ?_
        intro k' hk'
        rw [← Option.some.inj hk']

/-- Every public operation keeps the resource address recorded in every counter. -/
theorem step_kept {s s' : State} (op : Op) (hs : step s op = some s') :
    Kept s.heap s'.heap := by
  cases op with
  | shared_default =>
    simp only [step] at hs
    cases hs
    exact kept_refl _
  | shared_from_raw a p =>
    simp only [step] at hs
    cases hs
    exact ctor_deleter_kept p _ s.heap
  | shared_from_raw_deleter p d =>
    simp only [step] at hs
    cases hs
    exact ctor_deleter_kept p d s.heap
  | shared_copy src =>
    cases ht : slot s.shareds src with
    | none => simp [step, ht] at hs
    | some t =>
      cases hc : t.copy_ctor s.heap with
      | none => simp [step, ht, hc] at hs
      | some r =>
        simp only [step, ht, hc] at hs
        cases hs
        exact shared_copy_ctor_kept hc
  | shared_move src =>
    cases ht : slot s.shareds src with
    | none => simp [step, ht] at hs
    | some t =>
      simp only [step, ht] at hs
      cases hs
      exact kept_refl _
  | shared_copy_assign dst src =>
    cases hd : slot s.shareds dst with
    | none => simp [step, hd] at hs
    | some d =>
      cases ht : slot s.shareds src with
      | none => simp [step, hd, ht] at hs
      | some t =>
        by_cases he : d.ref_count = t.ref_count
        · have e : d.copy_assign t s.heap = some (d, s.heap) := by
            simp [shared_ptr.copy_assign, he]
          simp only [step, hd, ht, e] at hs
          cases hs
          exact kept_refl _
        · cases hdt : d.dtor s.heap with
          | none => simp [step, hd, ht, shared_copy_assign_eq _ _ _ he, hdt] at hs
          | some m1 =>
            cases hc : t.copy_ctor m1 with
            | none => simp [step, hd, ht, shared_copy_assign_eq _ _ _ he, hdt, hc] at hs
            | some r =>
              simp only [step, hd, ht, shared_copy_assign_eq _ _ _ he, hdt, Option.some_bind,
                hc] at hs
              cases hs
              exact kept_trans (shared_dtor_kept hdt) (shared_copy_ctor_kept hc)
  | shared_move_assign dst src =>
    by_cases hds : dst = src
    · simp [step, hds] at hs
    cases hd : slot s.shareds dst with
    | none => simp [step, hd, hds] at hs
    | some d =>
      cases ht : slot s.shareds src with
      | none => simp [step, hd, ht, hds] at hs
      | some t =>
        cases hdt : d.dtor s.heap with
        | none => simp [step, hd, ht, hds, shared_move_assign_eq, hdt] at hs
        | some m1 =>
          simp only [step, hd, ht, hds, if_false, shared_move_assign_eq, hdt,
            Option.map_some'] at hs
          cases hs
          exact shared_dtor_kept hdt
  | shared_reset i =>
    cases hi : slot s.shareds i with
    | none => simp [step, hi] at hs
    | some h =>
      cases hdt : h.dtor s.heap with
      | none => simp [step, hi, shared_reset_eq, hdt] at hs
      | some m1 =>
        simp only [step, hi, shared_reset_eq, hdt, Option.map_some'] at hs
        cases hs
        exact shared_dtor_kept hdt
  | shared_reset_ptr a i p =>
    cases hi : slot s.shareds i with
    | none => simp [step, hi] at hs
    | some h =>
      cases hdt : h.dtor s.heap with
      | none =>
        simp [step, hi, shared_ptr.reset_ptr, shared_reset_ptr_deleter_eq, hdt] at hs
      | some m1 =>
        simp only [step, hi, shared_ptr.reset_ptr, shared_reset_ptr_deleter_eq, hdt,
          Option.map_some'] at hs
        cases hs
        exact kept_trans (shared_dtor_kept hdt) (ctor_deleter_kept p _ m1)
  | shared_reset_ptr_deleter i p d =>
    cases hi : slot s.shareds i with
    | none => simp [step, hi] at hs
    | some h =>
      cases hdt : h.dtor s.heap with
      | none => simp [step, hi, shared_reset_ptr_deleter_eq, hdt] at hs
      | some m1 =>
        simp only [step, hi, shared_reset_ptr_deleter_eq, hdt, Option.map_some'] at hs
        cases hs
        exact kept_trans (shared_dtor_kept hdt) (ctor_deleter_kept p d m1)
  | shared_destroy i =>
    cases hi : slot s.shareds i with
    | none => simp [step, hi] at hs
    | some h =>
      cases hdt : h.dtor s.heap with
      | none => simp [step, hi, hdt] at hs
      | some m1 =>
        simp only [step, hi, hdt] at hs
        cases hs
        exact shared_dtor_kept hdt
  | weak_default =>
    simp only [step] at hs
    cases hs
    exact kept_refl _
  | weak_from_shared src =>
    cases ht : slot s.shareds src with
    | none => simp [step, ht] at hs
    | some t =>
      cases hc : weak_ptr.from_shared t s.heap with
      | none => simp [step, ht, hc] at hs
      | some r =>
        simp only [step, ht, hc] at hs
        cases hs
        exact from_shared_kept hc
  | weak_copy src =>
    cases ht : slot s.weaks src with
    | none => simp [step, ht] at hs
    | some t =>
      cases hc : t.copy_ctor s.heap with
      | none => simp [step, ht, hc] at hs
      | some r =>
        simp only [step, ht, hc] at hs
        cases hs
        exact weak_copy_ctor_kept hc
  | weak_move src =>
    cases ht : slot s.weaks src with
    | none => simp [step, ht] at hs
    | some t =>
      simp only [step, ht] at hs
      cases hs
      exact kept_refl _
  | weak_copy_assign dst src =>
    cases hd : slot s.weaks dst with
    | none => simp [step, hd] at hs
    | some d =>
      cases ht : slot s.weaks src with
      | none => simp [step, hd, ht] at hs
      | some t =>
        by_cases he : d.ref_count = t.ref_count
        · have e : d.copy_assign t s.heap = some (d, s.heap) := by
            simp [weak_ptr.copy_assign, he]
          simp only [step, hd, ht, e] at hs
          cases hs
          exact kept_refl _
        · cases hdt : d.dtor s.heap with
          | none => simp [step, hd, ht, weak_copy_assign_eq _ _ _ he, hdt] at hs
          | some m1 =>
            cases hc : t.copy_ctor m1 with
            | none => simp [step, hd, ht, weak_copy_assign_eq _ _ _ he, hdt, hc] at hs
            | some r =>
              simp only [step, hd, ht, weak_copy_assign_eq _ _ _ he, hdt, Option.some_bind,
                hc] at hs
              cases hs
              exact kept_trans (weak_dtor_kept hdt) (weak_copy_ctor_kept hc)
  | weak_assign_shared dst src =>
    cases hd : slot s.weaks dst with
    | none => simp [step, hd] at hs
    | some d =>
      cases ht : slot s.shareds src with
      | none => simp [step, hd, ht] at hs
      | some t =>
        cases hc : weak_ptr.from_shared t s.heap with
        | none => simp [step, hd, ht, weak_assign_shared_eq, hc] at hs
        | some r =>
          cases hdt : d.dtor r.2 with
          | none => simp [step, hd, ht, weak_assign_shared_eq, hc, hdt] at hs
          | some m2 =>
            simp only [step, hd, ht, weak_assign_shared_eq, hc, Option.some_bind, hdt,
              Option.map_some'] at hs
            cases hs
            exact kept_trans (from_shared_kept hc) (weak_dtor_kept hdt)
  | weak_move_assign dst src =>
    by_cases hds : dst = src
    · simp [step, hds] at hs
    cases hd : slot s.weaks dst with
    | none => simp [step, hd, hds] at hs
    | some d =>
      cases ht : slot s.weaks src with
      | none => simp [step, hd, ht, hds] at hs
      | some t =>
        cases hdt : d.dtor s.heap with
        | none => simp [step, hd, ht, hds, weak_move_assign_eq, hdt] at hs
        | some m1 =>
          simp only [step, hd, ht, hds, if_false, weak_move_assign_eq, hdt,
            Option.map_some'] at hs
          cases hs
          exact weak_dtor_kept hdt
  | weak_reset i =>
    cases hi : slot s.weaks i with
    | none => simp [step, hi] at hs
    | some h =>
      cases hdt : h.dtor s.heap with
      | none => simp [step, hi, weak_reset_eq, hdt] at hs
      | some m1 =>
        simp only [step, hi, weak_reset_eq, hdt, Option.map_some'] at hs
        cases hs
        exact weak_dtor_kept hdt
  | weak_lock a i =>
    cases hi : slot s.weaks i with
    | none => simp [step, hi] at hs
    | some w =>
      cases hl : w.lock a s.heap with
      | none => simp [step, hi, hl] at hs
      | some r =>
        simp only [step, hi, hl] at hs
        cases hs
        exact lock_kept hl
  | weak_destroy i =>
    cases hi : slot s.weaks i with
    | none => simp [step, hi] at hs
    | some h =>
      cases hdt : h.dtor s.heap with
      | none => simp [step, hi, hdt] at hs
      | some m1 =>
        simp only [step, hi, hdt] at hs
        cases hs
        exact weak_dtor_kept hdt

theorem run_kept {s s' : State} (ops : List Op) (hs : run s ops = some s') :
    Kept s.heap s'.heap := by
  induction ops generalizing s with
  | nil =>
    simp [smart_pointer_nts.run] at hs
    subst hs
    exact kept_refl _
  | cons op ops ih =>
    simp only [smart_pointer_nts.run] at hs
    cases h1 : step s op with
    | none => simp [h1] at hs
    | some s1 =>
      simp only [h1] at hs
      exact kept_trans (step_kept op h1) (ih hs)

/-! ### Base objects: a stored deleter comes with a pointer -/

theorem sound_null : smart_ptr_nts.Sound { rawPtr := nullptr, deleter := none } :=
  fun h => absurd rfl h

theorem sound_ctor (p : Ptr) (d : Option DeleterFn) : (smart_ptr_nts.ctor p d).Sound := by
  intro h
  by_cases hp : p = nullptr
  · simp [smart_ptr_nts.ctor, hp] at h
  · exact hp

theorem sound_fields {b t : smart_ptr_nts} (h : t.Sound) (e1 : b.rawPtr = t.rawPtr)
    (e2 : b.deleter = t.deleter) : b.Sound := by
  intro hd
  rw [e1]
  exact h (by rw [← e2]; exact hd)

theorem sound_Dispose (b : smart_ptr_nts) (m : Heap) : (b.Dispose m).1.Sound := by
  rw [base_Dispose_fst]
  exact sound_null

theorem sound_reset_ptr (b : smart_ptr_nts) (p : Ptr) (d : Option DeleterFn) (m : Heap) :
    (b.reset_ptr p d m).1.Sound := by
  intro h
  by_cases hp : p = nullptr
  · simp [smart_ptr_nts.reset_ptr, hp] at h
  · exact hp

theorem sound_DisableDisposing (b : smart_ptr_nts) : b.DisableDisposing.Sound :=
  fun h => absurd rfl h

theorem sound_target_read {dst src : Nat} {d t : smart_ptr_nts} (m : Heap) (ht : t.Sound) :
    (smart_ptr_nts.target_read dst src d t m).Sound := by
  unfold smart_ptr_nts.target_read
  split
  · exact sound_Dispose d m
  · exact ht

theorem invocations_sound {b : smart_ptr_nts} (h : b.Sound) :
    ∀ e ∈ invocations b, e.2 ≠ nullptr := by
  intro e he
  cases hd : b.deleter with
  | none => rw [invocations_none hd] at he; simp at he
  | some d =>
    rw [invocations_some hd] at he
    simp at he
    subst he
    exact h (by rw [hd]; simp)

theorem released_sound {b : smart_ptr_nts} {m : Heap} (h : b.Sound)
    (hm : ∀ e ∈ m.released, e.2 ≠ nullptr) :
    ∀ e ∈ (b.Dispose m).2.released, e.2 ≠ nullptr := by
  intro e he
  rw [base_Dispose_released, List.mem_append] at he
  rcases he with he | he
  · exact hm e he
  · exact invocations_sound h e he

theorem base_inv_step {s u : BaseState} (hI : BaseInv s) (op : BaseOp)
    (hs : base_step s op = some u) : BaseInv u := by
  obtain ⟨hH, hR⟩ := hI
  cases op with
  | null =>
    simp only [base_step] at hs
    cases hs
    refine ⟨fun j a hj => ?_, hR⟩
    rcases slot_append_cases hj with h | h
    · exact hH j a h
    · rw [← Option.some.inj h]; exact sound_null
  | ctor_default x p =>
    simp only [base_step] at hs
    cases hs
    refine ⟨fun j a hj => ?_, hR⟩
    rcases slot_append_cases hj with h | h
    · exact hH j a h
    · rw [← Option.some.inj h]; exact sound_ctor p _
  | ctor p d =>
    simp only [base_step] at hs
    cases hs
    refine ⟨fun j a hj => ?_, hR⟩
    rcases slot_append_cases hj with h | h
    · exact hH j a h
    · rw [← Option.some.inj h]; exact sound_ctor p d
  | copy_ctor src =>
    cases ht : slot s.handles src with
    | none => simp [base_step, ht] at hs
    | some t =>
      simp only [base_step, ht] at hs
      cases hs
      refine ⟨fun j a hj => ?_, hR⟩
      rcases slot_append_cases hj with h | h
      · exact hH j a h
      · rw [← Option.some.inj h]; exact sound_fields (hH src t ht) rfl rfl
  | move_ctor src =>
    cases ht : slot s.handles src with
    | none => simp [base_step, ht] at hs
    | some t =>
      simp only [base_step, ht] at hs
      cases hs
      refine ⟨fun j a hj => ?_, hR⟩
      rcases slot_append_cases hj with h | h
      · rcases slot_set_cases h with h2 | h2
        · exact hH j a h2
        · rw [← Option.some.inj h2]; exact sound_null
      · rw [← Option.some.inj h]; exact sound_fields (hH src t ht) rfl rfl
  | copy_assign dst src =>
    cases hd : slot s.handles dst with
    | none => simp [base_step, hd] at hs
    | some d =>
      cases ht : slot s.handles src with
      | none => simp [base_step, hd, ht] at hs
      | some t =>
        simp only [base_step, hd, ht] at hs
        cases hs
        refine ⟨fun j a hj => ?_, released_sound (hH dst d hd) hR⟩
        rcases slot_set_cases hj with h | h
        · exact hH j a h
        · rw [← Option.some.inj h]
          exact sound_fields (sound_target_read s.heap (hH src t ht)) rfl rfl
  | move_assign dst src =>
    cases hd : slot s.handles dst with
    | none => simp [base_step, hd] at hs
    | some d =>
      cases ht : slot s.handles src with
      | none => simp [base_step, hd, ht] at hs
      | some t =>
        simp only [base_step, hd, ht] at hs
        cases hs
        refine ⟨fun j a hj => ?_, released_sound (hH dst d hd) hR⟩
        rcases slot_set_cases hj with h | h
        · rcases slot_set_cases h with h2 | h2
          · exact hH j a h2
          · rw [← Option.some.inj h2]
            exact sound_fields (sound_target_read s.heap (hH src t ht)) rfl rfl
        · rw [← Option.some.inj h]; exact sound_null
  | reset i =>
    cases hi : slot s.handles i with
    | none => simp [base_step, hi] at hs
    | some h =>
      simp only [base_step, hi] at hs
      cases hs
      refine ⟨fun j a hj => ?_, released_sound (hH i h hi) hR⟩
      rcases slot_set_cases hj with h2 | h2
      · exact hH j a h2
      · rw [← Option.some.inj h2]; exact sound_Dispose h s.heap
  | reset_ptr_default x i p =>
    cases hi : slot s.handles i with
    | none => simp [base_step, hi] at hs
    | some h =>
      simp only [base_step, hi] at hs
      cases hs
      refine ⟨fun j a hj => ?_, released_sound (hH i h hi) hR⟩
      rcases slot_set_cases hj with h2 | h2
      · exact hH j a h2
      · rw [← Option.some.inj h2]; exact sound_reset_ptr h p _ s.heap
  | reset_ptr i p d =>
    cases hi : slot s.handles i with
    | none => simp [base_step, hi] at hs
    | some h =>
      simp only [base_step, hi] at hs
      cases hs
      refine ⟨fun j a hj => ?_, released_sound (hH i h hi) hR⟩
      rcases slot_set_cases hj with h2 | h2
      · exact hH j a h2
      · rw [← Option.some.inj h2]; exact sound_reset_ptr h p d s.heap
  | DisableDisposing i =>
    cases hi : slot s.handles i with
    | none => simp [base_step, hi] at hs
    | some h =>
      simp only [base_step, hi] at hs
      cases hs
      refine ⟨fun j a hj => ?_, hR⟩
      rcases slot_set_cases hj with h2 | h2
      · exact hH j a h2
      · rw [← Option.some.inj h2]; exact sound_DisableDisposing h
  | Dispose i =>
    cases hi : slot s.handles i with
    | none => simp [base_step, hi] at hs
    | some h =>
      simp only [base_step, hi] at hs
      cases hs
      refine ⟨fun j a hj => ?_, released_sound (hH i h hi) hR⟩
      rcases slot_set_cases hj with h2 | h2
      · exact hH j a h2
      · rw [← Option.some.inj h2]; exact sound_Dispose h s.heap
  | dtor i =>
    cases hi : slot s.handles i with
    | none => simp [base_step, hi] at hs
    | some h =>
      simp only [base_step, hi] at hs
      cases hs
      refine ⟨fun j a hj => ?_, released_sound (hH i h hi) hR⟩
      rcases slot_set_cases hj with h2 | h2
      · exact hH j a h2
      · exact Option.noConfusion h2

theorem base_inv_init : BaseInv BaseState.init := by
  refine ⟨fun i h hi => ?_, fun e he => ?_⟩
  · simp [BaseState.init, slot] at hi
  · simp [BaseState.init] at he

theorem base_inv_run {s u : BaseState} (hI : BaseInv s) (ops : List BaseOp)
    (hs : base_run s ops = some u) : BaseInv u := by
  induction ops generalizing s with
  | nil =>
    simp [base_run] at hs
    subst hs
    exact hI
  | cons op ops ih =>
    simp only [base_run] at hs
    cases h1 : base_step s op with
    | none => simp [h1] at hs
    | some s1 =>
      simp only [h1] at hs
      exact ih (base_inv_step hI op h1) hs

theorem base_demo_reachable : BaseReachable base_demo :=
  ⟨[BaseOp.ctor_default false 100, BaseOp.copy_ctor 0,
    BaseOp.reset_ptr 1 nullptr (some (DeleterFn.custom 7))], by decide⟩

/-! ### Assignment by reference: pointees that hold handles -/

theorem wrap_int_succ (n : Int) : wrap_int (wrap_int n + 1) = wrap_int (n + 1) := by
  unfold wrap_int
  omega

theorem wrap_int_pred (n : Int) : wrap_int (wrap_int n - 1) = wrap_int (n - 1) := by
  unfold wrap_int
  omega

theorem wrap_int_zero_iff {n : Int} (h0 : -2147483648 ≤ n) (h1 : n ≤ 2147483647) :
    (wrap_int (n - 1) = 0 ↔ n - 1 = 0) ∧ (wrap_int n = 0 ↔ n = 0) := by
  unfold wrap_int
  omega

theorem wrap_int_idem (n : Int) : wrap_int (wrap_int n) = wrap_int n := by
  unfold wrap_int
  omega

/-- Reducing to 32 bits commutes with the four member functions that change a count, and a
count inside the `int` range passes the tests `== 0` of `Dispose` as its exact value does,
also right after an increment: so `step_int`, which reduces once after the operation,
computes what the member functions on `int` fields compute. -/
theorem int_counter_ops (k : SharedPtrRefCounter) :
    (k.as_int.IncreaseOwner_int.1 = k.IncreaseOwner.1.as_int ∧
      k.as_int.DecreaseOwner_int.1 = k.DecreaseOwner.1.as_int ∧
      k.as_int.IncreaseObserver_int.1 = k.IncreaseObserver.1.as_int ∧
      k.as_int.DecreaseObserver_int.1 = k.DecreaseObserver.1.as_int) ∧
    (k.as_int = k →
      (k.DecreaseOwner_int.2 = 0 ↔ k.DecreaseOwner.2 = 0) ∧
      (k.DecreaseObserver_int.2 = 0 ↔ k.DecreaseObserver.2 = 0) ∧
      (k.IncreaseObserver_int.1.DecreaseObserver_int.2 = 0
        ↔ k.IncreaseObserver.1.DecreaseObserver.2 = 0) ∧
      (k.as_int.CountOwners = 0 ↔ k.CountOwners = 0) ∧
      (k.as_int.CountObservers = 0 ↔ k.CountObservers = 0)) := by
  constructor
  · simp only [SharedPtrRefCounter.IncreaseOwner_int, SharedPtrRefCounter.DecreaseOwner_int,
      SharedPtrRefCounter.IncreaseObserver_int, SharedPtrRefCounter.DecreaseObserver_int,
      SharedPtrRefCounter.IncreaseOwner, SharedPtrRefCounter.DecreaseOwner,
      SharedPtrRefCounter.IncreaseObserver, SharedPtrRefCounter.DecreaseObserver,
      SharedPtrRefCounter.as_int, wrap_int_succ, wrap_int_pred, wrap_int_idem, and_self]
  · intro h
    have h1 : wrap_int k.sref_count = k.sref_count := by
      have := congrArg SharedPtrRefCounter.sref_count h
      exact this
    have h2 : wrap_int k.wref_count = k.wref_count := by
      have := congrArg SharedPtrRefCounter.wref_count h
      exact this
    simp only [SharedPtrRefCounter.DecreaseOwner_int, SharedPtrRefCounter.DecreaseObserver_int,
      SharedPtrRefCounter.IncreaseObserver_int,
      SharedPtrRefCounter.DecreaseOwner, SharedPtrRefCounter.DecreaseObserver,
      SharedPtrRefCounter.IncreaseObserver, SharedPtrRefCounter.CountOwners,
      SharedPtrRefCounter.CountObservers, SharedPtrRefCounter.as_int]
    unfold wrap_int at h1 h2 ⊢
    omega

/-! ### Properties C1 to C23 of the specification -/

/-- C4. The specification has the custom deleter invoked exactly once whichever handle of
the lineage is the last owner, a handle obtained from `lock()` included.  The code does
otherwise: a resource at address `100` is wrapped with the custom deleter `custom 7`, a weak
handle is created and locked, then the original handle and the locked handle are destroyed.
No owning handle remains, yet the only deleter ever invoked on `100` is the built-in
`scalar_delete` stored by the handle that `lock()` made; `custom 7` was never invoked. -/
theorem C4_lock_replaces_custom_deleter :
    run State.init
        [Op.shared_from_raw_deleter 100 (some (DeleterFn.custom 7)), Op.weak_from_shared 0,
         Op.weak_lock false 0, Op.shared_destroy 0, Op.shared_destroy 1]
      = some { heap := { counters := [some { sref_count := 0, wref_count := 1, resource := 100 }],
                         released := [(DeleterFn.scalar_delete, 100)], freed := [] },
               shareds := [none, none],
               weaks := [some { rawPtr := 100, deleter := none, ref_count := some 0 }] } := by
  decide

/-- C6. For a weak handle that is expired (no counter, or a counter with `sref_count = 0`),
`lock()` returns the empty shared handle (`get()` null, boolean conversion false,
`use_count() == 0`, no counter) and leaves the whole heap, hence every count, unchanged. -/
theorem C6_lock_expired (s : State) (a : Bool) (i : Nat) (w : weak_ptr)
    (hw : slot s.weaks i = some w)
    (he : w.ref_count = none ∨
      ∃ c k, w.ref_count = some c ∧ s.heap.deref c = some k ∧ k.sref_count = 0) :
    w.lock a s.heap = some (shared_ptr.null, s.heap) ∧
      step s (Op.weak_lock a i) = some { s with shareds := s.shareds ++ [some shared_ptr.null] } ∧
      shared_ptr.null.get = nullptr ∧ shared_ptr.null.to_bool = false ∧
      shared_ptr.null.use_count s.heap = some 0 ∧ shared_ptr.null.ref_count = none := by
  have hlock : w.lock a s.heap = some (shared_ptr.null, s.heap) := by
    by_cases hp : w.rawPtr = nullptr
    · simp [weak_ptr.lock, shared_ptr.CreateFrom, smart_ptr_nts.Get, hp]
    · rcases he with hn | ⟨c, k, hc, hk, h0⟩
      · simp [weak_ptr.lock, shared_ptr.CreateFrom, smart_ptr_nts.Get, hp, hn]
      · simp [weak_ptr.lock, shared_ptr.CreateFrom, smart_ptr_nts.Get, hp, hc,
          Heap.read_eq _ hk, SharedPtrRefCounter.CountOwners, h0]
  refine ⟨hlock, ?_, rfl, rfl, rfl, rfl⟩
  simp [step, hw, hlock]

theorem C6_lock_expired_witness :
    slot [some weak_ptr.null] 0 = some weak_ptr.null ∧ weak_ptr.null.ref_count = none ∧
      step { heap := State.init.heap, shareds := [], weaks := [some weak_ptr.null] }
          (Op.weak_lock false 0)
        = some { heap := State.init.heap, shareds := [] ++ [some shared_ptr.null],
                 weaks := [some weak_ptr.null] } :=
  ⟨by decide, rfl,
   (C6_lock_expired { heap := State.init.heap, shareds := [], weaks := [some weak_ptr.null] }
      false 0 weak_ptr.null (by decide) (Or.inl rfl)).2.1⟩

/-- C7. In every reachable state, `expired()` of a live weak handle is true iff the handle
has no counter or its counter's `sref_count` is `0`; for a handle that observes counter `c`
it is false exactly while some live shared handle references `c`, whatever the number of
weak handles. -/
theorem C7_expired_iff (s : State) (hr : Reachable s) (i : Nat) (w : weak_ptr)
    (hw : slot s.weaks i = some w) :
    ∃ b, w.expired s.heap = some b ∧
      (b = true ↔ (w.ref_count = none ∨
        ∃ c k, w.ref_count = some c ∧ s.heap.deref c = some k ∧ k.sref_count = 0)) ∧
      (∀ c, w.ref_count = some c →
        (b = false ↔ ∃ j h, slot s.shareds j = some h ∧ h.ref_count = some c)) ∧
      (w.ref_count = none → b = true) := by
  have hI := hr.inv
  cases hc : w.ref_count with
  | none =>
    refine ⟨true, by simp [weak_ptr.expired, hc], by simp, by simp, by simp⟩
  | some c =>
    obtain ⟨k, hk, _, _, hko, _⟩ := hI.of_weak hw hc
    have hown : (0 < s.owners c) ↔ ∃ j h, slot s.shareds j = some h ∧ h.ref_count = some c := by
      constructor
      · intro hp
        obtain ⟨j, h, hj, hh⟩ := exists_slot_of_countP_pos (shared_refs c) rfl s.shareds hp
        exact ⟨j, h, hj, by simpa [shared_refs] using hh⟩
      · rintro ⟨j, h, hj, hh⟩
        exact countP_pos_of_slot (shared_refs c) s.shareds j h hj (by simp [shared_refs, hh])
    refine ⟨if k.sref_count ≠ 0 then false else true, ?_, ?_, ?_, by simp⟩
    · simp [weak_ptr.expired, hc, Heap.read_eq _ hk, SharedPtrRefCounter.CountOwners]
    · constructor
      · intro hb
        right
        refine ⟨c, k, rfl, hk, ?_⟩
        by_contra h0
        simp [h0] at hb
      · rintro (h | ⟨c', k', h1, h2, h3⟩)
        · simp at h
        · simp at h1
          subst h1
          rw [hk] at h2
          simp at h2
          subst h2
          simp [h3]
    · intro c' hc'
      simp at hc'
      subst hc'
      rw [← hown]
      constructor
      · intro hb
        by_contra h0
        have : k.sref_count = 0 := by omega
        simp [this] at hb
      · intro hp
        have : k.sref_count ≠ 0 := by omega
        simp [this]

theorem C7_expired_iff_witness :
    Reachable demo_state ∧
      slot demo_state.weaks 0 = some { rawPtr := 100, deleter := none, ref_count := some 0 } ∧
      weak_ptr.expired { rawPtr := 100, deleter := none, ref_count := some 0 }
        demo_state.heap = some false := by
  obtain ⟨b, h1, _, h3, _⟩ := C7_expired_iff demo_state demo_state_reachable 0
    { rawPtr := 100, deleter := none, ref_count := some 0 } (by decide)
  have hb : b = false := (h3 0 rfl).mpr ⟨0, _, (by decide : slot demo_state.shareds 0 = some
    { rawPtr := 100, deleter := some DeleterFn.scalar_delete, ref_count := some 0 }), rfl⟩
  rw [hb] at h1
  exact ⟨demo_state_reachable, by decide, h1⟩

/-- C8. Along every sequence of public operations a reference counter is freed at most
once (the deletion log of a reachable state has no repeated counter), each deletion happened
with both counts at zero, no live counter has both counts at zero (so a counter is freed at
the first step that brings both to zero), a freed counter is referenced by no live handle,
and a step appends to the log at most one entry, and only when it disposes. -/
theorem C8_counter_freed_once (s : State) (hr : Reachable s) :
    (s.heap.freed.map Prod.fst).Nodup ∧
    (∀ e ∈ s.heap.freed, e.2.sref_count = 0 ∧ e.2.wref_count = 0 ∧
      s.heap.deref e.1 = none ∧
      (∀ j h, slot s.shareds j = some h → h.ref_count ≠ some e.1) ∧
      (∀ j h, slot s.weaks j = some h → h.ref_count ≠ some e.1)) ∧
    (∀ c k, s.heap.deref c = some k → ¬ (k.sref_count = 0 ∧ k.wref_count = 0)) ∧
    (∀ op s', step s op = some s' →
      ∃ l, s'.heap.freed = s.heap.freed ++ l ∧ l.length ≤ 1 ∧
        (op.disposes = false → l = [])) := by
  have hI := hr.inv
  refine ⟨hI.freed_once, ?_, ?_, fun op s' hs => step_freed hs⟩
  · intro e he
    obtain ⟨a1, a2, _, a4⟩ := hI.freed_zero e he
    obtain ⟨z1, z2⟩ := hI.dead e.1 a4
    refine ⟨a1, a2, a4, ?_, ?_⟩
    · intro j h hj hc
      have := countP_pos_of_slot (shared_refs e.1) s.shareds j h hj (by simp [shared_refs, hc])
      unfold State.owners at z1
      omega
    · intro j h hj hc
      have := countP_pos_of_slot (weak_refs e.1) s.weaks j h hj (by simp [weak_refs, hc])
      unfold State.observers at z2
      omega
  · intro c k hk
    obtain ⟨h1, h2, h3⟩ := hI.live c k hk
    omega

theorem C8_counter_freed_once_witness :
    Reachable freed_demo ∧ (freed_demo.heap.freed.map Prod.fst).Nodup ∧
      freed_demo.heap.freed = [(0, { sref_count := 0, wref_count := 0, resource := 100 })] :=
  have hr : Reachable freed_demo :=
    ⟨[Op.shared_from_raw false 100, Op.weak_from_shared 0, Op.shared_destroy 0,
      Op.weak_destroy 0], by decide⟩
  ⟨hr, (C8_counter_freed_once freed_demo hr).1, rfl⟩

/-- C9. Move-constructing a shared handle from shared handle `i` (and likewise a weak handle
from weak handle `j`) leaves the heap, hence both counts of every counter, unchanged; the
new handle holds the source's former pointer, deleter and counter reference, so its
`use_count()` is the source's former one, and the source is empty with `use_count() == 0`. -/
theorem C9_move_construct (s : State) :
    (∀ i t, slot s.shareds i = some t →
      shared_ptr.move_ctor t = (t, shared_ptr.null) ∧
      ∃ u, step s (Op.shared_move i) = some u ∧ u.heap = s.heap ∧ u.weaks = s.weaks ∧
        slot u.shareds s.shareds.length = some t ∧
        slot u.shareds i = some shared_ptr.null ∧
        t.use_count u.heap = t.use_count s.heap ∧
        shared_ptr.null.use_count u.heap = some 0 ∧
        shared_ptr.null.get = nullptr ∧ shared_ptr.null.ref_count = none) ∧
    (∀ j w, slot s.weaks j = some w →
      weak_ptr.move_ctor w = (w, weak_ptr.null) ∧
      ∃ u, step s (Op.weak_move j) = some u ∧ u.heap = s.heap ∧ u.shareds = s.shareds ∧
        slot u.weaks s.weaks.length = some w ∧
        slot u.weaks j = some weak_ptr.null ∧
        weak_ptr.null.rawPtr = nullptr ∧ weak_ptr.null.ref_count = none) := by
  constructor
  · intro i t ht
    have e1 : shared_ptr.move_ctor t = (t, shared_ptr.null) := rfl
    refine ⟨e1, State.mk s.heap (s.shareds.set i (some shared_ptr.null) ++ [some t]) s.weaks,
      ?_, rfl, rfl, ?_, ?_, rfl, rfl, rfl, rfl⟩
    · simp [step, ht, e1]
    · have : (s.shareds.set i (some shared_ptr.null)).length = s.shareds.length := by simp
      show slot (s.shareds.set i (some shared_ptr.null) ++ [some t]) s.shareds.length = some t
      rw [slot_append, if_pos this.symm]
    · show slot (s.shareds.set i (some shared_ptr.null) ++ [some t]) i = some shared_ptr.null
      have : i ≠ (s.shareds.set i (some shared_ptr.null)).length := by
        simp; exact Nat.ne_of_lt (slot_lt ht)
      rw [slot_append, if_neg this, slot_set_self _ ht]
  · intro j w hw
    have e2 : weak_ptr.move_ctor w = (w, weak_ptr.null) := rfl
    refine ⟨e2, State.mk s.heap s.shareds (s.weaks.set j (some weak_ptr.null) ++ [some w]),
      ?_, rfl, rfl, ?_, ?_, rfl, rfl⟩
    · simp [step, hw, e2]
    · have : (s.weaks.set j (some weak_ptr.null)).length = s.weaks.length := by simp
      show slot (s.weaks.set j (some weak_ptr.null) ++ [some w]) s.weaks.length = some w
      rw [slot_append, if_pos this.symm]
    · show slot (s.weaks.set j (some weak_ptr.null) ++ [some w]) j = some weak_ptr.null
      have : j ≠ (s.weaks.set j (some weak_ptr.null)).length := by
        simp; exact Nat.ne_of_lt (slot_lt hw)
      rw [slot_append, if_neg this, slot_set_self _ hw]

theorem C9_move_construct_witness :
    slot demo_state.shareds 0
        = some { rawPtr := 100, deleter := some DeleterFn.scalar_delete, ref_count := some 0 } ∧
      slot demo_state.weaks 0 = some { rawPtr := 100, deleter := none, ref_count := some 0 } ∧
      Option.map State.heap (step demo_state (Op.shared_move 0)) = some demo_state.heap ∧
      Option.map State.heap (step demo_state (Op.weak_move 0)) = some demo_state.heap := by
  obtain ⟨_, s1, h1, h2, _⟩ := (C9_move_construct demo_state).1 0
    { rawPtr := 100, deleter := some DeleterFn.scalar_delete, ref_count := some 0 } (by decide)
  obtain ⟨_, s2, h3, h4, _⟩ := (C9_move_construct demo_state).2 0
    { rawPtr := 100, deleter := none, ref_count := some 0 } (by decide)
  refine ⟨by decide, by decide, ?_, ?_⟩
  · rw [h1]; simp [h2]
  · rw [h3]; simp [h4]

/-- C12. For a live shared handle `h` of a reachable state: every form of `reset` first
disposes `h`'s previous ownership exactly as the destructor does (the previous counter loses
one owner, is freed when no owner and no observer is left, and the previous deleter is
invoked iff the owner count was `1`).  After `reset()` the handle is empty with
`use_count() == 0`.  After `reset(p)` with non-null `p` the handle's `get()` is `p` and it
references a newly allocated counter with `sref_count = 1`, `wref_count = 0`, so
`use_count() == 1`; the new counter is none of the counters allocated before, live or
freed, and no other handle references it, whatever `h` referenced before.  After `reset(p)`
with null `p` the handle is empty. -/
theorem C12_shared_reset (s : State) (hr : Reachable s) (i : Nat) (h : shared_ptr)
    (hi : slot s.shareds i = some h) (a : Bool) (p : Ptr) (dq : Option DeleterFn) :
    ∃ m1, h.dtor s.heap = some m1 ∧
      (∀ c, h.ref_count = some c → ∃ k, s.heap.deref c = some k ∧ 1 ≤ k.sref_count ∧
        m1.deref c = (if k.sref_count = 1 ∧ k.wref_count = 0 then none
          else some { k with sref_count := k.sref_count - 1 }) ∧
        m1.released = s.heap.released ++
          (if k.sref_count = 1 then invocations h.tosmart_ptr_nts else []) ∧
        (∀ c', c' ≠ c → m1.deref c' = s.heap.deref c')) ∧
      (h.ref_count = none → m1 = s.heap) ∧
      h.reset s.heap = some (shared_ptr.null, m1) ∧
      step s (Op.shared_reset i)
        = some (State.mk m1 (s.shareds.set i (some shared_ptr.null)) s.weaks) ∧
      shared_ptr.null.get = nullptr ∧ shared_ptr.null.to_bool = false ∧
      shared_ptr.null.ref_count = none ∧ shared_ptr.null.use_count m1 = some 0 ∧
      (p ≠ nullptr → ∃ n m2,
        h.reset_ptr a p s.heap = some (n, m2) ∧
        h.reset_ptr_deleter p dq s.heap = some ({ n with deleter := dq }, m2) ∧
        step s (Op.shared_reset_ptr a i p)
          = some (State.mk m2 (s.shareds.set i (some n)) s.weaks) ∧
        n.get = p ∧ n.to_bool = true ∧ n.deleter = some (Deleter a) ∧
        n.ref_count = some s.heap.counters.length ∧
        n.use_count m2 = some 1 ∧
        m2.deref s.heap.counters.length
          = some { sref_count := 1, wref_count := 0, resource := p } ∧
        m2.counters.length = s.heap.counters.length + 1 ∧
        s.heap.deref s.heap.counters.length = none ∧
        (∀ c k, s.heap.deref c = some k → c ≠ s.heap.counters.length) ∧
        (∀ e ∈ s.heap.freed, e.1 ≠ s.heap.counters.length) ∧
        (∀ j g, slot s.shareds j = some g → g.ref_count ≠ some s.heap.counters.length) ∧
        (∀ j g, slot s.weaks j = some g → g.ref_count ≠ some s.heap.counters.length) ∧
        (∀ c, c ≠ s.heap.counters.length → m2.deref c = m1.deref c) ∧
        m2.released = m1.released ∧ m2.freed = m1.freed) ∧
      h.reset_ptr a nullptr s.heap = some (shared_ptr.null, m1) ∧
      h.reset_ptr_deleter nullptr dq s.heap = some (shared_ptr.null, m1) := by
  have hI := hr.inv
  obtain ⟨m1, hdt, hlen, hcase⟩ := shared_release_cases hI hi
  have hreset : h.reset s.heap = some (shared_ptr.null, m1) := by
    rw [shared_reset_eq, hdt]; rfl
  refine ⟨m1, hdt, ?_, ?_, hreset, ?_, rfl, rfl, rfl, rfl, ?_, ?_, ?_⟩
  · intro c hc
    rcases hcase with ⟨hn, _, _⟩ | ⟨cd, kd, hcd, hkd, h1, _, _, hder, hrl, _⟩
    · rw [hn] at hc; simp at hc
    · rw [hcd] at hc
      simp at hc
      subst hc
      refine ⟨kd, hkd, h1, by rw [hder, if_pos rfl], hrl, fun c' hc' => by rw [hder, if_neg hc']⟩
  · intro hn
    rcases hcase with ⟨_, _, e⟩ | ⟨cd, kd, hcd, _⟩
    · exact e
    · rw [hn] at hcd; simp at hcd
  · simp only [step, hi, hreset]
  · intro hp
    have e1 : ∀ d, h.reset_ptr_deleter p d s.heap
        = some ({ rawPtr := p, deleter := d, ref_count := some m1.counters.length },
            Heap.mk (m1.counters ++ [some (SharedPtrRefCounter.create p)]) m1.released
              m1.freed) := by
      intro d
      rw [shared_reset_ptr_deleter_eq, hdt]
      simp only [Option.map_some']
      rw [ctor_deleter_some d m1 hp]
    have e2 := e1 (some (Deleter a))
    rw [hlen] at e1 e2
    have hder := deref_of_append (m := m1)
      (n := Heap.mk (m1.counters ++ [some (SharedPtrRefCounter.create p)]) m1.released
              m1.freed) rfl
    rw [hlen] at hder
    have hfresh : s.heap.deref s.heap.counters.length = none := by
      cases hx : s.heap.deref s.heap.counters.length with
      | none => rfl
      | some k => exact absurd (slot_lt hx) (Nat.lt_irrefl _)
    refine ⟨_, _, e2, e1 dq, ?_, rfl, ?_, rfl, rfl, ?_, ?_, ?_, hfresh, ?_, ?_, ?_, ?_, ?_,
      rfl, rfl⟩
    · simp only [step, hi]
      have : shared_ptr.reset_ptr a h p s.heap = h.reset_ptr_deleter p (some (Deleter a)) s.heap :=
        rfl
      rw [this, e2]
    · simp [shared_ptr.to_bool, shared_ptr.get, smart_ptr_nts.Get]
      exact hp
    · simp only [shared_ptr.use_count, Heap.read, hder, if_pos]
      rfl
    · rw [hder, if_pos rfl]
      rfl
    · simp [hlen]
    · intro c k hk e
      rw [e, hfresh] at hk
      simp at hk
    · intro e he
      exact Nat.ne_of_lt (hI.freed_zero e he).2.2.1
    · intro j g hj hg
      obtain ⟨k, hk, _⟩ := hI.of_shared hj hg
      rw [hfresh] at hk
      simp at hk
    · intro j g hj hg
      obtain ⟨k, hk, _⟩ := hI.of_weak hj hg
      rw [hfresh] at hk
      simp at hk
    · intro c hc
      rw [hder, if_neg hc]
  · have : shared_ptr.reset_ptr a h nullptr s.heap
        = h.reset_ptr_deleter nullptr (some (Deleter a)) s.heap := rfl
    rw [this, shared_reset_ptr_deleter_eq, hdt]
    simp only [Option.map_some']
    rw [ctor_deleter_null]
  · rw [shared_reset_ptr_deleter_eq, hdt]
    simp only [Option.map_some']
    rw [ctor_deleter_null]

theorem C12_shared_reset_witness :
    Reachable demo_state ∧
      slot demo_state.shareds 0
        = some { rawPtr := 100, deleter := some DeleterFn.scalar_delete, ref_count := some 0 } ∧
      (200 : Ptr) ≠ nullptr ∧
      (step demo_state (Op.shared_reset 0)).isSome = true ∧
      Option.map (fun r : shared_ptr × Heap => r.1.get)
          (shared_ptr.reset_ptr false
            { rawPtr := 100, deleter := some DeleterFn.scalar_delete, ref_count := some 0 }
            200 demo_state.heap) = some 200 := by
  obtain ⟨m1, _, _, _, _, h5, _, _, _, _, h10, _⟩ := C12_shared_reset demo_state
    demo_state_reachable 0
    { rawPtr := 100, deleter := some DeleterFn.scalar_delete, ref_count := some 0 }
    (by decide) false 200 none
  obtain ⟨n, m2, e1, _, _, e4, _⟩ := h10 (by decide)
  refine ⟨demo_state_reachable, by decide, by decide, ?_, ?_⟩
  · rw [h5]; rfl
  · rw [e1]
    simp only [Option.map_some']
    rw [e4]

/-- C14. For shared handles, and likewise exclusive handles: `operator==` and
`std::equal_to` return true iff the raw pointers are equal, a handle equals `nullptr` iff
its raw pointer is null, and equal handles have equal `std::hash` values (whatever the
library's pointer hash is).  Handles constructed from two different addresses compare
unequal; a handle and its copy compare equal and hash equal. -/
theorem C14_equality_and_hash (hash_ptr : Ptr → Nat) :
    (∀ a b : shared_ptr,
      (a.operator_eq b = true ↔ a.get = b.get) ∧
      (a.std_equal_to b = true ↔ a.get = b.get) ∧
      (a.operator_eq_nullptr = true ↔ a.get = nullptr) ∧
      (a.operator_eq b = true → a.std_hash hash_ptr = b.std_hash hash_ptr) ∧
      (a.std_equal_to b = true → a.std_hash hash_ptr = b.std_hash hash_ptr)) ∧
    (∀ a b : unique_ptr,
      (a.operator_eq b = true ↔ a.get = b.get) ∧
      (a.std_equal_to b = true ↔ a.get = b.get) ∧
      (a.operator_eq_nullptr = true ↔ a.get = nullptr) ∧
      (a.operator_eq b = true → a.std_hash hash_ptr = b.std_hash hash_ptr) ∧
      (a.std_equal_to b = true → a.std_hash hash_ptr = b.std_hash hash_ptr)) ∧
    (∀ (x y : Bool) (p q : Ptr) (m n : Heap), p ≠ q →
      (shared_ptr.ctor x p m).1.operator_eq (shared_ptr.ctor y q n).1 = false ∧
      (shared_ptr.ctor x p m).1.std_equal_to (shared_ptr.ctor y q n).1 = false ∧
      (unique_ptr.ctor x p).operator_eq (unique_ptr.ctor y q) = false) ∧
    (∀ (t : shared_ptr) (m : Heap) (r : shared_ptr × Heap), t.copy_ctor m = some r →
      r.1.operator_eq t = true ∧ t.operator_eq r.1 = true ∧
      r.1.std_equal_to t = true ∧ r.1.std_hash hash_ptr = t.std_hash hash_ptr) := by
  refine ⟨?_, ?_, ?_, ?_⟩
  · intro a b
    have e : a.operator_eq b = true ↔ a.get = b.get := by
      simp [shared_ptr.operator_eq]
    refine ⟨e, e, by simp [shared_ptr.operator_eq_nullptr], ?_, ?_⟩
    · intro h; simp [shared_ptr.std_hash, e.mp h]
    · intro h; simp [shared_ptr.std_hash, e.mp h]
  · intro a b
    have e : a.operator_eq b = true ↔ a.get = b.get := by
      simp [unique_ptr.operator_eq]
    refine ⟨e, e, by simp [unique_ptr.operator_eq_nullptr], ?_, ?_⟩
    · intro h; simp [unique_ptr.std_hash, e.mp h]
    · intro h; simp [unique_ptr.std_hash, e.mp h]
  · intro x y p q m n hpq
    have e1 : (shared_ptr.ctor x p m).1.get = p := by
      unfold shared_ptr.ctor shared_ptr.ctor_deleter
      split <;> rfl
    have e2 : (shared_ptr.ctor y q n).1.get = q := by
      unfold shared_ptr.ctor shared_ptr.ctor_deleter
      split <;> rfl
    refine ⟨?_, ?_, ?_⟩
    · simp [shared_ptr.operator_eq, e1, e2, hpq]
    · simp [shared_ptr.std_equal_to, e1, e2, hpq]
    · simp [unique_ptr.operator_eq, unique_ptr.get, unique_ptr.ctor, smart_ptr_nts.ctor,
        smart_ptr_nts.Get, hpq]
  · intro t m r hr
    have e : r.1.get = t.get := by
      unfold shared_ptr.copy_ctor at hr
      split at hr
      · split at hr
        · simp at hr
        · simp at hr; rw [← hr]; rfl
      · simp at hr; rw [← hr]; rfl
    refine ⟨?_, ?_, ?_, ?_⟩
    · simp [shared_ptr.operator_eq, e]
    · simp [shared_ptr.operator_eq, e]
    · simp [shared_ptr.std_equal_to, e]
    · simp [shared_ptr.std_hash, e]

theorem C14_equality_and_hash_witness :
    (100 : Ptr) ≠ 200 ∧
      (shared_ptr.ctor false 100 State.init.heap).1.operator_eq
        (shared_ptr.ctor false 200 State.init.heap).1 = false :=
  ⟨by decide, ((C14_equality_and_hash id).2.2.1 false false 100 200 State.init.heap
    State.init.heap (by decide)).1⟩

/-- C16. For an exclusive handle `u` that stores a deleter `dl` (it holds a resource with a
deleter), `reset(q)`, `reset(q, dq)` and `reset()` each invoke `dl` exactly once, on `u`'s
pointer, and nothing else.  After `reset(q)` or `reset(q, dq)` the handle's `get()` is `q`;
when `q` is non-null it stores the default deleter (resp. the deleter passed to `reset`), so
that its destructor later invokes exactly that deleter on `q`; when `q` is null it is empty.
After `reset()` the handle is empty.  On a handle without a deleter, in particular on the
empty handle, no form invokes any deleter: the heap is unchanged.  No form touches a
counter. -/
theorem C16_unique_reset (u : unique_ptr) (a : Bool) (q : Ptr) (dq : Option DeleterFn)
    (m : Heap) :
    (∀ dl, u.deleter = some dl →
      (u.reset_ptr a q m).2.released = m.released ++ [(dl, u.get)] ∧
      (u.reset_ptr_deleter q dq m).2.released = m.released ++ [(dl, u.get)] ∧
      (u.reset m).2.released = m.released ++ [(dl, u.get)]) ∧
    (u.reset_ptr a q m).1.get = q ∧ (u.reset_ptr_deleter q dq m).1.get = q ∧
    (q ≠ nullptr →
      (u.reset_ptr a q m).1.deleter = some (Deleter a) ∧
      (u.reset_ptr_deleter q dq m).1.deleter = dq ∧
      (∀ n : Heap, ((u.reset_ptr a q m).1.dtor n).released = n.released ++ [(Deleter a, q)]) ∧
      (∀ (n : Heap) (x : DeleterFn), dq = some x →
        ((u.reset_ptr_deleter q dq m).1.dtor n).released = n.released ++ [(x, q)])) ∧
    (q = nullptr →
      (u.reset_ptr a q m).1 = unique_ptr.null ∧
      (u.reset_ptr_deleter q dq m).1 = unique_ptr.null) ∧
    (u.reset m).1 = unique_ptr.null ∧ (u.reset m).1.to_bool = false ∧
    (u.reset m).1.get = nullptr ∧
    (u.deleter = none →
      (u.reset_ptr a q m).2 = m ∧ (u.reset_ptr_deleter q dq m).2 = m ∧ (u.reset m).2 = m) ∧
    ((unique_ptr.null.reset_ptr a q m).2 = m ∧ (unique_ptr.null.reset_ptr_deleter q dq m).2 = m ∧
      (unique_ptr.null.reset m).2 = m) ∧
    ((u.reset_ptr a q m).2.counters = m.counters ∧ (u.reset_ptr a q m).2.freed = m.freed ∧
      (u.reset_ptr_deleter q dq m).2.counters = m.counters ∧
      (u.reset_ptr_deleter q dq m).2.freed = m.freed ∧
      (u.reset m).2.counters = m.counters ∧ (u.reset m).2.freed = m.freed) := by
  have hrel : ∀ (x : Option DeleterFn),
      (u.reset_ptr_deleter q x m).2.released = m.released ++ invocations u.tosmart_ptr_nts :=
    fun x => base_Dispose_released u.tosmart_ptr_nts m
  have hrel0 : (u.reset m).2.released = m.released ++ invocations u.tosmart_ptr_nts :=
    base_Dispose_released u.tosmart_ptr_nts m
  have hnull : (u.reset m).1 = unique_ptr.null := by
    simp only [unique_ptr.reset, smart_ptr_nts.reset, base_Dispose_fst]
    rfl
  refine ⟨?_, rfl, rfl, ?_, ?_, hnull, by rw [hnull]; rfl, by rw [hnull]; rfl, ?_,
    ⟨rfl, rfl, rfl⟩, ?_⟩
  · intro dl hdl
    have hi : invocations u.tosmart_ptr_nts = [(dl, u.get)] := invocations_some hdl
    refine ⟨?_, ?_, ?_⟩
    · rw [← hi]; exact hrel _
    · rw [← hi]; exact hrel _
    · rw [← hi]; exact hrel0
  · intro hq
    have e1 : (u.reset_ptr a q m).1.deleter = some (Deleter a) := by
      simp [unique_ptr.reset_ptr, unique_ptr.reset_ptr_deleter, smart_ptr_nts.reset_ptr, hq]
    have e2 : (u.reset_ptr_deleter q dq m).1.deleter = dq := by
      simp [unique_ptr.reset_ptr_deleter, smart_ptr_nts.reset_ptr, hq]
    refine ⟨e1, e2, ?_, ?_⟩
    · intro n
      have h := base_Dispose_released (u.reset_ptr a q m).1.tosmart_ptr_nts n
      rw [invocations_some e1] at h
      exact h
    · intro n x hx
      have h := base_Dispose_released (u.reset_ptr_deleter q dq m).1.tosmart_ptr_nts n
      rw [invocations_some (e2.trans hx)] at h
      exact h
  · intro hq
    subst hq
    constructor
    · simp only [unique_ptr.reset_ptr, unique_ptr.reset_ptr_deleter, smart_ptr_nts.reset_ptr,
        base_Dispose_fst]
      rfl
    · simp only [unique_ptr.reset_ptr_deleter, smart_ptr_nts.reset_ptr, base_Dispose_fst]
      rfl
  · intro hn
    exact ⟨base_Dispose_none hn m, base_Dispose_none hn m, base_Dispose_none hn m⟩
  · exact ⟨base_Dispose_counters _ m, base_Dispose_freed _ m, base_Dispose_counters _ m,
      base_Dispose_freed _ m, base_Dispose_counters _ m, base_Dispose_freed _ m⟩

theorem C16_unique_reset_witness :
    (unique_ptr.ctor_deleter 100 (some (DeleterFn.custom 7))).deleter
        = some (DeleterFn.custom 7) ∧
      ((unique_ptr.ctor_deleter 100 (some (DeleterFn.custom 7))).reset_ptr false 200
          State.init.heap).2.released
        = State.init.heap.released ++ [(DeleterFn.custom 7, 100)] ∧
      (200 : Ptr) ≠ nullptr ∧
      ((unique_ptr.ctor_deleter 100 (some (DeleterFn.custom 7))).reset_ptr false 200
          State.init.heap).1.deleter = some (Deleter false) :=
  ⟨rfl,
   ((C16_unique_reset (unique_ptr.ctor_deleter 100 (some (DeleterFn.custom 7))) false 200 none
      State.init.heap).1 (DeleterFn.custom 7) rfl).1,
   by decide,
   ((C16_unique_reset (unique_ptr.ctor_deleter 100 (some (DeleterFn.custom 7))) false 200 none
      State.init.heap).2.2.2.1 (by decide)).1⟩

/-- C17. In a reachable state every allocated counter is live (`sref_count > 0`), orphaned
(`sref_count = 0`, `wref_count > 0`) or freed, and along every later sequence of public
operations: a freed counter stays freed; an orphaned counter is afterwards freed or still
orphaned on the same resource, no shared handle references it, and `lock()` on every weak
handle that observes it returns the empty handle (with `expired()` true) and changes
nothing.  In one step, an orphaned counter is left as it is by every shared handle
operation and by `lock()`, a weak handle operation only moves its `wref_count`, and it
becomes freed iff the step is a weak handle operation that stops to observe it while its
`wref_count` is `1`, that is, the disposal of its last observer. -/
theorem C17_no_resurrection (s s' : State) (hr : Reachable s) (ops : List Op)
    (hrun : run s ops = some s') (c : CounterId) :
    (c < s.heap.counters.length →
      (∃ k, s.heap.deref c = some k ∧ 0 < k.sref_count) ∨
      (∃ k, s.heap.deref c = some k ∧ k.sref_count = 0 ∧ 0 < k.wref_count) ∨
      s.heap.deref c = none) ∧
    (c < s.heap.counters.length → s.heap.deref c = none → s'.heap.deref c = none) ∧
    (∀ k, s.heap.deref c = some k → k.sref_count = 0 →
      (s'.heap.deref c = none ∨
        ∃ k', s'.heap.deref c = some k' ∧ k'.sref_count = 0 ∧ 0 < k'.wref_count ∧
          k'.resource = k.resource) ∧
      s'.owners c = 0 ∧
      (∀ j h, slot s'.shareds j = some h → h.ref_count ≠ some c) ∧
      (∀ i w a, slot s'.weaks i = some w → w.ref_count = some c →
        w.expired s'.heap = some true ∧
        w.lock a s'.heap = some (shared_ptr.null, s'.heap) ∧
        step s' (Op.weak_lock a i)
          = some (State.mk s'.heap (s'.shareds ++ [some shared_ptr.null]) s'.weaks))) ∧
    (∀ k op u, s.heap.deref c = some k → k.sref_count = 0 → step s op = some u →
      (op.weak_only = false → u.heap.deref c = some k) ∧
      (op.weak_only = true →
        u.heap.deref c = observer_shift (op.observer_delta s c) k) ∧
      (u.heap.deref c = none ↔
        (op.weak_only = true ∧ op.unobserved s = some c ∧ op.observed s ≠ some c ∧
          k.wref_count = 1))) := by
  have hI := hr.inv
  have hI' := hI.run ops hrun
  have hst := run_stable hI ops hrun
  refine ⟨?_, (hst.2 c).1, ?_, ?_⟩
  · intro _
    cases hk : s.heap.deref c with
    | none => exact Or.inr (Or.inr rfl)
    | some k =>
      obtain ⟨e1, e2, e3⟩ := hI.live c k hk
      by_cases h0 : k.sref_count = 0
      · exact Or.inr (Or.inl ⟨k, rfl, h0, by omega⟩)
      · exact Or.inl ⟨k, rfl, by omega⟩
  · intro k hk h0
    have hcase := (hst.2 c).2 k hk h0
    have hown : s'.owners c = 0 := by
      cases hk' : s'.heap.deref c with
      | none => exact (hI'.dead c hk').1
      | some k' =>
        rcases hcase with hn | ⟨k2, hk2, h02, _⟩
        · rw [hn] at hk'; exact Option.noConfusion hk'
        · rw [hk2] at hk'
          have e : k2 = k' := Option.some.inj hk'
          subst e
          have := (hI'.live c k2 hk2).1
          omega
    refine ⟨?_, hown, ?_, ?_⟩
    · rcases hcase with hn | ⟨k', hk', h0', hr'⟩
      · exact Or.inl hn
      · obtain ⟨e1, e2, e3⟩ := hI'.live c k' hk'
        exact Or.inr ⟨k', hk', h0', by omega, hr'⟩
    · intro j h hj hc
      obtain ⟨k', hk', h1, _⟩ := hI'.of_shared hj hc
      rcases hcase with hn | ⟨k2, hk2, h02, _⟩
      · rw [hn] at hk'; exact Option.noConfusion hk'
      · rw [hk2] at hk'
        have e : k2 = k' := Option.some.inj hk'
        subst e
        omega
    · intro i w a hw hc
      obtain ⟨k', hk', _⟩ := hI'.of_weak hw hc
      have h0' : k'.sref_count = 0 := by
        rcases hcase with hn | ⟨k2, hk2, h02, _⟩
        · rw [hn] at hk'; exact Option.noConfusion hk'
        · rw [hk2] at hk'
          have e : k2 = k' := Option.some.inj hk'
          subst e
          exact h02
      obtain ⟨hl, he⟩ := lock_of_orphan a hc hk' h0'
      refine ⟨he, hl, ?_⟩
      simp only [step, hw, hl]
  · intro k op u hk h0 hs
    obtain ⟨e1, e2, e3⟩ := hI.live c k hk
    cases hop : op.weak_only with
    | false =>
      have hu := ((owner_step_untouched hI hop hs).2 c).2 k hk h0
      refine ⟨fun _ => hu, fun h => Bool.noConfusion h, ?_⟩
      rw [hu]
      simp
    | true =>
      obtain ⟨_, _, _, hder⟩ := weak_step_effect hI hop hs
      have hu : u.heap.deref c = observer_shift (op.observer_delta s c) k := by
        rw [hder, hk]; rfl
      refine ⟨fun h => Bool.noConfusion h, fun _ => hu, ?_⟩
      rw [hu]
      simp only [observer_shift, Op.observer_delta, holds]
      by_cases ho : op.observed s = some c <;> by_cases hx : op.unobserved s = some c <;>
        simp [ho, hx, h0] <;> omega

theorem C17_no_resurrection_witness :
    Reachable orphan_demo ∧
      run orphan_demo [Op.weak_copy 0, Op.weak_lock false 0, Op.weak_destroy 0]
        = some orphan_demo_later ∧
      orphan_demo.heap.deref 0 = some { sref_count := 0, wref_count := 1, resource := 100 } ∧
      orphan_demo_later.owners 0 = 0 :=
  ⟨orphan_demo_reachable, by decide, by decide,
   ((C17_no_resurrection orphan_demo orphan_demo_later orphan_demo_reachable
      [Op.weak_copy 0, Op.weak_lock false 0, Op.weak_destroy 0] (by decide) 0).2.2.1
      { sref_count := 0, wref_count := 1, resource := 100 } (by decide) rfl).2.1⟩

/-- C18. The base dispose primitive is idempotent: for every base state, `Dispose` invokes
the stored deleter exactly once on the stored pointer if a deleter is present and invokes
nothing otherwise, and leaves pointer and deleter null; a second `Dispose` invokes nothing
and leaves the same empty state and the same heap.  The base destructor is this primitive. -/
theorem C18_base_dispose_idempotent (b : smart_ptr_nts) (m : Heap) :
    (b.Dispose m).1 = smart_ptr_nts.null ∧
    (b.Dispose m).1.rawPtr = nullptr ∧ (b.Dispose m).1.deleter = none ∧
    (b.Dispose m).2.released = m.released ++ invocations b ∧
    (∀ d, b.deleter = some d → invocations b = [(d, b.rawPtr)]) ∧
    (b.deleter = none → invocations b = [] ∧ (b.Dispose m).2 = m) ∧
    (b.Dispose m).2.counters = m.counters ∧ (b.Dispose m).2.freed = m.freed ∧
    (b.Dispose m).1.Dispose (b.Dispose m).2 = (b.Dispose m) ∧
    b.dtor m = (b.Dispose m).2 ∧
    (b.Dispose m).1.dtor (b.Dispose m).2 = (b.Dispose m).2 := by
  have e1 : (b.Dispose m).1 = smart_ptr_nts.null := by
    simp [smart_ptr_nts.null]
  refine ⟨e1, by simp, by simp, base_Dispose_released b m, ?_, ?_, by simp, by simp, ?_, rfl, ?_⟩
  · intro d hd
    simp [invocations, hd]
  · intro hd
    simp [invocations, hd, smart_ptr_nts.Dispose]
  · unfold smart_ptr_nts.Dispose
    cases b.deleter <;> rfl
  · unfold smart_ptr_nts.dtor smart_ptr_nts.Dispose
    cases b.deleter <;> rfl

theorem C18_base_dispose_idempotent_witness :
    (smart_ptr_nts.mk 100 (some DeleterFn.scalar_delete)).deleter
        = some DeleterFn.scalar_delete ∧
      invocations (smart_ptr_nts.mk 100 (some DeleterFn.scalar_delete))
        = [(DeleterFn.scalar_delete, 100)] :=
  ⟨rfl, (C18_base_dispose_idempotent (smart_ptr_nts.mk 100 (some DeleterFn.scalar_delete))
    State.init.heap).2.2.2.2.1 DeleterFn.scalar_delete rfl⟩

/-- C19. When no deleter is supplied, the deleter stored for a non-null pointer by the
constructor and by `reset(new_ptr)` of a shared or exclusive handle, and by the non-empty
shared handle that `lock()` produces, is `Deleter` instantiated at the handle's declared
type: the array-delete form iff that type is an array form and the scalar-delete form
otherwise, whatever the pointer value.  In a reachable state `reset(new_ptr)` and `lock()`
do return. -/
theorem C19_default_deleter (a : Bool) :
    (Deleter a = DeleterFn.array_delete ↔ a = true) ∧
    (Deleter a = DeleterFn.scalar_delete ↔ a = false) ∧
    (∀ (p : Ptr) (m : Heap), p ≠ nullptr →
      (shared_ptr.ctor a p m).1.deleter = some (Deleter a)) ∧
    (∀ p : Ptr, p ≠ nullptr → (unique_ptr.ctor a p).deleter = some (Deleter a)) ∧
    (∀ (h : shared_ptr) (p : Ptr) (m : Heap) (r : shared_ptr × Heap), p ≠ nullptr →
      shared_ptr.reset_ptr a h p m = some r → r.1.deleter = some (Deleter a)) ∧
    (∀ (u : unique_ptr) (p : Ptr) (m : Heap), p ≠ nullptr →
      (unique_ptr.reset_ptr a u p m).1.deleter = some (Deleter a)) ∧
    (∀ (w : weak_ptr) (m : Heap) (r : shared_ptr × Heap), w.lock a m = some r →
      r.1.to_bool = true → r.1.deleter = some (Deleter a)) ∧
    (∀ (s : State) (i : Nat) (h : shared_ptr) (p : Ptr), Reachable s →
      slot s.shareds i = some h → p ≠ nullptr →
      ∃ r, shared_ptr.reset_ptr a h p s.heap = some r ∧ r.1.deleter = some (Deleter a)) ∧
    (∀ (s : State) (i : Nat) (w : weak_ptr), Reachable s → slot s.weaks i = some w →
      ∃ r, w.lock a s.heap = some r ∧
        (r.1.to_bool = true → r.1.deleter = some (Deleter a))) := by
  refine ⟨?_, ?_, ?_, ?_, ?_, ?_, ?_, ?_, ?_⟩
  · cases a <;> simp [Deleter]
  · cases a <;> simp [Deleter]
  · intro p m hp
    simp [shared_ptr.ctor, shared_ptr.ctor_deleter, hp, smart_ptr_nts.ctor]
  · intro p hp
    simp [unique_ptr.ctor, smart_ptr_nts.ctor, hp]
  · intro h p m r hp hr
    exact (reset_ptr_deleter_stored hp hr).1
  · intro u p m hp
    simp [unique_ptr.reset_ptr, unique_ptr.reset_ptr_deleter, smart_ptr_nts.reset_ptr, hp]
  · intro w m r hr hb
    exact (lock_nonempty_deleter hr hb).1
  · intro s i h p hs hi hp
    obtain ⟨n, hn, _⟩ := hs.inv.release_shared hi
    have e : shared_ptr.reset_ptr a h p s.heap
        = some (shared_ptr.ctor_deleter p (some (Deleter a)) n) := by
      unfold shared_ptr.reset_ptr
      rw [shared_reset_ptr_deleter_eq, hn]
      rfl
    exact ⟨_, e, (reset_ptr_deleter_stored hp e).1⟩
  · intro s i w hs hi
    obtain ⟨r, hr⟩ := lock_defined hs.inv a hi
    exact ⟨r, hr, fun hb => (lock_nonempty_deleter hr hb).1⟩

theorem C19_default_deleter_witness :
    (100 : Ptr) ≠ nullptr ∧
      (shared_ptr.ctor true 100 State.init.heap).1.deleter = some (Deleter true) ∧
      (Deleter true = DeleterFn.array_delete ↔ true = true) :=
  ⟨by decide, (C19_default_deleter true).2.2.1 100 State.init.heap (by decide),
   (C19_default_deleter true).1⟩

/-- C20. For every live weak handle of every reachable state, `lock()` and `expired()` both
return, and the handle returned by `lock()` is non-empty iff `expired()` is false immediately
before the call: a weak handle whose counter has `sref_count > 0` also stores a non-null raw
pointer, so the null-pointer test in `CreateFrom` never makes a non-expired lock fail. -/
theorem C20_lock_iff_not_expired (s : State) (hr : Reachable s) (a : Bool) (i : Nat)
    (w : weak_ptr) (hw : slot s.weaks i = some w) :
    ∃ n m b, w.lock a s.heap = some (n, m) ∧ w.expired s.heap = some b ∧
      (n.to_bool = true ↔ b = false) ∧ (n = shared_ptr.null ↔ b = true) ∧
      (∀ c k, w.ref_count = some c → s.heap.deref c = some k → 0 < k.sref_count →
        w.rawPtr ≠ nullptr) := by
  have hI := hr.inv
  cases hc : w.ref_count with
  | none =>
    refine ⟨shared_ptr.null, s.heap, true, ?_, by simp [weak_ptr.expired, hc], by decide,
      by simp, by simp⟩
    by_cases hp : w.rawPtr = nullptr
    · simp [weak_ptr.lock, shared_ptr.CreateFrom, smart_ptr_nts.Get, hp]
    · simp [weak_ptr.lock, shared_ptr.CreateFrom, smart_ptr_nts.Get, hp, hc]
  | some c =>
    obtain ⟨k, hk, _, hkp, _, _⟩ := hI.of_weak hw hc
    have hres := hI.res c k hk
    have hp : w.rawPtr ≠ nullptr := by rw [hkp]; exact hres
    by_cases h0 : k.sref_count = 0
    · refine ⟨shared_ptr.null, s.heap, true, ?_, ?_, by decide, by simp, fun _ _ _ _ _ => hp⟩
      · simp [weak_ptr.lock, shared_ptr.CreateFrom, smart_ptr_nts.Get, hp, hc,
          Heap.read_eq _ hk, SharedPtrRefCounter.CountOwners, h0]
      · simp [weak_ptr.expired, hc, Heap.read_eq _ hk, SharedPtrRefCounter.CountOwners, h0]
    · refine ⟨{ tosmart_ptr_nts := { rawPtr := w.rawPtr, deleter := some (Deleter a) },
                ref_count := some c },
        Heap.mk (s.heap.counters.set c (some { k with sref_count := k.sref_count + 1 }))
          s.heap.released s.heap.freed, false, ?_, ?_, ?_, ?_, fun _ _ _ _ _ => hp⟩
      · simp [weak_ptr.lock, shared_ptr.CreateFrom, smart_ptr_nts.Get, hp, hc,
          Heap.read_eq _ hk, SharedPtrRefCounter.CountOwners, h0, shared_ptr.private_ctor,
          Heap.call_eq _ hk, SharedPtrRefCounter.IncreaseOwner, smart_ptr_nts.ctor]
      · simp [weak_ptr.expired, hc, Heap.read_eq _ hk, SharedPtrRefCounter.CountOwners, h0]
      · simp [shared_ptr.to_bool, shared_ptr.get, smart_ptr_nts.Get, hp]
      · simp [shared_ptr.null]

theorem C20_lock_iff_not_expired_witness :
    Reachable demo_state ∧
      slot demo_state.weaks 0 = some { rawPtr := 100, deleter := none, ref_count := some 0 } ∧
      Option.map (fun r : shared_ptr × Heap => r.1.to_bool)
          (weak_ptr.lock false { rawPtr := 100, deleter := none, ref_count := some 0 }
            demo_state.heap) = some true ∧
      weak_ptr.expired { rawPtr := 100, deleter := none, ref_count := some 0 }
        demo_state.heap = some false := by
  obtain ⟨n, m, b, h1, h2, h3, _, _⟩ := C20_lock_iff_not_expired demo_state
    demo_state_reachable false 0 { rawPtr := 100, deleter := none, ref_count := some 0 }
    (by decide)
  have hb : b = false := by
    have e : weak_ptr.expired { rawPtr := 100, deleter := none, ref_count := some 0 }
        demo_state.heap = some false := by decide
    rw [e] at h2
    exact (Option.some.inj h2).symm
  refine ⟨demo_state_reachable, by decide, ?_, ?_⟩
  · rw [h1]
    simp only [Option.map_some']
    rw [h3.mpr hb]
  · rw [h2, hb]

/-- C21. In every reachable state a live shared handle has a counter iff its raw pointer is
non-null.  Hence `use_count()` returns a value `n ≥ 0`, the boolean conversion is true iff
`n ≥ 1`, and `n = 0` iff the handle equals `nullptr` (iff it has no counter). -/
theorem C21_counter_iff_pointer (s : State) (hr : Reachable s) (i : Nat) (h : shared_ptr)
    (hi : slot s.shareds i = some h) :
    (h.ref_count ≠ none ↔ h.get ≠ nullptr) ∧
    ∃ n, h.use_count s.heap = some n ∧ 0 ≤ n ∧
      (h.to_bool = true ↔ 1 ≤ n) ∧
      (n = 0 ↔ h.operator_eq_nullptr = true) ∧
      (n = 0 ↔ h.get = nullptr) ∧
      (n = 0 ↔ h.ref_count = none) := by
  have hI := hr.inv
  cases hc : h.ref_count with
  | none =>
    obtain ⟨hp, _⟩ := hI.snull i h hi hc
    have hg : h.get = nullptr := hp
    refine ⟨by simp [hg], 0, by simp [shared_ptr.use_count, hc], le_refl _, ?_, ?_, ?_, ?_⟩
    · simp [shared_ptr.to_bool, hg]
    · simp [shared_ptr.operator_eq_nullptr, hg]
    · simp [hg]
    · simp
  | some c =>
    obtain ⟨k, hk, h1, hp, _, _⟩ := hI.of_shared hi hc
    have hres := hI.res c k hk
    have hg : h.get ≠ nullptr := by
      show h.rawPtr ≠ nullptr
      rw [hp]; exact hres
    refine ⟨by simp [hg], k.sref_count, use_count_of_deref hc hk, by omega, ?_, ?_, ?_, ?_⟩
    · simp [shared_ptr.to_bool, hg, h1]
    · simp [shared_ptr.operator_eq_nullptr, hg]; omega
    · simp [hg]; omega
    · simp; omega

theorem C21_counter_iff_pointer_witness :
    Reachable demo_state ∧
      slot demo_state.shareds 0
        = some { rawPtr := 100, deleter := some DeleterFn.scalar_delete, ref_count := some 0 } ∧
      ((some 0 : Option CounterId) ≠ none ↔
        shared_ptr.get { rawPtr := 100, deleter := some DeleterFn.scalar_delete,
                         ref_count := some 0 } ≠ nullptr) :=
  ⟨demo_state_reachable, by decide,
   (C21_counter_iff_pointer demo_state demo_state_reachable 0
      { rawPtr := 100, deleter := some DeleterFn.scalar_delete, ref_count := some 0 }
      (by decide)).1⟩

/-- C22. In every reachable state all live shared and weak handles that reference counter
`c` store the resource address recorded in `c`, hence the same raw pointer; two shared
handles on `c` compare equal under `operator==` and `std::equal_to`, and so does the handle
that `lock()` returns for a weak handle on `c`.  The recorded address is the pointer given to
the constructor (or `reset`) that allocated the counter, and no later sequence of public
operations changes it while the counter exists. -/
theorem C22_same_counter_same_pointer (s : State) (hr : Reachable s) (c : CounterId) :
    (∀ i h, slot s.shareds i = some h → h.ref_count = some c →
      ∃ k, s.heap.deref c = some k ∧ h.get = k.resource) ∧
    (∀ i w, slot s.weaks i = some w → w.ref_count = some c →
      ∃ k, s.heap.deref c = some k ∧ w.rawPtr = k.resource) ∧
    (∀ i j h g, slot s.shareds i = some h → slot s.shareds j = some g →
      h.ref_count = some c → g.ref_count = some c →
      h.get = g.get ∧ h.operator_eq g = true ∧ h.std_equal_to g = true) ∧
    (∀ i j h w, slot s.shareds i = some h → slot s.weaks j = some w →
      h.ref_count = some c → w.ref_count = some c → h.get = w.rawPtr) ∧
    (∀ i j w v, slot s.weaks i = some w → slot s.weaks j = some v →
      w.ref_count = some c → v.ref_count = some c → w.rawPtr = v.rawPtr) ∧
    (∀ i j h w a, slot s.shareds i = some h → slot s.weaks j = some w →
      h.ref_count = some c → w.ref_count = some c →
      ∃ n m, w.lock a s.heap = some (n, m) ∧ n.ref_count = some c ∧
        n.operator_eq h = true ∧ h.operator_eq n = true) ∧
    (∀ i h, slot s.shareds i = some h → h.ref_count = some c →
      ∃ n m, h.copy_ctor s.heap = some (n, m) ∧ n.ref_count = some c ∧
        n.operator_eq h = true) ∧
    (∀ (p : Ptr) (d : Option DeleterFn) (m : Heap), p ≠ nullptr →
      (shared_ptr.ctor_deleter p d m).1.ref_count = some m.counters.length ∧
      (shared_ptr.ctor_deleter p d m).1.get = p ∧
      (shared_ptr.ctor_deleter p d m).2.deref m.counters.length
        = some { sref_count := 1, wref_count := 0, resource := p }) ∧
    (∀ ops s' k k', run s ops = some s' → s.heap.deref c = some k →
      s'.heap.deref c = some k' → k'.resource = k.resource) := by
  have hI := hr.inv
  have hS : ∀ i h, slot s.shareds i = some h → h.ref_count = some c →
      ∃ k, s.heap.deref c = some k ∧ h.get = k.resource ∧ 1 ≤ k.sref_count := by
    intro i h hi hc
    obtain ⟨k, hk, h1, hp, _, _⟩ := hI.of_shared hi hc
    exact ⟨k, hk, hp, h1⟩
  have hW : ∀ i w, slot s.weaks i = some w → w.ref_count = some c →
      ∃ k, s.heap.deref c = some k ∧ w.rawPtr = k.resource := by
    intro i w hi hc
    obtain ⟨k, hk, _, hp, _, _⟩ := hI.of_weak hi hc
    exact ⟨k, hk, hp⟩
  refine ⟨fun i h hi hc => (hS i h hi hc).imp (fun _ x => ⟨x.1, x.2.1⟩), hW, ?_, ?_, ?_, ?_, ?_,
    ?_, ?_⟩
  · intro i j h g hi hj hc hg
    obtain ⟨k, hk, hp, _⟩ := hS i h hi hc
    obtain ⟨k2, hk2, hp2, _⟩ := hS j g hj hg
    rw [hk] at hk2
    have e : h.get = g.get := by rw [hp, hp2, Option.some.inj hk2]
    exact ⟨e, by simp [shared_ptr.operator_eq, e], by simp [shared_ptr.std_equal_to, e]⟩
  · intro i j h w hi hj hc hw
    obtain ⟨k, hk, hp, _⟩ := hS i h hi hc
    obtain ⟨k2, hk2, hp2⟩ := hW j w hj hw
    rw [hk] at hk2
    rw [hp, hp2, Option.some.inj hk2]
  · intro i j w v hi hj hc hv
    obtain ⟨k, hk, hp⟩ := hW i w hi hc
    obtain ⟨k2, hk2, hp2⟩ := hW j v hj hv
    rw [hk] at hk2
    rw [hp, hp2, Option.some.inj hk2]
  · intro i j h w a hi hj hc hw
    obtain ⟨k, hk, hp, h1⟩ := hS i h hi hc
    obtain ⟨k2, hk2, hp2⟩ := hW j w hj hw
    rw [hk] at hk2
    have e2 : k = k2 := Option.some.inj hk2
    subst e2
    have hres := hI.res c k hk
    have hwp : w.rawPtr ≠ nullptr := by rw [hp2]; exact hres
    have ho : k.sref_count ≠ 0 := by omega
    have hlock : w.lock a s.heap
        = some ({ tosmart_ptr_nts := { rawPtr := w.rawPtr, deleter := some (Deleter a) },
                  ref_count := some c },
                Heap.mk (s.heap.counters.set c (some { k with sref_count := k.sref_count + 1 }))
                  s.heap.released s.heap.freed) := by
      simp [weak_ptr.lock, shared_ptr.CreateFrom, smart_ptr_nts.Get, hwp, hw,
        Heap.read_eq _ hk, SharedPtrRefCounter.CountOwners, ho, shared_ptr.private_ctor,
        Heap.call_eq _ hk, SharedPtrRefCounter.IncreaseOwner, smart_ptr_nts.ctor]
    have hg : h.get = w.rawPtr := by rw [hp, hp2]
    refine ⟨_, _, hlock, rfl, ?_, ?_⟩
    · simp [shared_ptr.operator_eq, shared_ptr.get, smart_ptr_nts.Get]
      exact hg.symm
    · simp [shared_ptr.operator_eq, shared_ptr.get, smart_ptr_nts.Get]
      exact hg
  · intro i h hi hc
    obtain ⟨k, hk, _, _⟩ := hS i h hi hc
    exact ⟨_, _, shared_copy_ctor_some hc hk, hc, by simp [shared_ptr.operator_eq]⟩
  · intro p d m hp
    rw [ctor_deleter_some d m hp]
    refine ⟨rfl, rfl, ?_⟩
    rw [deref_of_append (m := m) rfl, if_pos rfl]
    rfl
  · intro ops s' k k' hrun hk hk'
    exact ((run_kept ops hrun).2 c).2 k k' hk hk'

theorem C22_same_counter_same_pointer_witness :
    Reachable demo_state ∧
      slot demo_state.shareds 0
        = some { rawPtr := 100, deleter := some DeleterFn.scalar_delete, ref_count := some 0 } ∧
      slot demo_state.weaks 0 = some { rawPtr := 100, deleter := none, ref_count := some 0 } ∧
      shared_ptr.get { rawPtr := 100, deleter := some DeleterFn.scalar_delete,
                       ref_count := some 0 }
        = ({ rawPtr := 100, deleter := none, ref_count := some 0 } : weak_ptr).rawPtr :=
  ⟨demo_state_reachable, by decide, by decide,
   (C22_same_counter_same_pointer demo_state demo_state_reachable 0).2.2.2.1 0 0
      { rawPtr := 100, deleter := some DeleterFn.scalar_delete, ref_count := some 0 }
      { rawPtr := 100, deleter := none, ref_count := some 0 } (by decide) (by decide) rfl rfl⟩

/-- C23. In every state reachable by the member functions of the base class (the three
constructors, copy and move construction, copy and move assignment, `reset()`,
`reset(ptr[, deleter])`, `DisableDisposing`, `Dispose`, the destructor), an object that
stores a deleter stores a non-null pointer.  Hence every invocation `Dispose` has made or
will make on such an object is on a non-null pointer, and an object constructed from or
reset to the null pointer stores no deleter. -/
theorem C23_deleter_needs_pointer (s : BaseState) (hr : BaseReachable s) :
    (∀ i h, slot s.handles i = some h → h.deleter ≠ none → h.rawPtr ≠ nullptr) ∧
    (∀ e ∈ s.heap.released, e.2 ≠ nullptr) ∧
    (∀ i h (m : Heap), slot s.handles i = some h →
      (h.Dispose m).2.released = m.released ++ invocations h ∧
      ∀ e ∈ invocations h, e.2 ≠ nullptr) ∧
    (∀ op u, base_step s op = some u →
      (∀ i h, slot u.handles i = some h → h.deleter ≠ none → h.rawPtr ≠ nullptr) ∧
      (∀ e ∈ u.heap.released, e.2 ≠ nullptr)) ∧
    (∀ d : Option DeleterFn, (smart_ptr_nts.ctor nullptr d).deleter = none) ∧
    (∀ (i : Nat) (h : smart_ptr_nts) (d : Option DeleterFn), slot s.handles i = some h →
      (h.reset_ptr nullptr d s.heap).1.deleter = none ∧
      (h.reset_ptr nullptr d s.heap).1.rawPtr = nullptr) ∧
    (∀ d : Option DeleterFn,
      Option.map (fun u : BaseState => slot u.handles s.handles.length)
          (base_step s (BaseOp.ctor nullptr d))
        = some (some smart_ptr_nts.null)) ∧
    (∀ (i : Nat) (h : smart_ptr_nts) (d : Option DeleterFn), slot s.handles i = some h →
      Option.map (fun u : BaseState => slot u.handles i)
          (base_step s (BaseOp.reset_ptr i nullptr d))
        = some (some smart_ptr_nts.null)) := by
  obtain ⟨ops, hrun⟩ := hr
  have hI : BaseInv s := base_inv_run base_inv_init ops hrun
  refine ⟨hI.1, hI.2, ?_, ?_, ?_, ?_, ?_, ?_⟩
  · intro i h m hi
    exact ⟨base_Dispose_released h m, invocations_sound (hI.1 i h hi)⟩
  · intro op u hu
    exact base_inv_step hI op hu
  · intro d
    simp [smart_ptr_nts.ctor]
  · intro i h d _
    constructor
    · simp only [smart_ptr_nts.reset_ptr, base_Dispose_fst]
      simp
    · rfl
  · intro d
    simp only [base_step, Option.map_some']
    rw [slot_append, if_pos rfl]
    simp [smart_ptr_nts.ctor, smart_ptr_nts.null]
  · intro i h d hi
    simp only [base_step, hi, Option.map_some']
    rw [slot_set_self _ hi]
    simp only [smart_ptr_nts.reset_ptr, base_Dispose_fst]
    simp [smart_ptr_nts.null]

theorem C23_deleter_needs_pointer_witness :
    BaseReachable base_demo ∧
      slot base_demo.handles 0
        = some { rawPtr := 100, deleter := some DeleterFn.scalar_delete } ∧
      (some DeleterFn.scalar_delete : Option DeleterFn) ≠ none ∧
      (100 : Ptr) ≠ nullptr :=
  ⟨base_demo_reachable, by decide, by decide,
   (C23_deleter_needs_pointer base_demo base_demo_reachable).1 0
      { rawPtr := 100, deleter := some DeleterFn.scalar_delete } (by decide) (by decide)⟩

end smart_pointer_nts
